import Mathlib

/-!
# digest.c: windowing, streaming and output encoding

A shallow embedding of `src/src/digest.c` (the R package `digest`) and the
properties of its specification that concern the window applied to the input,
the file read loop, the rendering of a digest as hexadecimal text or raw
bytes, the seed, the error paths and the file handle, and the element-wise
function `vdigest`.

Conventions of the embedding.

* A byte, a `char` cell and a byte of a file are natural numbers; memory
  regions and files are lists of them.
* C integers are `Int` or `Nat`; a conversion to a narrower unsigned type is an
  explicit `% 2 ^ w` at the place where the source converts.
* The hash primitives (MD5, SHA, CRC32, xxHash, MurmurHash3, BLAKE3, CRC32C)
  live in other translation units.  They are parameters of the model,
  collected in the structure `Prims`.
* `error(...)` of R leaves `digest` at once; the model returns
  `Except.error`.  Undefined behaviour of C (an access outside an array, a
  null stream) is an error value of its own.
* The build modelled is the default one, `USESHA512 = 0`, on a platform that is
  not Windows.
-/

namespace Digest

/-! ## The C library: `printf` conversions, `snprintf`, `memcpy` -/

/-- Digit characters of the `x` conversion of `printf`; the source spells the
same table out as `sha2_hex_digits`. -/
def sha2_hex_digits : List Char := "0123456789abcdef".toList

/-- The character of one base-16 digit. -/
def hexDigit (d : Nat) : Char := sha2_hex_digits.getD d '0'

/-- Base-16 digits of `n`, least significant first, at least one digit, the way
`printf` generates them.  The first argument bounds the number of digits. -/
def hexDigitsRev : Nat → Nat → List Char
  | 0, _ => []
  | fuel + 1, n =>
    hexDigit (n % 16) :: (if n / 16 = 0 then [] else hexDigitsRev fuel (n / 16))

/-- Text of the conversion `%0Wx` applied to the unsigned value `n`: the
base-16 digits of `n`, most significant first, padded on the left with `0` up
to the minimum field width `W`. -/
def fmtHex (width n : Nat) : List Char :=
  let ds := (hexDigitsRev (n + 1) n).reverse
  List.replicate (width - ds.length) '0' ++ ds

/-- Store `data` into `mem` from index `off` on.  `none` when the store would
leave the array. -/
def memWrite (mem : List Nat) (off : Nat) (data : List Nat) : Option (List Nat) :=
  if off + data.length ≤ mem.length then
    some (mem.take off ++ data ++ mem.drop (off + data.length))
  else none

/-- The call `snprintf(str + off, size, ...)` where `text` is the formatted
text: at most `size - 1` characters are stored, followed by a NUL. -/
def snprintf (str : List Nat) (off size : Nat) (text : List Char) : Option (List Nat) :=
  if size = 0 then some str
  else memWrite str off ((text.take (size - 1)).map Char.toNat ++ [0])

/-- The call `memcpy(dst, src, n)`.  `none` when `src` has fewer than `n` bytes
or `dst` has no room for them. -/
def memcpy (dst src : List Nat) (n : Nat) : Option (List Nat) :=
  if n ≤ src.length then memWrite dst 0 (src.take n) else none

/-! ## Host byte order -/

/-- Compile-time configuration of the host: `bigEndian` holds when
`WORDS_BIGENDIAN` is defined, that is when `BYTE_ORDER == BIG_ENDIAN`. -/
structure Host where
  bigEndian : Bool
  deriving DecidableEq, Repr

/-- The bytes of an unsigned integer object of `size` bytes holding `h`, in the
order in which they lie in the memory of the host (what `&hash` points to). -/
def nativeBytes (host : Host) (size h : Nat) : List Nat :=
  let le := (List.range size).map fun i => h / 256 ^ i % 256
  if host.bigEndian then le.reverse else le

/-! ## Output helpers of `digest.c` -/

/-- Source: `_store_from_char_ptr` (lines 114-137), branch `USESHA512 = 0`.
Raw mode copies `output_length` bytes; hex mode calls
`snprintf(output + j * 2, 3, "%02x", hash[j])` for each `j`. -/
def _store_from_char_ptr (hash output : List Nat) (output_length : Nat) (leaveRaw : Int) :
    Option (List Nat) :=
  if leaveRaw ≠ 0 then memcpy output hash output_length
  else
    (List.range output_length).foldlM
      (fun out j => hash[j]?.bind fun b => snprintf out (j * 2) 3 (fmtHex 2 b)) output

/-- Source: `rev_memcpy` (lines 139-143): `dst[i] = src[len - i - 1]` for
`i = 0 .. len - 1`. -/
def rev_memcpy (dst src : List Nat) (len : Nat) : Option (List Nat) :=
  (List.range len).foldlM
    (fun d i => src[len - i - 1]?.bind fun b => memWrite d i [b]) dst

/-- Source: `_store_from_int32` (lines 146-154).  `hash` is a `uint32_t`. -/
def _store_from_int32 (host : Host) (hash : Nat) (output : List Nat) (leaveRaw : Int) :
    Option (List Nat) :=
  if leaveRaw ≠ 0 then
    if host.bigEndian then memcpy output (nativeBytes host 4 hash) 4
    else rev_memcpy output (nativeBytes host 4 hash) 4
  else snprintf output 0 (4 * 2 + 1) (fmtHex 8 hash)

/-- Source: `_store_from_int64` (lines 156-164).  `hash` is a `uint64_t`. -/
def _store_from_int64 (host : Host) (hash : Nat) (output : List Nat) (leaveRaw : Int) :
    Option (List Nat) :=
  if leaveRaw ≠ 0 then
    if host.bigEndian then memcpy output (nativeBytes host 8 hash) 8
    else rev_memcpy output (nativeBytes host 8 hash) 8
  else snprintf output 0 (8 * 2 + 1) (fmtHex 16 hash)

/-- Character codes of a text. -/
def ascii (s : String) : List Nat := s.toList.map Char.toNat

/-- Bytes of `h` as an unsigned integer of `size` bytes, most significant byte
first. -/
def bigEndianBytes (size h : Nat) : List Nat :=
  ((List.range size).map fun i => h / 256 ^ i % 256).reverse

/-- Rendering of a byte sequence as text: two base-16 digits per byte, high
nibble first, in the order of the bytes. -/
def hexOfBytes (bs : List Nat) : List Char :=
  bs.flatMap fun b => [hexDigit (b / 16), hexDigit (b % 16)]

/-- Value of a text read as a base-16 numeral, most significant digit first;
`none` when a character is not one of `0-9a-f`. -/
def hexValue (cs : List Char) : Option Nat :=
  cs.foldlM (fun acc c => (sha2_hex_digits.indexOf? c).map fun d => acc * 16 + d) 0

/-! ## R values, files, errors -/

/-- The R objects `digest` receives as `Txt` and returns: a raw vector, or a
character string given by the characters of its C string (R strings hold no
NUL; in an array of characters the string ends before the first NUL). -/
inductive SEXP where
  | raw (bytes : List Nat)
  | str (chars : List Nat)
  deriving DecidableEq, Repr

/-- Ways in which a call of `digest` ends without a result. -/
inductive DigestError where
  /-- The call `error("Cannot open input file: %s", txt)`. -/
  | cannotOpenInputFile
  /-- The call `error("Unsupported algorithm code")`. -/
  | unsupportedAlgorithmCode
  /-- The call of `error` after a reset function of xxHash returned `XXH_ERROR`. -/
  | xxhReset
  /-- The call of `error` after an update function of xxHash returned `XXH_ERROR`. -/
  | xxhUpdate
  /-- A stream function called on the null pointer `fp` (undefined in C). -/
  | nullStream
  /-- An access outside an array (undefined in C). -/
  | outOfBounds
  /-- The iteration bound of the model of a loop was reached. -/
  | outOfFuel
  /-- The call of `error` inside `STRING_ELT` when its argument is not a
  character vector. -/
  | notCharacterVector
  deriving DecidableEq, Repr

deriving instance DecidableEq for Except

/-- An open stream on a regular file: its bytes and the read position. -/
structure FILE where
  content : List Nat
  pos : Nat
  deriving DecidableEq, Repr

/-- The files that can be opened for reading, by path. -/
abbrev FileSystem := List Nat → Option (List Nat)

/-- The C string that starts at a pointer: the characters before the first
NUL. -/
def cstring (chars : List Nat) : List Nat := chars.takeWhile fun c => c ≠ 0

/-- The call `strlen(txt)`. -/
def strlen (chars : List Nat) : Nat := (cstring chars).length

/-- Source: `open_with_widechar_on_windows` (lines 53-73), the branch that is
not Windows: `fopen(txt, "rb")`. -/
def open_with_widechar_on_windows (fs : FileSystem) (txt : List Nat) : Option FILE :=
  (fs (cstring txt)).map fun c => ⟨c, 0⟩

/-- The call `fread(buf, 1, size, fp)`: the bytes stored in `buf` (their number
is the value returned) and the stream afterwards. -/
def fread (size : Nat) (fp : FILE) : List Nat × FILE :=
  let buf := (fp.content.drop fp.pos).take size
  (buf, ⟨fp.content, fp.pos + buf.length⟩)

/-- The call `fseek(fp, offset, SEEK_SET)` with `offset > 0`. -/
def fseek (fp : FILE) (offset : Int) : FILE := ⟨fp.content, offset.toNat⟩

/-- The call `mkChar(output)`: the characters before the first NUL. -/
def mkChar (output : List Nat) : Option (List Nat) :=
  if 0 ∈ output then some (cstring output) else none

/-! ## The hash primitives (parameters) -/

/-- Modelled from the spec: the macro `SHA512_DIGEST_LENGTH` is defined in
`sha2.h`, which is not among the sources; the spec gives SHA-512 a digest of
64 bytes. -/
def SHA512_DIGEST_LENGTH : Nat := 64

/-- Modelled from the spec: the macro `BLAKE3_OUT_LEN` is defined in
`blake3.h`, which is not among the sources; the spec gives BLAKE3 a digest of
32 bytes. -/
def BLAKE3_OUT_LEN : Nat := 32

/-- Modelled from the spec: `XXH128_canonicalFromHash` is declared in
`xxhash.h`, which is not among the sources.  The spec describes the canonical
form as 16 bytes, big-endian, `high64` then `low64`.  The argument is the pair
`(high64, low64)`. -/
def XXH128_canonicalFromHash (val : Nat × Nat) : List Nat :=
  bigEndianBytes 8 val.1 ++ bigEndianBytes 8 val.2

/-- A hash with a context and the three calls `starts` / `update` / `finish`
(MD5, SHA-1, SHA-256; `Init` / `Update` / `Final` for SHA-512; `init` /
`update` / `finalize` for BLAKE3).  `finish` yields the content of the array of
`len` `unsigned char` that receives the digest. -/
structure ByteHash (len : Nat) where
  ctx : Type
  starts : ctx
  update : ctx → List Nat → ctx
  finish : ctx → List Nat
  finish_length : ∀ c, (finish c).length = len
  finish_byte : ∀ c, ∀ b ∈ finish c, b < 256

/-- The streaming interface of xxHash with a seed: `XXH32_reset(state, seed)`,
`XXH32_update`, `XXH32_digest` (and the same for `XXH64`).  `none` stands for
the return value `XXH_ERROR`. -/
structure SeededStream (δ : Type) where
  state : Type
  reset : Int → Option state
  update : state → List Nat → Option state
  digest : state → δ

/-- The streaming interface of XXH3 the way the source uses it, without a seed:
`XXH3_64bits_reset(state)`, `XXH3_64bits_update`, `XXH3_64bits_digest` (and the
same for `XXH3_128bits`). -/
structure PlainStream (δ : Type) where
  state : Type
  reset : Option state
  update : state → List Nat → Option state
  digest : state → δ

/-- The primitives `digest.c` calls.  A memory region `(pointer, count)` passed
to a primitive is given as the list of its bytes. -/
structure Prims where
  md5 : ByteHash 16
  sha1 : ByteHash 20
  sha256 : ByteHash 32
  sha512 : ByteHash SHA512_DIGEST_LENGTH
  blake3 : ByteHash BLAKE3_OUT_LEN
  /-- The call `digest_crc32(crc, buf, len)`; `none` is the null pointer `buf`. -/
  digest_crc32 : Nat → Option (List Nat) → Nat
  /-- The call `crc32c_extend(crc, buf, len)`. -/
  crc32c_extend : Nat → List Nat → Nat
  /-- The call `XXH32(txt, nChar, seed)`. -/
  XXH32 : List Nat → Int → Nat
  /-- The call `XXH64(txt, nChar, seed)`. -/
  XXH64 : List Nat → Int → Nat
  /-- The call `PMurHash32(seed, txt, nChar)`. -/
  PMurHash32 : Int → List Nat → Nat
  /-- The call `PMurHash32_Process(&h1, &carry, buf, nChar)`, on the pair `(h1, carry)`. -/
  PMurHash32_Process : Nat × Nat → List Nat → Nat × Nat
  /-- The call `PMurHash32_Result(h1, carry, total_length)`. -/
  PMurHash32_Result : Nat → Nat → Nat → Nat
  /-- The call `XXH3_64bits_withSeed(txt, nChar, seed)`. -/
  XXH3_64bits_withSeed : List Nat → Int → Nat
  /-- The call `XXH3_128bits_withSeed(txt, nChar, seed)`, as `(high64, low64)`. -/
  XXH3_128bits_withSeed : List Nat → Int → Nat × Nat
  xxh32 : SeededStream Nat
  xxh64 : SeededStream Nat
  xxh3_64 : PlainStream Nat
  xxh3_128 : PlainStream (Nat × Nat)

/-! ## The read loops of the file cases -/

/-- Source: the loop of the branch `length >= 0` of every file case (lines
345-350 for MD5):
`while ((nChar = fread(buf, 1, sizeof(buf), fp)) > 0 && length > 0)` with the
body `if (nChar > length) nChar = length; update(buf, nChar); length -= nChar;`.
`upd` is the update call of the case, `bufSize` is `sizeof(buf)`, the first
argument bounds the number of iterations. -/
def readLimited {σ : Type} (upd : σ → List Nat → Except DigestError σ) (bufSize : Nat) :
    Nat → FILE → Int → σ → Except DigestError σ
  | 0, _, _, _ => .error .outOfFuel
  | fuel + 1, fp, length, st =>
    let r := fread bufSize fp
    let nChar : Int := r.1.length
    if nChar > 0 ∧ length > 0 then
      let nChar := if nChar > length then length else nChar
      match upd st (r.1.take nChar.toNat) with
      | .error e => .error e
      | .ok st => readLimited upd bufSize fuel r.2 (length - nChar) st
    else .ok st

/-- Source: the loop of the branch `length < 0` of every file case (lines
352-353 for MD5): `while ((nChar = fread(buf, 1, sizeof(buf), fp)) > 0)` with
the body `update(buf, nChar);`. -/
def readAll {σ : Type} (upd : σ → List Nat → Except DigestError σ) (bufSize : Nat) :
    Nat → FILE → σ → Except DigestError σ
  | 0, _, _ => .error .outOfFuel
  | fuel + 1, fp, st =>
    let r := fread bufSize fp
    let nChar : Int := r.1.length
    if nChar > 0 then
      match upd st (r.1.take nChar.toNat) with
      | .error e => .error e
      | .ok st => readAll upd bufSize fuel r.2 st
    else .ok st

/-- Source: the statement `if (length>=0) { while ... } else { while ... }` of
every file case.  Each iteration that goes on reads at least one byte, so the
bound `length of the file + 1` on the iterations is never reached. -/
def readStream {σ : Type} (upd : σ → List Nat → Except DigestError σ) (bufSize : Nat)
    (fp : FILE) (length : Int) (st : σ) : Except DigestError σ :=
  if length ≥ 0 then readLimited upd bufSize (fp.content.length + 1) fp length st
  else readAll upd bufSize (fp.content.length + 1) fp st

/-- Source: `if (skip > 0) fseek(fp, skip, SEEK_SET);`, the first statement on
the stream in every file case. -/
def seekSkip (fp : FILE) (skip : Int) : FILE :=
  if skip > 0 then fseek fp skip else fp

/-- An update call that cannot report an error. -/
def total {σ : Type} (update : σ → List Nat → σ) : σ → List Nat → Except DigestError σ :=
  fun st chunk => .ok (update st chunk)

/-- An update call of xxHash followed by
`if (updateResult == XXH_ERROR) error(...)`. -/
def checked {σ : Type} (update : σ → List Nat → Option σ) :
    σ → List Nat → Except DigestError σ :=
  fun st chunk =>
    match update st chunk with
    | none => .error .xxhUpdate
    | some st => .ok st

/-- A reset call of xxHash followed by
`if (resetResult == XXH_ERROR) error(...)`. -/
def checkedReset {σ : Type} (resetResult : Option σ) : Except DigestError σ :=
  match resetResult with
  | none => .error .xxhReset
  | some st => .ok st

/-- The update call that records the chunks it receives, in call order. -/
def record : List (List Nat) → List Nat → Except DigestError (List (List Nat)) :=
  fun tr chunk => .ok (tr ++ [chunk])

/-- The chunks the update call of a file case receives, in call order, when the
loops run on the stream `fp`: what `record` has collected at the end. -/
def chunksRead (bufSize : Nat) (fp : FILE) (length : Int) : List (List Nat) :=
  match readStream record bufSize fp length [] with
  | .ok tr => tr
  | .error _ => []

/-! ## `digest` -/

/-- Source: `size_t BUF_SIZE = 1024;` (line 167). -/
def BUF_SIZE : Nat := 1024

/-- Source: lines 197-205, the window applied to the region `(txt, nChar)`:
`txt` is the list of the bytes from the pointer on, `nChar` the count. -/
def window (txt : List Nat) (nChar : Int) (algo length skip : Int) : List Nat × Int :=
  let r : List Nat × Int :=
    if skip > 0 ∧ algo < 100 then
      if skip ≥ nChar then (txt, 0) else (txt.drop skip.toNat, nChar - skip)
    else (txt, nChar)
  if length ≥ 0 ∧ length < r.2 then (r.1, length) else r

/-- The bytes a primitive reads when it is handed the pointer `txt` and the
count `n`. -/
def region (txt : List Nat) (n : Int) : List Nat := txt.take n.toNat

/-- An out-of-bounds access ends the computation. -/
def stored (r : Option (List Nat)) (output_length : Int) :
    Except DigestError (List Nat × Int) :=
  match r with
  | none => .error .outOfBounds
  | some output => .ok (output, output_length)

/-- A file case needs the stream; with a raw vector as `Txt` the pointer `fp`
is null. -/
def withFile {α : Type} (fp : Option FILE) (k : FILE → Except DigestError α) :
    Except DigestError α :=
  match fp with
  | none => .error .nullStream
  | some fp => k fp

/-- Source: the output of the cases 13 and 113 (lines 327-333 and 650-656).
`val` is the pair `(high64, low64)`. -/
def storeXXH128 (val : Nat × Nat) (output : List Nat) (leaveRaw : Int) : Option (List Nat) :=
  if leaveRaw ≠ 0 then memcpy output (XXH128_canonicalFromHash val) 16
  else snprintf output 0 128 (fmtHex 16 val.1 ++ fmtHex 16 val.2)

/-- Source: the `switch (algo)` of `digest` (lines 207-663).  The result is the
array `output` and `output_length`.  `txt` and `nChar` are the region after
the window, `fp` the stream (null unless a file was opened). -/
def switchAlgo (P : Prims) (host : Host) (bufSize : Nat) (algo : Int) (txt : List Nat)
    (nChar : Int) (fp : Option FILE) (length skip seed leaveRaw : Int) (output : List Nat) :
    Except DigestError (List Nat × Int) :=
  -- case 1: md5
  if algo = 1 then
    let ctx := P.md5.update P.md5.starts (region txt nChar)
    stored (_store_from_char_ptr (P.md5.finish ctx) output 16 leaveRaw) 16
  -- case 2: sha1
  else if algo = 2 then
    let ctx := P.sha1.update P.sha1.starts (region txt nChar)
    stored (_store_from_char_ptr (P.sha1.finish ctx) output 20 leaveRaw) 20
  -- case 3: crc32; `sizeof(unsigned int)` is 4
  else if algo = 3 then
    let l : Int := nChar % 2 ^ 32
    let val := P.digest_crc32 0 none
    let val := P.digest_crc32 val (some (region txt l))
    stored (_store_from_int32 host (val % 2 ^ 32) output leaveRaw) 4
  -- case 4: sha256
  else if algo = 4 then
    let ctx := P.sha256.update P.sha256.starts (region txt nChar)
    stored (_store_from_char_ptr (P.sha256.finish ctx) output 32 leaveRaw) 32
  -- case 5: sha2-512
  else if algo = 5 then
    let ctx := P.sha512.update P.sha512.starts (region txt nChar)
    stored (_store_from_char_ptr (P.sha512.finish ctx) output SHA512_DIGEST_LENGTH leaveRaw)
      SHA512_DIGEST_LENGTH
  -- case 6: xxhash32
  else if algo = 6 then
    let val := P.XXH32 (region txt nChar) seed
    stored (_store_from_int32 host (val % 2 ^ 32) output leaveRaw) 4
  -- case 7: xxhash64
  else if algo = 7 then
    let val := P.XXH64 (region txt nChar) seed
    stored (_store_from_int64 host (val % 2 ^ 64) output leaveRaw) 8
  -- case 8: MurmurHash3 32
  else if algo = 8 then
    let val := P.PMurHash32 seed (region txt nChar)
    stored (_store_from_int32 host (val % 2 ^ 32) output leaveRaw) 4
  -- case 10: blake3
  else if algo = 10 then
    let hasher := P.blake3.update P.blake3.starts (region txt nChar)
    stored (_store_from_char_ptr (P.blake3.finish hasher) output BLAKE3_OUT_LEN leaveRaw)
      BLAKE3_OUT_LEN
  -- case 11: crc32c
  else if algo = 11 then
    let crc := P.crc32c_extend 0 (region txt nChar) % 2 ^ 32
    stored (_store_from_int32 host (crc % 2 ^ 32) output leaveRaw) 4
  -- case 12: xxh3_64bits
  else if algo = 12 then
    let val := P.XXH3_64bits_withSeed (region txt nChar) seed
    stored (_store_from_int64 host (val % 2 ^ 64) output leaveRaw) 8
  -- case 13: xxh3_128bits
  else if algo = 13 then
    let r := P.XXH3_128bits_withSeed (region txt nChar) seed
    let val := (r.1 % 2 ^ 64, r.2 % 2 ^ 64)
    stored (storeXXH128 val output leaveRaw) 16
  -- case 101: md5 file
  else if algo = 101 then
    withFile fp fun fp =>
      (readStream (total P.md5.update) bufSize (seekSkip fp skip) length P.md5.starts).bind
        fun ctx => stored (_store_from_char_ptr (P.md5.finish ctx) output 16 leaveRaw) 16
  -- case 102: sha1 file
  else if algo = 102 then
    withFile fp fun fp =>
      (readStream (total P.sha1.update) bufSize (seekSkip fp skip) length P.sha1.starts).bind
        fun ctx => stored (_store_from_char_ptr (P.sha1.finish ctx) output 20 leaveRaw) 20
  -- case 103: crc32 file
  else if algo = 103 then
    withFile fp fun fp =>
      (readStream (total fun val buf => P.digest_crc32 val (some buf)) bufSize
        (seekSkip fp skip) length (P.digest_crc32 0 none)).bind
        fun val => stored (_store_from_int32 host (val % 2 ^ 32) output leaveRaw) 4
  -- case 104: sha256 file
  else if algo = 104 then
    withFile fp fun fp =>
      (readStream (total P.sha256.update) bufSize (seekSkip fp skip) length
        P.sha256.starts).bind
        fun ctx => stored (_store_from_char_ptr (P.sha256.finish ctx) output 32 leaveRaw) 32
  -- case 105: sha2-512 file
  else if algo = 105 then
    withFile fp fun fp =>
      (readStream (total P.sha512.update) bufSize (seekSkip fp skip) length
        P.sha512.starts).bind
        fun ctx =>
          stored (_store_from_char_ptr (P.sha512.finish ctx) output SHA512_DIGEST_LENGTH
            leaveRaw) SHA512_DIGEST_LENGTH
  -- case 106: xxhash32 file
  else if algo = 106 then
    withFile fp fun fp =>
      (checkedReset (P.xxh32.reset seed)).bind fun state =>
        (readStream (checked P.xxh32.update) bufSize (seekSkip fp skip) length state).bind
          fun state =>
            stored (_store_from_int32 host (P.xxh32.digest state % 2 ^ 32) output leaveRaw) 4
  -- case 107: xxhash64 file
  else if algo = 107 then
    withFile fp fun fp =>
      (checkedReset (P.xxh64.reset seed)).bind fun state =>
        (readStream (checked P.xxh64.update) bufSize (seekSkip fp skip) length state).bind
          fun state =>
            stored (_store_from_int64 host (P.xxh64.digest state % 2 ^ 64) output leaveRaw) 8
  -- case 108: murmur32 file
  else if algo = 108 then
    withFile fp fun fp =>
      let h1 : Nat := (seed % 2 ^ 32).toNat
      let carry : Nat := 0
      let total_length : Nat := 0
      (readStream
        (total fun (st : (Nat × Nat) × Nat) buf =>
          (P.PMurHash32_Process st.1 buf, (st.2 + buf.length) % 2 ^ 64))
        bufSize (seekSkip fp skip) length ((h1, carry), total_length)).bind
        fun st =>
          let val := P.PMurHash32_Result st.1.1 st.1.2 st.2
          stored (_store_from_int32 host (val % 2 ^ 32) output leaveRaw) 4
  -- case 110: blake3 file
  else if algo = 110 then
    withFile fp fun fp =>
      (readStream (total P.blake3.update) bufSize (seekSkip fp skip) length
        P.blake3.starts).bind
        fun hasher =>
          stored (_store_from_char_ptr (P.blake3.finish hasher) output BLAKE3_OUT_LEN leaveRaw)
            BLAKE3_OUT_LEN
  -- case 111: crc32c file
  else if algo = 111 then
    withFile fp fun fp =>
      (readStream (total fun crc buf => P.crc32c_extend crc buf % 2 ^ 32) bufSize
        (seekSkip fp skip) length 0).bind
        fun crc => stored (_store_from_int32 host (crc % 2 ^ 32) output leaveRaw) 4
  -- case 112: xxh3_64 file
  else if algo = 112 then
    withFile fp fun fp =>
      (checkedReset (P.xxh3_64.reset)).bind fun state =>
        (readStream (checked P.xxh3_64.update) bufSize (seekSkip fp skip) length state).bind
          fun state =>
            stored (_store_from_int64 host (P.xxh3_64.digest state % 2 ^ 64) output leaveRaw) 8
  -- case 113: xxh3_128 file
  else if algo = 113 then
    withFile fp fun fp =>
      (checkedReset (P.xxh3_128.reset)).bind fun state =>
        (readStream (checked P.xxh3_128.update) bufSize (seekSkip fp skip) length state).bind
          fun state =>
            let r := P.xxh3_128.digest state
            let val := (r.1 % 2 ^ 64, r.2 % 2 ^ 64)
            stored (storeXXH128 val output leaveRaw) 16
  -- default
  else .error .unsupportedAlgorithmCode

/-- The result of a call of `digest`: the value returned or the error raised,
and the numbers of successful `fopen` and of `fclose` calls made. -/
structure Outcome where
  value : Except DigestError SEXP
  opened : Nat
  closed : Nat

/-- Source: lines 183-196 of `digest`: the pointer `txt`, the count `nChar` and
the stream `fp` obtained from `Txt`. -/
def openInput (fs : FileSystem) (Txt : SEXP) (algo : Int) :
    Except DigestError (List Nat × Int × Option FILE) :=
  match Txt with
  | .raw bytes => .ok (bytes, bytes.length, none)
  | .str chars =>
    if algo ≥ 100 then
      match open_with_widechar_on_windows fs chars with
      | none => .error .cannotOpenInputFile
      | some fp => .ok (chars, strlen chars, some fp)
    else .ok (chars, strlen chars, none)

/-- Source: lines 669-678 of `digest`: the R object built from `output`. -/
def makeResult (output : List Nat) (output_length leaveRaw : Int) : Except DigestError SEXP :=
  if leaveRaw ≠ 0 then
    match memcpy (List.replicate output_length.toNat 0) output output_length.toNat with
    | none => .error .outOfBounds
    | some bytes => .ok (.raw bytes)
  else
    match mkChar output with
    | none => .error .outOfBounds
    | some chars => .ok (.str chars)

/-- The value `digest` returns given the result of the `switch`: the error
raised in it, or the R object built from `output` (see `digestWith_value`). -/
def emit (sw : Except DigestError (List Nat × Int)) (leaveRaw : Int) : Except DigestError SEXP :=
  match sw with
  | .error e => .error e
  | .ok (output, output_length) => makeResult output output_length leaveRaw

/-- Source: `digest` (lines 166-679), with the read buffer size as a
parameter.  `junk` gives the indeterminate initial content of the automatic
array `char output[128+1]`. -/
def digestWith (bufSize : Nat) (P : Prims) (host : Host) (fs : FileSystem) (junk : Nat → Nat)
    (Txt : SEXP) (Algo Length Skip Leave_raw Seed : Int) : Outcome :=
  let output := (List.range (128 + 1)).map junk
  match openInput fs Txt Algo with
  | .error e => ⟨.error e, 0, 0⟩
  | .ok (txt, nChar, fp) =>
    let opened := if fp.isSome then 1 else 0
    let w := window txt nChar Algo Length Skip
    match switchAlgo P host bufSize Algo w.1 w.2 fp Length Skip Seed Leave_raw output with
    | .error e => ⟨.error e, opened, 0⟩
    | .ok (output, output_length) =>
      let closed := if Algo ≥ 100 ∧ fp.isSome then 1 else 0
      ⟨makeResult output output_length Leave_raw, opened, closed⟩

/-- Source: `digest` (lines 166-679). -/
def digest (P : Prims) (host : Host) (fs : FileSystem) (junk : Nat → Nat)
    (Txt : SEXP) (Algo Length Skip Leave_raw Seed : Int) : Outcome :=
  digestWith BUF_SIZE P host fs junk Txt Algo Length Skip Leave_raw Seed

/-! ## `vdigest` -/

/-- The R objects `vdigest` receives as `Txt` and returns: a raw vector, a list
(`VECSXP`) of objects that `digest` accepts, or a character vector (`STRSXP`)
of any number of strings. -/
inductive VSEXP where
  | raw (bytes : List Nat)
  | list (elts : List SEXP)
  | character (strings : List (List Nat))
  deriving DecidableEq, Repr

/-- The object a call of `digest` returns, seen as an object `vdigest` returns:
the raw vector, or the character vector of one string. -/
def VSEXP.ofSEXP : SEXP → VSEXP
  | .raw bytes => .raw bytes
  | .str chars => .character [chars]

/-- The call `length(Txt)` of R (`Rf_length`) in `vdigest`. -/
def Rf_length : VSEXP → Nat
  | .raw bytes => bytes.length
  | .list elts => elts.length
  | .character strings => strings.length

/-- The string `STRING_VALUE` yields for a vector without a first element:
`asChar` of R returns `NA_STRING`, whose characters are `NA`. -/
def NA_STRING : List Nat := ascii "NA"

/-- The object `digest` works on when `vdigest` hands it `Txt` itself (line
685): a raw vector as it is; for a list or a character vector, which has no
element on this path, the string `STRING_VALUE` yields. -/
def VSEXP.whole : VSEXP → SEXP
  | .raw bytes => .raw bytes
  | .list _ => .str NA_STRING
  | .character _ => .str NA_STRING

/-- The call `STRING_ELT(d, 0)` on the object `d` a call of `digest` returned:
the string of a character vector; R raises an error for any other object. -/
def STRING_ELT (d : SEXP) : Except DigestError (List Nat) :=
  match d with
  | .str chars => .ok chars
  | .raw _ => .error .notCharacterVector

/-- The call `SET_STRING_ELT(ans, i, s)`. -/
def SET_STRING_ELT (ans : List (List Nat)) (i : Nat) (s : List Nat) :
    Except DigestError (List (List Nat)) :=
  if i < ans.length then .ok (ans.set i s) else .error .outOfBounds

/-- Source: the loops of `vdigest` (lines 689-692 and 694-697), from the index
`i` on: `d = digest(element i, ...); SET_STRING_ELT(ans, i, STRING_ELT(d, 0));`.
`call` is the call of `digest` with the other arguments of `vdigest`, the list
holds the elements from index `i` on. -/
def vdigestLoop (call : SEXP → Except DigestError SEXP) :
    List SEXP → Nat → List (List Nat) → Except DigestError (List (List Nat))
  | [], _, ans => .ok ans
  | x :: rest, i, ans =>
    (call x).bind fun d =>
      (STRING_ELT d).bind fun s =>
        (SET_STRING_ELT ans i s).bind fun ans => vdigestLoop call rest (i + 1) ans

/-- Source: `vdigest` (lines 682-701): the value returned, or the error raised
by the first call that fails.  `allocVector(STRSXP, n)` yields `n` empty
strings; an element of a character vector reaches `digest` as a string. -/
def vdigest (P : Prims) (host : Host) (fs : FileSystem) (junk : Nat → Nat)
    (Txt : VSEXP) (Algo Length Skip Leave_raw Seed : Int) : Except DigestError VSEXP :=
  let call := fun (x : SEXP) => (digest P host fs junk x Algo Length Skip Leave_raw Seed).value
  let n := Rf_length Txt
  match Txt with
  | .raw bytes => (call (.raw bytes)).map VSEXP.ofSEXP
  | .list elts =>
    if n = 0 then (call (VSEXP.whole Txt)).map VSEXP.ofSEXP
    else (vdigestLoop call elts 0 (List.replicate n [])).map VSEXP.character
  | .character strings =>
    if n = 0 then (call (VSEXP.whole Txt)).map VSEXP.ofSEXP
    else (vdigestLoop call (strings.map SEXP.str) 0 (List.replicate n [])).map VSEXP.character

/-! ## Vocabulary of the statements -/

/-- The algorithm codes with a case in the `switch`. -/
def supportedCodes : List Int :=
  [1, 2, 3, 4, 5, 6, 7, 8, 10, 11, 12, 13,
   101, 102, 103, 104, 105, 106, 107, 108, 110, 111, 112, 113]

/-- The byte sequence a call of `digest` is about: the bytes of `Txt` in
in-memory mode (codes below 100), the content of the file named by `Txt` in
file mode.  There is none when the file cannot be opened, or when a raw vector
is given in file mode. -/
def inputBytes (fs : FileSystem) (Txt : SEXP) (algo : Int) : Option (List Nat) :=
  match Txt with
  | .raw bytes => if algo < 100 then some bytes else none
  | .str chars => if algo < 100 then some (cstring chars) else fs (cstring chars)

/-- The file cases that use the streaming interface of xxHash, whose reset and
update calls can report `XXH_ERROR`: xxHash32, xxHash64, XXH3-64, XXH3-128. -/
def xxhStreamCodes : List Int := [106, 107, 112, 113]

/-- The reset functions of xxHash report `XXH_OK` for the seed. -/
def Prims.ResetOk (P : Prims) (seed : Int) : Prop :=
  (P.xxh32.reset seed).isSome ∧ (P.xxh64.reset seed).isSome ∧
    P.xxh3_64.reset.isSome ∧ P.xxh3_128.reset.isSome

/-- The update functions of xxHash report `XXH_OK`. -/
def Prims.UpdateOk (P : Prims) : Prop :=
  (∀ s b, (P.xxh32.update s b).isSome) ∧ (∀ s b, (P.xxh64.update s b).isSome) ∧
    (∀ s b, (P.xxh3_64.update s b).isSome) ∧ (∀ s b, (P.xxh3_128.update s b).isSome)

/-- The digest length in bytes the specification declares for a code. -/
def declaredLength (algo : Int) : Nat :=
  if algo = 1 ∨ algo = 101 then 16
  else if algo = 2 ∨ algo = 102 then 20
  else if algo = 3 ∨ algo = 103 then 4
  else if algo = 4 ∨ algo = 104 then 32
  else if algo = 5 ∨ algo = 105 then 64
  else if algo = 6 ∨ algo = 106 then 4
  else if algo = 7 ∨ algo = 107 then 8
  else if algo = 8 ∨ algo = 108 then 4
  else if algo = 10 ∨ algo = 110 then 32
  else if algo = 11 ∨ algo = 111 then 4
  else if algo = 12 ∨ algo = 112 then 8
  else if algo = 13 ∨ algo = 113 then 16
  else 0

/-- The window of the specification on a byte sequence: drop the first
`max skip 0` bytes, then keep the first `length` bytes when `length >= 0`. -/
def windowed (bytes : List Nat) (skip length : Int) : List Nat :=
  let rest := bytes.drop (max skip 0).toNat
  if length ≥ 0 then rest.take length.toNat else rest

/-- The R object for a digest given by its bytes: the raw vector of the bytes,
or the string of their base-16 rendering. -/
def render (bytes : List Nat) (leaveRaw : Int) : SEXP :=
  if leaveRaw ≠ 0 then .raw bytes else .str ((hexOfBytes bytes).map Char.toNat)

/-- The string `digest` returns in hex mode for the raw vector it returns in
raw mode: two base-16 digits for each byte, in order. -/
def hexOfRaw (s : SEXP) : SEXP :=
  match s with
  | .raw bytes => .str ((hexOfBytes bytes).map Char.toNat)
  | .str chars => .str chars

/-- A computation that ends with a value, not with an error. -/
def IsOk {α : Type} (x : Except DigestError α) : Prop := ∃ v, x = .ok v

/-- The elements of a collection handed to `vdigest`, as `digest` receives
them one by one. -/
def VSEXP.elements : VSEXP → List SEXP
  | .raw _ => []
  | .list elts => elts
  | .character strings => strings.map SEXP.str

/-- The array `output` after a digest of the given bytes was stored in it: in
raw mode the bytes take the place of the first cells; in hex mode two
characters for each byte and a NUL do.  The cells after them are those of
`output`. -/
def filled (output bytes : List Nat) (leaveRaw : Int) : List Nat :=
  if leaveRaw ≠ 0 then bytes ++ output.drop bytes.length
  else (hexOfBytes bytes).map Char.toNat ++ [0] ++ output.drop (2 * bytes.length + 1)

/-- The strings obtained from the elements of a collection one by one, in
order, or the error of the first element on which `step` fails. -/
def collect (step : SEXP → Except DigestError (List Nat)) :
    List SEXP → Except DigestError (List (List Nat))
  | [] => .ok []
  | x :: rest =>
    match step x with
    | .error e => .error e
    | .ok s =>
      match collect step rest with
      | .error e => .error e
      | .ok strs => .ok (s :: strs)

/-- The codes of the algorithms without a seed: MD5, SHA-1, CRC32, SHA-256,
SHA-512, BLAKE3, CRC32C, in memory and on a file. -/
def seedFreeCodes : List Int := [1, 2, 3, 4, 5, 10, 11, 101, 102, 103, 104, 105, 110, 111]

/-- An update call for which feeding two chunks one after the other is feeding
their concatenation: `update(update(s, a), b) = update(s, a ++ b)`, an error
of the first call being the error of the whole. -/
def Splits {σ : Type} (upd : σ → List Nat → Except DigestError σ) : Prop :=
  ∀ s a b, (upd s a).bind (fun s1 => upd s1 b) = upd s (a ++ b)

/-- The update calls of all the streaming primitives are independent of the
way the bytes are split into chunks.  The values of `crc32c_extend` are
`uint32_t`. -/
structure Prims.ChunkIndependent (P : Prims) : Prop where
  md5 : ∀ s a b, P.md5.update (P.md5.update s a) b = P.md5.update s (a ++ b)
  sha1 : ∀ s a b, P.sha1.update (P.sha1.update s a) b = P.sha1.update s (a ++ b)
  sha256 : ∀ s a b, P.sha256.update (P.sha256.update s a) b = P.sha256.update s (a ++ b)
  sha512 : ∀ s a b, P.sha512.update (P.sha512.update s a) b = P.sha512.update s (a ++ b)
  blake3 : ∀ s a b, P.blake3.update (P.blake3.update s a) b = P.blake3.update s (a ++ b)
  crc32 : ∀ v a b,
    P.digest_crc32 (P.digest_crc32 v (some a)) (some b) = P.digest_crc32 v (some (a ++ b))
  crc32c : ∀ c a b,
    P.crc32c_extend (P.crc32c_extend c a % 2 ^ 32) b % 2 ^ 32
      = P.crc32c_extend c (a ++ b) % 2 ^ 32
  xxh32 : ∀ s a b,
    (P.xxh32.update s a).bind (fun s1 => P.xxh32.update s1 b) = P.xxh32.update s (a ++ b)
  xxh64 : ∀ s a b,
    (P.xxh64.update s a).bind (fun s1 => P.xxh64.update s1 b) = P.xxh64.update s (a ++ b)
  murmur : ∀ s a b,
    P.PMurHash32_Process (P.PMurHash32_Process s a) b = P.PMurHash32_Process s (a ++ b)
  xxh3_64 : ∀ s a b,
    (P.xxh3_64.update s a).bind (fun s1 => P.xxh3_64.update s1 b)
      = P.xxh3_64.update s (a ++ b)
  xxh3_128 : ∀ s a b,
    (P.xxh3_128.update s a).bind (fun s1 => P.xxh3_128.update s1 b)
      = P.xxh3_128.update s (a ++ b)

/-! ## A concrete family of primitives

Used to evaluate the model on concrete inputs.  Every context is a number into
which the bytes are folded one by one, so every update is independent of the
chunking, and every one-shot function agrees with its streaming form at the
same seed (at seed 0 for XXH3, whose streaming form is reset without a
seed). -/

/-- Fold the bytes of a chunk into an accumulator. -/
def mix (acc : Nat) (chunk : List Nat) : Nat :=
  chunk.foldl (fun a b => (a * 31 + b + 1) % 2 ^ 64) acc

/-- A hash with digests of `len` bytes. -/
def sampleHash (len : Nat) : ByteHash len where
  ctx := Nat
  starts := 7
  update := mix
  finish := fun c => (List.range len).map fun i => (c / 256 ^ i + i) % 256
  finish_length := by intro c; simp
  finish_byte := by
    intro c b hb
    simp only [List.mem_map] at hb
    obtain ⟨i, _, rfl⟩ := hb
    exact Nat.mod_lt _ (by norm_num)

/-- A seeded stream whose state is the accumulator. -/
def sampleSeeded (w : Nat) : SeededStream Nat where
  state := Nat
  reset := fun seed => some (seed % 2 ^ w).toNat
  update := fun s chunk => some (mix s chunk)
  digest := fun s => s

/-- The sample primitives. -/
def samplePrims : Prims where
  md5 := sampleHash 16
  sha1 := sampleHash 20
  sha256 := sampleHash 32
  sha512 := sampleHash SHA512_DIGEST_LENGTH
  blake3 := sampleHash BLAKE3_OUT_LEN
  digest_crc32 := fun crc buf =>
    match buf with
    | none => 0
    | some b => mix crc b
  crc32c_extend := mix
  XXH32 := fun data seed => mix (seed % 2 ^ 32).toNat data
  XXH64 := fun data seed => mix (seed % 2 ^ 64).toNat data
  PMurHash32 := fun seed data => mix (seed % 2 ^ 32).toNat data + data.length
  PMurHash32_Process := fun st chunk => (mix st.1 chunk, st.2)
  PMurHash32_Result := fun h1 _ total_length => h1 + total_length
  XXH3_64bits_withSeed := fun data seed => mix (seed % 2 ^ 64).toNat data
  XXH3_128bits_withSeed := fun data seed =>
    (mix (seed % 2 ^ 64).toNat data, mix ((seed % 2 ^ 64).toNat + 1) data)
  xxh32 := sampleSeeded 32
  xxh64 := sampleSeeded 64
  xxh3_64 :=
    { state := Nat
      reset := some 0
      update := fun s chunk => some (mix s chunk)
      digest := fun s => s }
  xxh3_128 :=
    { state := Nat × Nat
      reset := some (0, 1)
      update := fun s chunk => some (mix s.1 chunk, mix s.2 chunk)
      digest := fun s => s }

/-- A file system with one file, named `f`, of the given content. -/
def oneFile (content : List Nat) : FileSystem :=
  fun path => if path = [102] then some content else none

/-- The sample primitives with an `XXH32_reset` that reports `XXH_ERROR`. -/
def resetFails : Prims :=
  { samplePrims with
    xxh32 :=
      { state := Nat
        reset := fun _ => none
        update := fun s chunk => some (mix s chunk)
        digest := fun s => s } }

/-- The sample primitives with an `XXH32_update` that reports `XXH_ERROR`. -/
def updateFails : Prims :=
  { samplePrims with
    xxh32 :=
      { state := Nat
        reset := fun seed => some (seed % 2 ^ 32).toNat
        update := fun _ _ => none
        digest := fun s => s } }

/-! ## Lemmas on the `printf` conversion -/

theorem hexDigit_zero : hexDigit 0 = '0' := rfl

/-- The digits generated for a value below `16 ^ (w + 1)`, padded, are the
`w + 1` positional digits. -/
theorem hexDigitsRev_pad (w : Nat) : ∀ (n fuel : Nat), n < 16 ^ (w + 1) → 0 < fuel →
    n < 16 ^ fuel →
    (hexDigitsRev fuel n).length ≤ w + 1 ∧
    hexDigitsRev fuel n ++ List.replicate (w + 1 - (hexDigitsRev fuel n).length) '0'
      = (List.range (w + 1)).map fun i => hexDigit (n / 16 ^ i % 16) := by
  induction w with
  | zero =>
    intro n fuel hn hf _
    obtain ⟨f, rfl⟩ : ∃ f, fuel = f + 1 := ⟨fuel - 1, by omega⟩
    have h0 : n / 16 = 0 := by omega
    simp [hexDigitsRev, h0, List.range_succ]
  | succ w ih =>
    intro n fuel hn hf hnf
    obtain ⟨f, rfl⟩ : ∃ f, fuel = f + 1 := ⟨fuel - 1, by omega⟩
    have hmap : (List.range (w + 1 + 1)).map (fun i => hexDigit (n / 16 ^ i % 16))
        = hexDigit (n % 16) ::
          (List.range (w + 1)).map (fun i => hexDigit (n / 16 / 16 ^ i % 16)) := by
      rw [List.range_succ_eq_map]
      simp [Nat.pow_succ, Nat.div_div_eq_div_mul, Nat.mul_comm]
    by_cases h0 : n / 16 = 0
    · simp only [hexDigitsRev, h0, if_true, List.length_singleton]
      refine ⟨by omega, ?_⟩
      rw [hmap]
      simp only [h0, Nat.zero_div, Nat.zero_mod, hexDigit_zero, Nat.add_sub_cancel,
        List.singleton_append, List.cons.injEq, true_and]
      apply List.ext_getElem <;> simp
    · have hn1 : n / 16 < 16 ^ (w + 1) := by
        rw [Nat.div_lt_iff_lt_mul (by norm_num)]
        simpa [Nat.pow_succ] using hn
      have hf1 : 0 < f := by
        rcases f with _ | f
        · simp at hnf; omega
        · omega
      have hnf1 : n / 16 < 16 ^ f := by
        rw [Nat.div_lt_iff_lt_mul (by norm_num)]
        simpa [Nat.pow_succ] using hnf
      obtain ⟨hlen, hpad⟩ := ih (n / 16) f hn1 hf1 hnf1
      simp only [hexDigitsRev, h0, if_false, List.length_cons]
      refine ⟨by omega, ?_⟩
      rw [hmap, ← hpad]
      simp

/-- The positional form of `%0Wx` on a value that fits in `W` digits. -/
theorem fmtHex_eq (w n : Nat) (hn : n < 16 ^ (w + 1)) :
    fmtHex (w + 1) n = ((List.range (w + 1)).map fun i => hexDigit (n / 16 ^ i % 16)).reverse := by
  have hfuel : n < 16 ^ (n + 1) :=
    Nat.lt_trans (Nat.lt_succ_self n) (Nat.lt_pow_self (by norm_num : 1 < 16) (n + 1))
  obtain ⟨_, hpad⟩ := hexDigitsRev_pad w n (n + 1) hn (Nat.succ_pos n) hfuel
  rw [← hpad]
  simp [fmtHex]

theorem fmtHex_byte (b : Nat) (hb : b < 256) :
    fmtHex 2 b = [hexDigit (b / 16), hexDigit (b % 16)] := by
  rw [fmtHex_eq 1 b (by norm_num; omega)]
  have : b / 16 % 16 = b / 16 := by omega
  simp [List.range_succ, this]

/-! ## Lemmas on stores into an array -/

theorem memWrite_at_length (A B data : List Nat) (h : data.length ≤ B.length) :
    memWrite (A ++ B) A.length data = some (A ++ data ++ B.drop data.length) := by
  have h1 : A.length + data.length ≤ (A ++ B).length := by simp; omega
  simp [memWrite, h1, h, List.drop_append, List.take_append]

theorem memWrite_zero (mem data : List Nat) (h : data.length ≤ mem.length) :
    memWrite mem 0 data = some (data ++ mem.drop data.length) := by
  simpa using memWrite_at_length [] mem data h

theorem memcpy_eq (dst src : List Nat) (n : Nat) (hs : n ≤ src.length) (hd : n ≤ dst.length) :
    memcpy dst src n = some (src.take n ++ dst.drop n) := by
  have h1 : (src.take n).length = n := by simp [hs]
  simp only [memcpy, hs, if_true]
  rw [memWrite_zero _ _ (by omega), h1]

theorem hexOfBytes_append (A B : List Nat) :
    hexOfBytes (A ++ B) = hexOfBytes A ++ hexOfBytes B := by
  simp [hexOfBytes]

theorem hexOfBytes_length (A : List Nat) : (hexOfBytes A).length = 2 * A.length := by
  induction A with
  | nil => rfl
  | cons a A ih =>
    have : hexOfBytes (a :: A) = [hexDigit (a / 16), hexDigit (a % 16)] ++ hexOfBytes A := by
      simp [hexOfBytes]
    rw [this, List.length_append, ih]
    simp
    omega

/-- One call `snprintf(output + j * 2, 3, "%02x", b)` at the end of the part
`A` written so far. -/
theorem snprintf_byte (A B : List Nat) (b : Nat) (hb : b < 256) (hB : 3 ≤ B.length) :
    snprintf (A ++ B) A.length 3 (fmtHex 2 b)
      = some (A ++ ((hexOfBytes [b]).map Char.toNat ++ [0]) ++ B.drop 3) := by
  have hl : (([hexDigit (b / 16), hexDigit (b % 16)].take (3 - 1)).map Char.toNat
      ++ [0]).length = 3 := by simp
  simp only [snprintf, fmtHex_byte _ hb]
  rw [if_neg (by norm_num), memWrite_at_length _ _ _ (by omega), hl]
  simp [hexOfBytes]

/-- The hex loop of `_store_from_char_ptr` after `k + 1` iterations. -/
theorem store_hex_loop (hash output : List Nat) (hb : ∀ b ∈ hash, b < 256) (k : Nat) :
    k + 1 ≤ hash.length → 2 * (k + 1) + 1 ≤ output.length →
    (List.range (k + 1)).foldlM
      (fun out j => hash[j]?.bind fun b => snprintf out (j * 2) 3 (fmtHex 2 b)) output
      = some ((hexOfBytes (hash.take (k + 1))).map Char.toNat ++ [0]
          ++ output.drop (2 * (k + 1) + 1)) := by
  induction k with
  | zero =>
    intro hk hroom
    have h0 : hash[0]? = some hash[0] := List.getElem?_eq_getElem (by omega)
    have hb0 : hash[0] < 256 := hb _ (List.getElem_mem _)
    have ht : hash.take 1 = [hash[0]] := by
      rw [List.take_succ, h0]; simp
    have hs := snprintf_byte [] output hash[0] hb0 (by omega)
    simp only [List.nil_append, List.length_nil] at hs
    simp [List.range_succ, h0, hs, ht]
  | succ k ih =>
    intro hk hroom
    have hprev := ih (by omega) (by omega)
    have hk1 : hash[k + 1]? = some hash[k + 1] := List.getElem?_eq_getElem (by omega)
    have hbk : hash[k + 1] < 256 := hb _ (List.getElem_mem _)
    have ht : hash.take (k + 1 + 1) = hash.take (k + 1) ++ [hash[k + 1]] := by
      rw [List.take_succ, hk1]; simp
    have hlen : ((hexOfBytes (hash.take (k + 1))).map Char.toNat).length = (k + 1) * 2 := by
      rw [List.length_map, hexOfBytes_length, List.length_take]
      omega
    have hs := snprintf_byte ((hexOfBytes (hash.take (k + 1))).map Char.toNat)
      ([0] ++ output.drop (2 * (k + 1) + 1)) hash[k + 1] hbk (by simp; omega)
    rw [hlen] at hs
    rw [List.range_succ, List.foldlM_append, hprev]
    simp only [Option.some_bind, Option.bind_eq_bind, List.foldlM_cons, List.foldlM_nil, hk1,
      List.append_assoc]
    simp only [List.append_assoc] at hs
    rw [hs, ht, hexOfBytes_append]
    simp only [List.drop_drop, List.singleton_append, List.drop_succ_cons, List.map_append,
      List.append_assoc, List.cons_append, List.nil_append, List.drop_zero]
    have e : 2 * (k + 1) + 1 + 2 = 2 * (k + 1 + 1) + 1 := by ring
    simp [List.drop_drop, e]

theorem hexDigit_mem (d : Nat) : hexDigit d ∈ sha2_hex_digits := by
  by_cases h : d < 16
  · have : ∀ d, d < 16 → hexDigit d ∈ sha2_hex_digits := by decide
    exact this d h
  · have : hexDigit d = '0' := by
      have hlen : sha2_hex_digits.length ≤ d := by
        have : sha2_hex_digits.length = 16 := rfl
        omega
      simp [hexDigit, List.getD, List.getElem?_eq_none hlen]
    rw [this]; decide

theorem hexOfBytes_mem (hash : List Nat) : ∀ c ∈ hexOfBytes hash, c ∈ sha2_hex_digits := by
  intro c hc
  simp only [hexOfBytes, List.mem_flatMap] at hc
  obtain ⟨b, _, hcb⟩ := hc
  simp only [List.mem_cons, List.mem_singleton, List.not_mem_nil, or_false] at hcb
  rcases hcb with rfl | rfl <;> exact hexDigit_mem _

/-- The loop of `rev_memcpy` after `k` iterations. -/
theorem rev_memcpy_loop (dst src : List Nat) (len : Nat) (hs : src.length = len)
    (hd : len ≤ dst.length) (k : Nat) : k ≤ len →
    (List.range k).foldlM (fun d i => src[len - i - 1]?.bind fun b => memWrite d i [b]) dst
      = some ((src.drop (len - k)).reverse ++ dst.drop k) := by
  induction k with
  | zero => intro _; simp [← hs]
  | succ k ih =>
    intro hk
    have hprev := ih (by omega)
    have hlt : len - k - 1 < src.length := by omega
    have hget : src[len - k - 1]? = some src[len - k - 1] := List.getElem?_eq_getElem hlt
    have hdrop : src.drop (len - (k + 1)) = src[len - k - 1] :: src.drop (len - k) := by
      have e : len - (k + 1) = len - k - 1 := by omega
      have e2 : len - k = len - k - 1 + 1 := by omega
      rw [e, List.drop_eq_getElem_cons hlt]
      congr 2
      omega
    have hl : ((src.drop (len - k)).reverse).length = k := by
      simp; omega
    have hw := memWrite_at_length (src.drop (len - k)).reverse (dst.drop k) [src[len - k - 1]]
      (by simp; omega)
    rw [hl] at hw
    rw [List.range_succ, List.foldlM_append, hprev]
    simp only [Option.some_bind, Option.bind_eq_bind, List.foldlM_cons, List.foldlM_nil, hget]
    rw [hw, hdrop]
    simp [List.drop_drop, Nat.add_comm]

theorem rev_memcpy_eq (dst src : List Nat) (len : Nat) (hs : src.length = len)
    (hd : len ≤ dst.length) :
    rev_memcpy dst src len = some (src.reverse ++ dst.drop len) := by
  have := rev_memcpy_loop dst src len hs hd len (Nat.le_refl _)
  simpa [rev_memcpy] using this

theorem nativeBytes_length (host : Host) (size h : Nat) :
    (nativeBytes host size h).length = size := by
  unfold nativeBytes
  cases host.bigEndian <;> simp

/-- Raw mode of an integer store: on either host the bytes written are the
big-endian bytes. -/
theorem store_native_raw (host : Host) (size h : Nat) (output : List Nat)
    (hroom : size ≤ output.length) :
    (if host.bigEndian then memcpy output (nativeBytes host size h) size
      else rev_memcpy output (nativeBytes host size h) size)
      = some (bigEndianBytes size h ++ output.drop size) := by
  have hl := nativeBytes_length host size h
  cases hbe : host.bigEndian
  · rw [if_neg (by simp), rev_memcpy_eq _ _ _ hl hroom]
    simp [nativeBytes, hbe, bigEndianBytes]
  · rw [if_pos rfl, memcpy_eq _ _ _ (by omega) hroom]
    have : (nativeBytes host size h).take size = nativeBytes host size h := by
      rw [List.take_of_length_le (by omega)]
    rw [this]
    simp [nativeBytes, hbe, bigEndianBytes]

theorem bigEndianBytes_length (size h : Nat) : (bigEndianBytes size h).length = size := by
  simp [bigEndianBytes]

theorem bigEndianBytes_four (h : Nat) : bigEndianBytes 4 h
    = [h / 2 ^ 24 % 256, h / 2 ^ 16 % 256, h / 2 ^ 8 % 256, h % 256] := by
  simp [bigEndianBytes, List.range_succ]

theorem bigEndianBytes_eight (h : Nat) : bigEndianBytes 8 h
    = [h / 2 ^ 56 % 256, h / 2 ^ 48 % 256, h / 2 ^ 40 % 256, h / 2 ^ 32 % 256,
       h / 2 ^ 24 % 256, h / 2 ^ 16 % 256, h / 2 ^ 8 % 256, h % 256] := by
  simp [bigEndianBytes, List.range_succ]

theorem indexOf_hexDigit : ∀ d, d < 16 → sha2_hex_digits.indexOf? (hexDigit d) = some d := by
  decide

theorem fmtHex_mem (w n : Nat) (hn : n < 16 ^ (w + 1)) :
    ∀ c ∈ fmtHex (w + 1) n, c ∈ sha2_hex_digits := by
  intro c hc
  rw [fmtHex_eq w n hn] at hc
  simp only [List.mem_reverse, List.mem_map] at hc
  obtain ⟨i, _, rfl⟩ := hc
  exact hexDigit_mem _

theorem fmtHex_length (w n : Nat) (hn : n < 16 ^ (w + 1)) : (fmtHex (w + 1) n).length = w + 1 := by
  rw [fmtHex_eq w n hn]; simp

theorem hexValue_positional (n w : Nat) : ∀ acc : Nat,
    (((List.range w).map fun i => hexDigit (n / 16 ^ i % 16)).reverse).foldlM
      (fun acc c => (sha2_hex_digits.indexOf? c).map fun d => acc * 16 + d) acc
      = some (acc * 16 ^ w + n % 16 ^ w) := by
  induction w with
  | zero => intro acc; simp [Nat.mod_one]
  | succ w ih =>
    intro acc
    rw [List.range_succ, List.map_append, List.reverse_append]
    simp only [List.map_cons, List.map_nil, List.reverse_cons, List.reverse_nil,
      List.nil_append, List.cons_append, List.foldlM_cons,
      indexOf_hexDigit _ (Nat.mod_lt _ (by norm_num : 0 < 16)), Option.map_some',
      Option.some_bind, Option.bind_eq_bind]
    rw [ih, Nat.mod_pow_succ]
    congr 1
    ring

theorem hexValue_fmtHex (w n : Nat) (hn : n < 16 ^ (w + 1)) :
    hexValue (fmtHex (w + 1) n) = some n := by
  rw [fmtHex_eq w n hn, hexValue, hexValue_positional, Nat.mod_eq_of_lt hn]
  simp

/-- A `snprintf` at the start of the array whose text fits the size. -/
theorem snprintf_zero (output : List Nat) (size : Nat) (text : List Char)
    (hfit : text.length + 1 ≤ size) (hroom : text.length + 1 ≤ output.length) :
    snprintf output 0 size text
      = some (text.map Char.toNat ++ [0] ++ output.drop (text.length + 1)) := by
  have ht : text.take (size - 1) = text := List.take_of_length_le (by omega)
  simp only [snprintf, ht]
  rw [if_neg (by omega), memWrite_zero _ _ (by simpa using hroom)]
  simp

/-! ## The output helpers: claims C6, C7, C8 -/

/-- C7: in raw mode `_store_from_int32` stores the 4 bytes of `h` and
`_store_from_int64` the 8 bytes of `h`, most significant byte first (byte `i`
of the 32-bit form is `(h >> 8 * (3 - i)) & 0xff`), and leaves the rest of
`output` as it was.  This holds on a little-endian host, where the native
layout is reversed by `rev_memcpy`, and on a big-endian host, where it is
copied; so both hosts store the same bytes. -/
theorem store_int_raw_big_endian (host : Host) (h : Nat) (output : List Nat) (leaveRaw : Int)
    (hraw : leaveRaw ≠ 0) :
    (4 ≤ output.length →
      _store_from_int32 host h output leaveRaw
          = some ([h / 2 ^ 24 % 256, h / 2 ^ 16 % 256, h / 2 ^ 8 % 256, h % 256]
              ++ output.drop 4) ∧
        _store_from_int32 ⟨true⟩ h output leaveRaw
          = _store_from_int32 ⟨false⟩ h output leaveRaw) ∧
    (8 ≤ output.length →
      _store_from_int64 host h output leaveRaw
          = some ([h / 2 ^ 56 % 256, h / 2 ^ 48 % 256, h / 2 ^ 40 % 256, h / 2 ^ 32 % 256,
                h / 2 ^ 24 % 256, h / 2 ^ 16 % 256, h / 2 ^ 8 % 256, h % 256]
              ++ output.drop 8) ∧
        _store_from_int64 ⟨true⟩ h output leaveRaw
          = _store_from_int64 ⟨false⟩ h output leaveRaw) := by
  have h32 : ∀ host : Host, 4 ≤ output.length → _store_from_int32 host h output leaveRaw
      = some (bigEndianBytes 4 h ++ output.drop 4) := by
    intro host hroom
    simp only [_store_from_int32, hraw, ne_eq, not_false_eq_true, if_true]
    exact store_native_raw host 4 h output hroom
  have h64 : ∀ host : Host, 8 ≤ output.length → _store_from_int64 host h output leaveRaw
      = some (bigEndianBytes 8 h ++ output.drop 8) := by
    intro host hroom
    simp only [_store_from_int64, hraw, ne_eq, not_false_eq_true, if_true]
    exact store_native_raw host 8 h output hroom
  constructor
  · intro hroom
    rw [h32 host hroom, h32 ⟨true⟩ hroom, h32 ⟨false⟩ hroom, bigEndianBytes_four]
    exact ⟨rfl, rfl⟩
  · intro hroom
    rw [h64 host hroom, h64 ⟨true⟩ hroom, h64 ⟨false⟩ hroom, bigEndianBytes_eight]
    exact ⟨rfl, rfl⟩

/-- C7 at the value `0x0102030405060708` on a little-endian host. -/
theorem store_int_raw_big_endian_witness :
    (1 : Int) ≠ 0 ∧ 8 ≤ (List.replicate 9 7).length ∧
    _store_from_int64 ⟨false⟩ 0x0102030405060708 (List.replicate 9 7) 1
      = some [1, 2, 3, 4, 5, 6, 7, 8, 7] ∧
    _store_from_int32 ⟨false⟩ 0x0102030405060708 (List.replicate 9 7) 1
      = some [5, 6, 7, 8, 7, 7, 7, 7, 7] :=
  ⟨by decide, by decide,
   ((store_int_raw_big_endian ⟨false⟩ 0x0102030405060708 (List.replicate 9 7) 1
      (by decide)).2 (by decide)).1.trans (by decide),
   ((store_int_raw_big_endian ⟨false⟩ 0x0102030405060708 (List.replicate 9 7) 1
      (by decide)).1 (by decide)).1.trans (by decide)⟩

/-- C8: in hex mode `_store_from_int32` stores, for a 32-bit value `h`, exactly
8 characters followed by a NUL, and `_store_from_int64`, for a 64-bit value,
exactly 16 characters followed by a NUL.  The characters are the positional
base-16 digits of `h`, most significant first (so padded with `0` on the left),
each one of `0-9a-f`, and the text read as a base-16 numeral is `h`. -/
theorem store_int_hex_digits (host : Host) (h : Nat) (output : List Nat) :
    (h < 2 ^ 32 → 9 ≤ output.length →
      _store_from_int32 host h output 0
          = some ((fmtHex 8 h).map Char.toNat ++ [0] ++ output.drop 9) ∧
        (fmtHex 8 h).length = 8 ∧
        fmtHex 8 h = ((List.range 8).map fun i => hexDigit (h / 16 ^ i % 16)).reverse ∧
        (∀ c ∈ fmtHex 8 h, c ∈ sha2_hex_digits) ∧
        hexValue (fmtHex 8 h) = some h) ∧
    (h < 2 ^ 64 → 17 ≤ output.length →
      _store_from_int64 host h output 0
          = some ((fmtHex 16 h).map Char.toNat ++ [0] ++ output.drop 17) ∧
        (fmtHex 16 h).length = 16 ∧
        fmtHex 16 h = ((List.range 16).map fun i => hexDigit (h / 16 ^ i % 16)).reverse ∧
        (∀ c ∈ fmtHex 16 h, c ∈ sha2_hex_digits) ∧
        hexValue (fmtHex 16 h) = some h) := by
  constructor
  · intro hh hroom
    have hn : h < 16 ^ (7 + 1) := by norm_num at hh ⊢; omega
    have hl : (fmtHex 8 h).length = 8 := fmtHex_length 7 h hn
    refine ⟨?_, hl, fmtHex_eq 7 h hn, fmtHex_mem 7 h hn, hexValue_fmtHex 7 h hn⟩
    simp only [_store_from_int32, ne_eq, not_true_eq_false, if_false]
    rw [snprintf_zero _ _ _ (by omega) (by omega), hl]
  · intro hh hroom
    have hn : h < 16 ^ (15 + 1) := by norm_num at hh ⊢; omega
    have hl : (fmtHex 16 h).length = 16 := fmtHex_length 15 h hn
    refine ⟨?_, hl, fmtHex_eq 15 h hn, fmtHex_mem 15 h hn, hexValue_fmtHex 15 h hn⟩
    simp only [_store_from_int64, ne_eq, not_true_eq_false, if_false]
    rw [snprintf_zero _ _ _ (by omega) (by omega), hl]

/-- C8 at the value `0xbeef`: the texts are `0000beef` and `000000000000beef`. -/
theorem store_int_hex_digits_witness :
    (0xbeef < 2 ^ 32 ∧ 17 ≤ (List.replicate 17 7).length) ∧
    _store_from_int32 ⟨false⟩ 0xbeef (List.replicate 17 7) 0
      = some (ascii "0000beef" ++ [0] ++ List.replicate 8 7) ∧
    _store_from_int64 ⟨false⟩ 0xbeef (List.replicate 17 7) 0
      = some (ascii "000000000000beef" ++ [0]) :=
  ⟨by decide,
   ((store_int_hex_digits ⟨false⟩ 0xbeef (List.replicate 17 7)).1
      (by decide) (by decide)).1.trans (by decide),
   ((store_int_hex_digits ⟨false⟩ 0xbeef (List.replicate 17 7)).2
      (by decide) (by decide)).1.trans (by decide)⟩

/-! ## The read loops: claim C2 -/

theorem foldlM_record (chunks : List (List Nat)) : ∀ tr : List (List Nat),
    chunks.foldlM record tr = .ok (tr ++ chunks) := by
  induction chunks with
  | nil => intro tr; simp [pure, Except.pure]
  | cons c chunks ih =>
    intro tr
    rw [List.foldlM_cons]
    simp only [record, bind, Except.bind]
    rw [ih]
    simp

theorem take_length_take (D : List Nat) (bs : Nat) : D.take (D.take bs).length = D.take bs := by
  rw [List.length_take]
  rcases Nat.le_total bs D.length with h | h
  · rw [Nat.min_eq_left h]
  · rw [Nat.min_eq_right h, List.take_of_length_le (Nat.le_refl _), List.take_of_length_le h]

theorem fread_length_le (bufSize : Nat) (fp : FILE) :
    (fread bufSize fp).1.length ≤ fp.content.length - fp.pos := by
  simp only [fread, List.length_take, List.length_drop]
  omega

theorem fread_length_le_size (bufSize : Nat) (fp : FILE) :
    (fread bufSize fp).1.length ≤ bufSize := by
  simp only [fread, List.length_take]
  omega

theorem fread_rest (bufSize : Nat) (fp : FILE) :
    (fread bufSize fp).2.content.drop (fread bufSize fp).2.pos
      = (fp.content.drop fp.pos).drop (fread bufSize fp).1.length := by
  simp [fread, List.drop_drop]

theorem fread_take (bufSize : Nat) (fp : FILE) :
    (fp.content.drop fp.pos).take (fread bufSize fp).1.length = (fread bufSize fp).1 := by
  simp only [fread]
  exact take_length_take _ _

theorem fread_eq_nil (bufSize : Nat) (hbs : 0 < bufSize) (fp : FILE)
    (h : (fread bufSize fp).1.length = 0) : fp.content.drop fp.pos = [] := by
  have := List.take_eq_nil_iff.mp (List.length_eq_zero.mp h)
  rcases this with h | h
  · omega
  · exact h

theorem fread_fuel (bufSize fuel : Nat) (fp : FILE)
    (hfuel : fp.content.length - fp.pos < fuel + 1) (hbuf : 0 < (fread bufSize fp).1.length) :
    (fread bufSize fp).2.content.length - (fread bufSize fp).2.pos < fuel := by
  have := fread_length_le bufSize fp
  have h1 : (fread bufSize fp).2.content = fp.content := rfl
  have h2 : (fread bufSize fp).2.pos = fp.pos + (fread bufSize fp).1.length := rfl
  rw [h1, h2]
  omega

theorem fread_count (bufSize : Nat) (fp : FILE) (k : Nat)
    (hk : k ≤ (fread bufSize fp).2.content.length - (fread bufSize fp).2.pos)
    (hbuf : 0 < (fread bufSize fp).1.length) :
    k + 1 ≤ fp.content.length - fp.pos := by
  have := fread_length_le bufSize fp
  have h1 : (fread bufSize fp).2.content = fp.content := rfl
  have h2 : (fread bufSize fp).2.pos = fp.pos + (fread bufSize fp).1.length := rfl
  rw [h1, h2] at hk
  omega

/-- The loop of the branch `length >= 0`: with a bound on the iterations above
the number of bytes left, the update calls receive chunks whose concatenation
is the first `length` bytes left in the stream. -/
theorem readLimited_chunks (bufSize : Nat) (hbs : 0 < bufSize) :
    ∀ (fuel : Nat) (fp : FILE) (length : Int),
      fp.content.length - fp.pos < fuel → 0 ≤ length →
      ∃ chunks : List (List Nat),
        chunks.flatten = (fp.content.drop fp.pos).take length.toNat ∧
        chunks.length ≤ fp.content.length - fp.pos ∧
        ∀ (σ : Type) (upd : σ → List Nat → Except DigestError σ) (st : σ),
          readLimited upd bufSize fuel fp length st = chunks.foldlM upd st := by
  intro fuel
  induction fuel with
  | zero => intro fp length h; omega
  | succ fuel ih =>
    intro fp length hfuel hlen
    by_cases hgo : ((((fread bufSize fp).1.length : Nat) : Int) > 0 ∧ length > 0)
    · obtain ⟨hbuf, hpos⟩ := hgo
      have hbuf1 : 0 < (fread bufSize fp).1.length := by omega
      by_cases hover : (((fread bufSize fp).1.length : Nat) : Int) > length
      · -- the last chunk is cut to the bytes still allowed
        obtain ⟨chunks, hflat, hcount, hrun⟩ := ih (fread bufSize fp).2 0
          (fread_fuel bufSize fuel fp hfuel hbuf1) (Int.le_refl 0)
        refine ⟨(fread bufSize fp).1.take length.toNat :: chunks, ?_, ?_, ?_⟩
        · rw [List.flatten_cons, hflat]
          have hlt : length.toNat ≤ (fread bufSize fp).1.length := by omega
          rw [← fread_take, List.take_take, Nat.min_eq_left hlt]
          simp
        · simp only [List.length_cons]
          exact fread_count bufSize fp _ hcount hbuf1
        · intro σ upd st
          rw [List.foldlM_cons]
          simp only [readLimited, hbuf, hpos, and_self, if_true, hover, sub_self]
          cases hu : upd st ((fread bufSize fp).1.take length.toNat) with
          | error e => simp [bind, Except.bind]
          | ok st1 => simp [bind, Except.bind, hrun]
      · -- the whole buffer is passed on
        obtain ⟨chunks, hflat, hcount, hrun⟩ := ih (fread bufSize fp).2
          (length - ((fread bufSize fp).1.length : Nat))
          (fread_fuel bufSize fuel fp hfuel hbuf1) (by omega)
        refine ⟨(fread bufSize fp).1 :: chunks, ?_, ?_, ?_⟩
        · rw [List.flatten_cons, hflat, fread_rest]
          have hsplit : length.toNat = (fread bufSize fp).1.length
              + (length - ((fread bufSize fp).1.length : Nat)).toNat := by omega
          conv_rhs => rw [hsplit, List.take_add, fread_take]
        · simp only [List.length_cons]
          exact fread_count bufSize fp _ hcount hbuf1
        · intro σ upd st
          rw [List.foldlM_cons]
          simp only [readLimited, hbuf, hpos, and_self, if_true, hover, if_false,
            Int.toNat_ofNat, List.take_length]
          cases hu : upd st (fread bufSize fp).1 with
          | error e => simp [bind, Except.bind]
          | ok st1 => simp [bind, Except.bind, hrun]
    · refine ⟨[], ?_, Nat.zero_le _, ?_⟩
      · have : (fp.content.drop fp.pos).take length.toNat = [] := by
          rw [List.take_eq_nil_iff]
          by_cases hl : length > 0
          · right
            apply fread_eq_nil bufSize hbs
            have := not_and.mp hgo
            by_contra hne
            exact this (by omega) hl
          · left; omega
        simp [this]
      · intro σ upd st
        simp only [readLimited]
        rw [if_neg hgo]
        rfl

/-- The loop of the branch `length < 0`: the update calls receive chunks whose
concatenation is all the bytes left in the stream. -/
theorem readAll_chunks (bufSize : Nat) (hbs : 0 < bufSize) :
    ∀ (fuel : Nat) (fp : FILE), fp.content.length - fp.pos < fuel →
      ∃ chunks : List (List Nat),
        chunks.flatten = fp.content.drop fp.pos ∧
        chunks.length ≤ fp.content.length - fp.pos ∧
        ∀ (σ : Type) (upd : σ → List Nat → Except DigestError σ) (st : σ),
          readAll upd bufSize fuel fp st = chunks.foldlM upd st := by
  intro fuel
  induction fuel with
  | zero => intro fp h; omega
  | succ fuel ih =>
    intro fp hfuel
    by_cases hgo : (((fread bufSize fp).1.length : Nat) : Int) > 0
    · have hbuf1 : 0 < (fread bufSize fp).1.length := by omega
      obtain ⟨chunks, hflat, hcount, hrun⟩ := ih (fread bufSize fp).2
        (fread_fuel bufSize fuel fp hfuel hbuf1)
      refine ⟨(fread bufSize fp).1 :: chunks, ?_, ?_, ?_⟩
      · rw [List.flatten_cons, hflat, fread_rest]
        conv_rhs => rw [← List.take_append_drop (fread bufSize fp).1.length
          (fp.content.drop fp.pos), fread_take]
      · simp only [List.length_cons]
        exact fread_count bufSize fp _ hcount hbuf1
      · intro σ upd st
        rw [List.foldlM_cons]
        simp only [readAll, hgo, if_true, Int.toNat_ofNat, List.take_length]
        cases hu : upd st (fread bufSize fp).1 with
        | error e => simp [bind, Except.bind]
        | ok st1 => simp [bind, Except.bind, hrun]
    · refine ⟨[], ?_, Nat.zero_le _, ?_⟩
      · rw [fread_eq_nil bufSize hbs fp (by omega)]
        rfl
      · intro σ upd st
        simp only [readAll]
        rw [if_neg hgo]
        rfl

/-- Both loops of a file case: the chunks the update calls receive do not depend
on the primitive, and their concatenation is the window of the stream. -/
theorem readStream_chunks (bufSize : Nat) (hbs : 0 < bufSize) (fp : FILE) (length : Int) :
    ∃ chunks : List (List Nat),
      chunks.flatten = (if length ≥ 0 then (fp.content.drop fp.pos).take length.toNat
        else fp.content.drop fp.pos) ∧
      chunks.length ≤ fp.content.length - fp.pos ∧
      ∀ (σ : Type) (upd : σ → List Nat → Except DigestError σ) (st : σ),
        readStream upd bufSize fp length st = chunks.foldlM upd st := by
  by_cases hl : length ≥ 0
  · obtain ⟨chunks, hflat, hcount, hrun⟩ := readLimited_chunks bufSize hbs
      (fp.content.length + 1) fp length (by omega) hl
    refine ⟨chunks, ?_, hcount, ?_⟩
    · rw [if_pos hl, hflat]
    · intro σ upd st
      simp only [readStream, hl, if_true, hrun]
  · obtain ⟨chunks, hflat, hcount, hrun⟩ := readAll_chunks bufSize hbs
      (fp.content.length + 1) fp (by omega)
    refine ⟨chunks, ?_, hcount, ?_⟩
    · rw [if_neg hl, hflat]
    · intro σ upd st
      simp only [readStream, hl, if_false, hrun]

theorem seekSkip_rest (file : List Nat) (skip : Int) :
    (seekSkip ⟨file, 0⟩ skip).content.drop (seekSkip ⟨file, 0⟩ skip).pos
      = file.drop (max skip 0).toNat := by
  by_cases hs : skip > 0
  · simp only [seekSkip, hs, if_true, fseek]
    rw [max_eq_left (by omega)]
  · simp only [seekSkip, hs, if_false]
    rw [max_eq_right (by omega)]
    rfl

/-- Nothing is passed to the update call when the stream is at or past the end
of the file, or when `length = 0`. -/
theorem readStream_nothing {σ : Type} (upd : σ → List Nat → Except DigestError σ)
    (bufSize : Nat) (fp : FILE) (length : Int) (st : σ)
    (h : fp.content.length ≤ fp.pos ∨ length = 0) :
    readStream upd bufSize fp length st = .ok st := by
  have hread : fp.content.length ≤ fp.pos → (fread bufSize fp).1.length = 0 := by
    intro hle
    have := fread_length_le bufSize fp
    omega
  unfold readStream
  split
  · simp only [readLimited]
    rw [if_neg]
    rcases h with h | h
    · rw [hread h]; simp
    · rw [h]; simp
  · rename_i hneg
    rcases h with h | h
    · simp only [readAll]
      rw [if_neg]
      rw [hread h]; simp
    · omega

theorem hexDigit_toNat_ne_zero : ∀ c ∈ sha2_hex_digits, c.toNat ≠ 0 := by decide

theorem takeWhile_codes (cs : List Char) (rest : List Nat)
    (h : ∀ c ∈ cs, c ∈ sha2_hex_digits) :
    (cs.map Char.toNat ++ 0 :: rest).takeWhile (fun c => c ≠ 0) = cs.map Char.toNat := by
  induction cs with
  | nil => simp [List.takeWhile]
  | cons c cs ih =>
    have hc : c.toNat ≠ 0 := hexDigit_toNat_ne_zero c (h c (List.mem_cons_self _ _))
    have := ih (fun x hx => h x (List.mem_cons_of_mem _ hx))
    rw [List.map_cons, List.cons_append, List.takeWhile_cons, this]
    simp [hc]

theorem mkChar_codes (cs : List Char) (rest : List Nat)
    (h : ∀ c ∈ cs, c ∈ sha2_hex_digits) :
    mkChar (cs.map Char.toNat ++ [0] ++ rest) = some (cs.map Char.toNat) := by
  simp only [mkChar, cstring, List.append_assoc, List.singleton_append]
  rw [if_pos (by simp), takeWhile_codes cs rest h]

/-- Hex mode: the string returned when `output` holds a text of base-16 digits
and its NUL. -/
theorem emit_hex (cs : List Char) (rest : List Nat) (L : Int)
    (h : ∀ c ∈ cs, c ∈ sha2_hex_digits) :
    emit (stored (some (cs.map Char.toNat ++ [0] ++ rest)) L) 0
      = .ok (.str (cs.map Char.toNat)) := by
  simp only [emit, stored, makeResult, ne_eq, not_true_eq_false, if_false, mkChar_codes cs rest h]

/-- Raw mode: the raw vector returned when `output` starts with the bytes of
the digest. -/
theorem emit_raw (bytes rest : List Nat) (L r : Int) (hr : r ≠ 0) (hL : L.toNat = bytes.length) :
    emit (stored (some (bytes ++ rest)) L) r = .ok (.raw bytes) := by
  have hm : memcpy (List.replicate bytes.length 0) (bytes ++ rest) bytes.length
      = some bytes := by
    rw [memcpy_eq _ _ _ (by simp) (by simp)]
    simp
  simp only [emit, stored, makeResult, hr, ne_eq, not_false_eq_true, if_true, hL, hm]

/-- The array `output` of `digest` has 129 cells. -/
theorem junk_length (junk : Nat → Nat) : ((List.range (128 + 1)).map junk).length = 129 := by
  simp

theorem emit_char_ptr {n : Nat} (h : ByteHash n) (c : h.ctx) (output : List Nat) (L r : Int)
    (hn : 0 < n) (hroom : 2 * n + 1 ≤ output.length) (hL : L.toNat = n) :
    emit (stored (_store_from_char_ptr (h.finish c) output n r) L) r
      = .ok (render (h.finish c) r) := by
  have hlen := h.finish_length c
  by_cases hr : r = 0
  · subst hr
    have hloop := store_hex_loop (h.finish c) output (h.finish_byte c) (n - 1)
      (by omega) (by omega)
    rw [Nat.sub_add_cancel hn] at hloop
    have htake : (h.finish c).take n = h.finish c := List.take_of_length_le (by omega)
    rw [htake] at hloop
    simp only [_store_from_char_ptr, ne_eq, not_true_eq_false, if_false]
    rw [hloop, emit_hex _ _ _ (hexOfBytes_mem _)]
    simp [render]
  · simp only [_store_from_char_ptr, hr, ne_eq, not_false_eq_true, if_true]
    have htake : (h.finish c).take n = h.finish c := List.take_of_length_le (by omega)
    rw [memcpy_eq _ _ _ (by omega) (by omega), htake, emit_raw _ _ _ _ hr (by omega)]
    simp [render, hr]

theorem hexOfBytes_bigEndian_four (v : Nat) (hv : v < 2 ^ 32) :
    hexOfBytes (bigEndianBytes 4 v) = fmtHex 8 v := by
  rw [bigEndianBytes_four, fmtHex_eq 7 v (by norm_num at hv ⊢; omega)]
  simp only [hexOfBytes, List.range_succ, List.range_zero, List.nil_append, List.map_append,
    List.map_cons, List.map_nil, List.reverse_append, List.reverse_cons, List.reverse_nil,
    List.cons_append, List.flatMap_cons, List.flatMap_nil, List.append_nil]
  norm_num
  repeat' apply And.intro
  all_goals congr 1
  all_goals omega

theorem hexOfBytes_bigEndian_eight (v : Nat) (hv : v < 2 ^ 64) :
    hexOfBytes (bigEndianBytes 8 v) = fmtHex 16 v := by
  rw [bigEndianBytes_eight, fmtHex_eq 15 v (by norm_num at hv ⊢; omega)]
  simp only [hexOfBytes, List.range_succ, List.range_zero, List.nil_append, List.map_append,
    List.map_cons, List.map_nil, List.reverse_append, List.reverse_cons, List.reverse_nil,
    List.cons_append, List.flatMap_cons, List.flatMap_nil, List.append_nil]
  norm_num
  repeat' apply And.intro
  all_goals congr 1
  all_goals omega

theorem emit_int32 (host : Host) (v : Nat) (output : List Nat) (r : Int) (hv : v < 2 ^ 32)
    (hroom : 9 ≤ output.length) :
    emit (stored (_store_from_int32 host v output r) 4) r
      = .ok (render (bigEndianBytes 4 v) r) := by
  by_cases hr : r = 0
  · subst hr
    have hn : v < 16 ^ (7 + 1) := by norm_num at hv ⊢; omega
    have hl : (fmtHex 8 v).length = 8 := fmtHex_length 7 v hn
    simp only [_store_from_int32, ne_eq, not_true_eq_false, if_false]
    rw [snprintf_zero _ _ _ (by omega) (by omega), emit_hex _ _ _ (fmtHex_mem 7 v hn)]
    simp [render, hexOfBytes_bigEndian_four v hv]
  · simp only [_store_from_int32, hr, ne_eq, not_false_eq_true, if_true]
    rw [store_native_raw host 4 v output (by omega),
      emit_raw _ _ _ _ hr (by rw [bigEndianBytes_length]; rfl)]
    simp [render, hr]

theorem emit_int64 (host : Host) (v : Nat) (output : List Nat) (r : Int) (hv : v < 2 ^ 64)
    (hroom : 17 ≤ output.length) :
    emit (stored (_store_from_int64 host v output r) 8) r
      = .ok (render (bigEndianBytes 8 v) r) := by
  by_cases hr : r = 0
  · subst hr
    have hn : v < 16 ^ (15 + 1) := by norm_num at hv ⊢; omega
    have hl : (fmtHex 16 v).length = 16 := fmtHex_length 15 v hn
    simp only [_store_from_int64, ne_eq, not_true_eq_false, if_false]
    rw [snprintf_zero _ _ _ (by omega) (by omega), emit_hex _ _ _ (fmtHex_mem 15 v hn)]
    simp [render, hexOfBytes_bigEndian_eight v hv]
  · simp only [_store_from_int64, hr, ne_eq, not_false_eq_true, if_true]
    rw [store_native_raw host 8 v output (by omega),
      emit_raw _ _ _ _ hr (by rw [bigEndianBytes_length]; rfl)]
    simp [render, hr]

theorem canonical_length (val : Nat × Nat) : (XXH128_canonicalFromHash val).length = 16 := by
  simp [XXH128_canonicalFromHash, bigEndianBytes_length]

theorem emit_xxh128 (val : Nat × Nat) (output : List Nat) (r : Int) (h1 : val.1 < 2 ^ 64)
    (h2 : val.2 < 2 ^ 64) (hroom : 33 ≤ output.length) :
    emit (stored (storeXXH128 val output r) 16) r
      = .ok (render (XXH128_canonicalFromHash val) r) := by
  have hn1 : val.1 < 16 ^ (15 + 1) := by norm_num at h1 ⊢; omega
  have hn2 : val.2 < 16 ^ (15 + 1) := by norm_num at h2 ⊢; omega
  by_cases hr : r = 0
  · subst hr
    have hl : (fmtHex 16 val.1 ++ fmtHex 16 val.2).length = 32 := by
      rw [List.length_append, fmtHex_length 15 _ hn1, fmtHex_length 15 _ hn2]
    have hmem : ∀ c ∈ fmtHex 16 val.1 ++ fmtHex 16 val.2, c ∈ sha2_hex_digits := by
      intro c hc
      rcases List.mem_append.mp hc with h | h
      · exact fmtHex_mem 15 _ hn1 c h
      · exact fmtHex_mem 15 _ hn2 c h
    simp only [storeXXH128, ne_eq, not_true_eq_false, if_false]
    rw [snprintf_zero _ _ _ (by omega) (by omega), emit_hex _ _ _ hmem]
    simp [render, XXH128_canonicalFromHash, hexOfBytes_append,
      hexOfBytes_bigEndian_eight _ h1, hexOfBytes_bigEndian_eight _ h2]
  · have hc := canonical_length val
    have htake : (XXH128_canonicalFromHash val).take 16 = XXH128_canonicalFromHash val :=
      List.take_of_length_le (by omega)
    simp only [storeXXH128, hr, ne_eq, not_false_eq_true, if_true]
    rw [memcpy_eq _ _ _ (by omega) (by omega), htake, emit_raw _ _ _ _ hr (by rw [hc]; rfl)]
    simp [render, hr]

theorem bigEndianBytes_byte (size h : Nat) : ∀ b ∈ bigEndianBytes size h, b < 256 := by
  intro b hb
  simp only [bigEndianBytes, List.mem_reverse, List.mem_map] at hb
  obtain ⟨i, _, rfl⟩ := hb
  exact Nat.mod_lt _ (by norm_num)

theorem canonical_byte (val : Nat × Nat) : ∀ b ∈ XXH128_canonicalFromHash val, b < 256 := by
  intro b hb
  rcases List.mem_append.mp hb with h | h <;> exact bigEndianBytes_byte _ _ b h

/-- The value of `digest` in terms of the `switch`. -/
theorem digestWith_value (bufSize : Nat) (P : Prims) (host : Host) (fs : FileSystem)
    (junk : Nat → Nat) (Txt : SEXP) (Algo Length Skip r Seed : Int) :
    (digestWith bufSize P host fs junk Txt Algo Length Skip r Seed).value
      = match openInput fs Txt Algo with
        | .error e => .error e
        | .ok i =>
          emit (switchAlgo P host bufSize Algo (window i.1 i.2.1 Algo Length Skip).1
            (window i.1 i.2.1 Algo Length Skip).2 i.2.2 Length Skip Seed r
            ((List.range (128 + 1)).map junk)) r := by
  unfold digestWith
  cases hopen : openInput fs Txt Algo with
  | error e => rfl
  | ok i =>
    obtain ⟨txt, nChar, fp⟩ := i
    simp only
    split
    · rename_i e he
      simp only [emit, he]
    · rename_i output output_length he
      simp only [emit, he]

/-! ## Normal form of the value of `digest` -/

theorem emit_withFile (fp : Option FILE) (k : FILE → Except DigestError (List Nat × Int))
    (r : Int) : emit (withFile fp k) r = withFile fp fun f => emit (k f) r := by
  cases fp <;> rfl

theorem emit_bind {V : Type} (x : Except DigestError V)
    (k : V → Except DigestError (List Nat × Int)) (r : Int) :
    emit (x.bind k) r = x.bind fun v => emit (k v) r := by
  cases x <;> rfl

theorem map_withFile {α β : Type} (fp : Option FILE) (k : FILE → Except DigestError α)
    (g : α → β) : (withFile fp k).map g = withFile fp fun f => (k f).map g := by
  cases fp <;> rfl

theorem map_bind {V α β : Type} (x : Except DigestError V) (k : V → Except DigestError α)
    (g : α → β) : (x.bind k).map g = x.bind fun v => (k v).map g := by
  cases x <;> rfl

theorem map_ok {α β : Type} (a : α) (g : α → β) :
    (Except.ok a : Except DigestError α).map g = .ok (g a) := rfl

theorem hexOfRaw_render (B : List Nat) (r : Int) : hexOfRaw (render B r) = render B 0 := by
  by_cases hr : r = 0 <;> simp [render, hexOfRaw, hr]

/-- The store of a byte digest into the array `output` of `digest`. -/
theorem emit_hash {n : Nat} (h : ByteHash n) (c : h.ctx) (output : List Nat) (L r : Int)
    (hout : output.length = 129) (hn : 0 < n ∧ n ≤ 64) (hL : L.toNat = n) :
    emit (stored (_store_from_char_ptr (h.finish c) output n r) L) r
      = .ok (render (h.finish c) r) :=
  emit_char_ptr h c output L r hn.1 (by omega) hL

theorem emit_u32 (host : Host) (v : Nat) (output : List Nat) (r : Int)
    (hout : output.length = 129) :
    emit (stored (_store_from_int32 host (v % 2 ^ 32) output r) 4) r
      = .ok (render (bigEndianBytes 4 (v % 2 ^ 32)) r) :=
  emit_int32 host _ output r (Nat.mod_lt _ (by norm_num)) (by omega)

theorem emit_u64 (host : Host) (v : Nat) (output : List Nat) (r : Int)
    (hout : output.length = 129) :
    emit (stored (_store_from_int64 host (v % 2 ^ 64) output r) 8) r
      = .ok (render (bigEndianBytes 8 (v % 2 ^ 64)) r) :=
  emit_int64 host _ output r (Nat.mod_lt _ (by norm_num)) (by omega)

theorem emit_u128 (a b : Nat) (output : List Nat) (r : Int) (hout : output.length = 129) :
    emit (stored (storeXXH128 (a % 2 ^ 64, b % 2 ^ 64) output r) 16) r
      = .ok (render (XXH128_canonicalFromHash (a % 2 ^ 64, b % 2 ^ 64)) r) :=
  emit_xxh128 _ output r (Nat.mod_lt _ (by norm_num)) (Nat.mod_lt _ (by norm_num)) (by omega)

theorem ok_of_withFile {α : Type} {Q : α → Prop} (fp : Option FILE)
    (k : FILE → Except DigestError α) (h : ∀ f, ∀ a, k f = .ok a → Q a) :
    ∀ a, withFile fp k = .ok a → Q a := by
  intro a ha
  cases fp with
  | none => simp [withFile] at ha
  | some f => exact h f a ha

theorem ok_of_bind {V α : Type} {Q : α → Prop} (x : Except DigestError V)
    (k : V → Except DigestError α) (h : ∀ v, ∀ a, k v = .ok a → Q a) :
    ∀ a, x.bind k = .ok a → Q a := by
  intro a ha
  cases x with
  | error e => simp [Except.bind] at ha
  | ok v => exact h v a ha

theorem ok_of_ok {α : Type} {Q : α → Prop} (b : α) (h : Q b) :
    ∀ a, (Except.ok b : Except DigestError α) = .ok a → Q a := by
  intro a ha
  cases ha
  exact h

theorem isOk_ok {α : Type} (a : α) : IsOk (Except.ok a : Except DigestError α) := ⟨a, rfl⟩

theorem isOk_bind {V α : Type} (x : Except DigestError V) (k : V → Except DigestError α)
    (hx : IsOk x) (hk : ∀ v, IsOk (k v)) : IsOk (x.bind k) := by
  obtain ⟨v, rfl⟩ := hx
  exact hk v

theorem isOk_withFile {α : Type} (fp : Option FILE) (k : FILE → Except DigestError α)
    (hfp : fp.isSome) (hk : ∀ f, fp = some f → IsOk (k f)) : IsOk (withFile fp k) := by
  cases fp with
  | none => simp at hfp
  | some f => exact hk f rfl

theorem isOk_checkedReset {σ : Type} (o : Option σ) (h : o.isSome) : IsOk (checkedReset o) := by
  cases o with
  | none => simp at h
  | some s => exact ⟨s, rfl⟩

theorem isOk_foldlM {σ : Type} (upd : σ → List Nat → Except DigestError σ)
    (hupd : ∀ s c, IsOk (upd s c)) (chunks : List (List Nat)) :
    ∀ st, IsOk (chunks.foldlM upd st) := by
  induction chunks with
  | nil => intro st; exact ⟨st, rfl⟩
  | cons c chunks ih =>
    intro st
    rw [List.foldlM_cons]
    obtain ⟨s, hs⟩ := hupd st c
    rw [hs]
    exact ih s

/-- The loops of a file case end without an error when the update call reports
none, or when there is nothing to pass to it. -/
theorem isOk_readStream {σ : Type} (upd : σ → List Nat → Except DigestError σ)
    (bufSize : Nat) (fp : FILE) (length : Int) (st : σ)
    (h : (0 < bufSize ∧ ∀ s c, IsOk (upd s c)) ∨ (fp.content.length ≤ fp.pos ∨ length = 0)) :
    IsOk (readStream upd bufSize fp length st) := by
  rcases h with ⟨hbs, hupd⟩ | h
  · obtain ⟨chunks, _, _, hrun⟩ := readStream_chunks bufSize hbs fp length
    rw [hrun]
    exact isOk_foldlM upd hupd chunks st
  · rw [readStream_nothing upd bufSize fp length st h]
    exact ⟨st, rfl⟩

theorem isOk_total {σ : Type} (u : σ → List Nat → σ) : ∀ s c, IsOk (total u s c) :=
  fun s c => ⟨u s c, rfl⟩

theorem isOk_checked {σ : Type} (u : σ → List Nat → Option σ) (h : ∀ s c, (u s c).isSome) :
    ∀ s c, IsOk (checked u s c) := by
  intro s c
  have := h s c
  unfold checked
  cases hu : u s c with
  | none => simp [hu] at this
  | some s1 => exact ⟨s1, rfl⟩

/-- Hex mode returns the base-16 rendering of what raw mode returns, whatever
the case of the `switch`. -/
theorem emit_switch_hex (P : Prims) (host : Host) (bs : Nat) (algo : Int) (txt : List Nat)
    (nChar : Int) (fp : Option FILE) (length skip seed r : Int) (output : List Nat)
    (hout : output.length = 129) (h : algo ∈ supportedCodes) :
    emit (switchAlgo P host bs algo txt nChar fp length skip seed 0 output) 0
      = (emit (switchAlgo P host bs algo txt nChar fp length skip seed r output) r).map
          hexOfRaw := by
  simp only [supportedCodes, List.mem_cons, List.mem_singleton, List.not_mem_nil, or_false] at h
  rcases h with rfl | rfl | rfl | rfl | rfl | rfl | rfl | rfl | rfl | rfl | rfl | rfl |
    rfl | rfl | rfl | rfl | rfl | rfl | rfl | rfl | rfl | rfl | rfl | rfl
  all_goals simp only [switchAlgo, Int.reduceEq, ↓reduceIte, emit_withFile, emit_bind]
  all_goals simp (disch := first | exact hout | decide | rfl) only
    [emit_hash, emit_u32, emit_u64, emit_u128]
  all_goals simp only [map_withFile, map_bind, map_ok, hexOfRaw_render]

/-- Every value the `switch` leads to is the rendering of a byte sequence of the
declared length. -/
theorem emit_switch_length (P : Prims) (host : Host) (bs : Nat) (algo : Int) (txt : List Nat)
    (nChar : Int) (fp : Option FILE) (length skip seed r : Int) (output : List Nat)
    (hout : output.length = 129) (h : algo ∈ supportedCodes) :
    ∀ res, emit (switchAlgo P host bs algo txt nChar fp length skip seed r output) r = .ok res →
      ∃ B, res = render B r ∧ B.length = declaredLength algo ∧ ∀ b ∈ B, b < 256 := by
  simp only [supportedCodes, List.mem_cons, List.mem_singleton, List.not_mem_nil, or_false] at h
  rcases h with rfl | rfl | rfl | rfl | rfl | rfl | rfl | rfl | rfl | rfl | rfl | rfl |
    rfl | rfl | rfl | rfl | rfl | rfl | rfl | rfl | rfl | rfl | rfl | rfl
  all_goals simp only [switchAlgo, Int.reduceEq, ↓reduceIte, emit_withFile, emit_bind]
  all_goals simp (disch := first | exact hout | decide | rfl) only
    [emit_hash, emit_u32, emit_u64, emit_u128]
  all_goals
    repeat first
      | refine ok_of_withFile _ _ (fun f => ?_)
      | refine ok_of_bind _ _ (fun v => ?_)
      | refine ok_of_ok _ ?_
  all_goals
    first
      | exact ⟨_, rfl, ByteHash.finish_length _ _, ByteHash.finish_byte _ _⟩
      | exact ⟨_, rfl, bigEndianBytes_length _ _, bigEndianBytes_byte _ _⟩
      | exact ⟨_, rfl, canonical_length _, canonical_byte _⟩

/-- The `switch` ends without an error for a supported code when the stream is
there in file mode, the reset call of xxHash reports no error, and its update
call reports none or is not reached. -/
theorem emit_switch_isOk (P : Prims) (host : Host) (bs : Nat) (algo : Int) (txt : List Nat)
    (nChar : Int) (fp : Option FILE) (length skip seed r : Int) (output : List Nat)
    (hout : output.length = 129) (h : algo ∈ supportedCodes)
    (hfp : algo ≥ 100 → fp.isSome) (hreset : algo ∈ xxhStreamCodes → P.ResetOk seed)
    (hread : (0 < bs ∧ (algo ∈ xxhStreamCodes → P.UpdateOk)) ∨
      ∀ f, fp = some f →
        (seekSkip f skip).content.length ≤ (seekSkip f skip).pos ∨ length = 0) :
    IsOk (emit (switchAlgo P host bs algo txt nChar fp length skip seed r output) r) := by
  have hstream : ∀ (σ : Type) (upd : σ → List Nat → Except DigestError σ),
      ((algo ∈ xxhStreamCodes → P.UpdateOk) → ∀ s c, IsOk (upd s c)) → ∀ f, fp = some f → ∀ st,
        IsOk (readStream upd bs (seekSkip f skip) length st) := by
    intro σ upd hupd f hf st
    apply isOk_readStream
    rcases hread with ⟨hbs, hu⟩ | hn
    · exact Or.inl ⟨hbs, hupd hu⟩
    · exact Or.inr (hn f hf)
  simp only [supportedCodes, List.mem_cons, List.mem_singleton, List.not_mem_nil, or_false] at h
  rcases h with rfl | rfl | rfl | rfl | rfl | rfl | rfl | rfl | rfl | rfl | rfl | rfl |
    rfl | rfl | rfl | rfl | rfl | rfl | rfl | rfl | rfl | rfl | rfl | rfl
  all_goals simp only [switchAlgo, Int.reduceEq, ↓reduceIte, emit_withFile, emit_bind]
  all_goals simp (disch := first | exact hout | decide | rfl) only
    [emit_hash, emit_u32, emit_u64, emit_u128]
  all_goals
    repeat first
      | exact isOk_ok _
      | (apply isOk_withFile _ _ (hfp (by decide)); intro f hf)
      | (apply isOk_bind _ _ (isOk_checkedReset _ (hreset (by decide)).1); intro s)
      | (apply isOk_bind _ _ (isOk_checkedReset _ (hreset (by decide)).2.1); intro s)
      | (apply isOk_bind _ _ (isOk_checkedReset _ (hreset (by decide)).2.2.1); intro s)
      | (apply isOk_bind _ _ (isOk_checkedReset _ (hreset (by decide)).2.2.2); intro s)
      | (apply isOk_bind _ _ (hstream _ _ (fun _ => isOk_total _) _ (by assumption) _);
          intro v)
      | (apply isOk_bind _ _
          (hstream _ _ (fun hu => isOk_checked _ (hu (by decide)).1) _ (by assumption) _);
          intro v)
      | (apply isOk_bind _ _
          (hstream _ _ (fun hu => isOk_checked _ (hu (by decide)).2.1) _ (by assumption) _);
          intro v)
      | (apply isOk_bind _ _
          (hstream _ _ (fun hu => isOk_checked _ (hu (by decide)).2.2.1) _ (by assumption) _);
          intro v)
      | (apply isOk_bind _ _
          (hstream _ _ (fun hu => isOk_checked _ (hu (by decide)).2.2.2) _ (by assumption) _);
          intro v)

/-! ## The window and the input -/

theorem region_zero (txt : List Nat) : region txt 0 = [] := by
  simp [region]

/-- The window with `skip = 0` and `length = -1` is the whole region. -/
theorem window_identity (txt : List Nat) (nChar algo : Int) :
    window txt nChar algo (-1) 0 = (txt, nChar) := by
  simp [window]

/-- The window of lines 197-205 on a whole buffer: the bytes of the region
`(txt, nChar)` it yields are the window of the specification on the buffer. -/
theorem window_region (txt : List Nat) (algo length skip : Int) (halgo : algo < 100) :
    region (window txt txt.length algo length skip).1 (window txt txt.length algo length skip).2
      = windowed txt skip length := by
  unfold window windowed region
  by_cases hs : skip > 0
  · have hmax : max skip 0 = skip := max_eq_left (by omega)
    by_cases hge : skip ≥ (txt.length : Int)
    · have hdrop : txt.drop skip.toNat = [] := List.drop_eq_nil_of_le (by omega)
      have hno : ¬ (length ≥ 0 ∧ length < 0) := by omega
      simp only [hs, halgo, and_self, hge, if_true, hno, if_false, hmax, hdrop]
      simp
    · have hlen : (txt.drop skip.toNat).length = ((txt.length : Int) - skip).toNat := by
        rw [List.length_drop]; omega
      simp only [hs, halgo, and_self, hge, if_true, if_false, hmax]
      by_cases hc : length ≥ 0 ∧ length < (txt.length : Int) - skip
      · simp only [hc, and_self, if_true]
      · simp only [hc, if_false]
        rw [List.take_of_length_le (by omega)]
        by_cases hl : length ≥ 0
        · simp only [hl, if_true]
          rw [List.take_of_length_le (by omega)]
        · simp only [hl, if_false]
  · have hmax : max skip 0 = 0 := max_eq_right (by omega)
    have hno : ¬ (skip > 0 ∧ algo < 100) := fun h => hs h.1
    simp only [hno, if_false, hmax, Int.toNat_zero, List.drop_zero]
    by_cases hc : length ≥ 0 ∧ length < (txt.length : Int)
    · simp only [hc, and_self, if_true]
    · simp only [hc, if_false]
      simp only [Int.toNat_ofNat, List.take_length]
      by_cases hl : length ≥ 0
      · simp only [hl, if_true]
        rw [List.take_of_length_le (by omega)]
      · simp only [hl, if_false]

/-- What `digest` obtains from `Txt` when the call has an input. -/
theorem openInput_of_inputBytes (fs : FileSystem) (Txt : SEXP) (algo : Int) (bytes : List Nat)
    (h : inputBytes fs Txt algo = some bytes) :
    (algo < 100 ∧ ∃ txt : List Nat,
      openInput fs Txt algo = .ok (txt, bytes.length, none)) ∨
    (algo ≥ 100 ∧ ∃ (path : List Nat) (n : Int),
      openInput fs Txt algo = .ok (path, n, some ⟨bytes, 0⟩)) := by
  cases Txt with
  | raw b =>
    by_cases ha : algo < 100
    · simp only [inputBytes, ha, if_true, Option.some.injEq] at h
      subst h
      exact Or.inl ⟨ha, b, rfl⟩
    · simp [inputBytes, ha] at h
  | str s =>
    by_cases ha : algo < 100
    · simp only [inputBytes, ha, if_true, Option.some.injEq] at h
      subst h
      left
      refine ⟨ha, s, ?_⟩
      have : ¬ algo ≥ 100 := by omega
      simp [openInput, this, strlen]
    · simp only [inputBytes, ha, if_false] at h
      right
      have hge : algo ≥ 100 := by omega
      refine ⟨hge, s, strlen s, ?_⟩
      simp [openInput, hge, open_with_widechar_on_windows, h]

/-- C9: for every supported code, the string `digest` returns in hex mode is
the base-16 rendering, two digits for each byte in order, of the raw vector it
returns in raw mode on the same arguments (and both modes fail together).  The
raw vector has the declared length `L` of the algorithm, the string has
exactly `2 * L` characters, each one of `0-9a-f`.  For the integer digests
this makes the `%08x` / `%016x` text the rendering of the big-endian bytes. -/
theorem hex_output_renders_raw_output (P : Prims) (host : Host) (fs : FileSystem)
    (junk : Nat → Nat) (Txt : SEXP) (algo length skip r seed : Int)
    (halgo : algo ∈ supportedCodes) (hr : r ≠ 0) :
    (digest P host fs junk Txt algo length skip 0 seed).value
      = ((digest P host fs junk Txt algo length skip r seed).value).map hexOfRaw ∧
    ∀ s, (digest P host fs junk Txt algo length skip 0 seed).value = .ok s →
      ∃ B, (digest P host fs junk Txt algo length skip r seed).value = .ok (.raw B) ∧
        B.length = declaredLength algo ∧
        s = .str ((hexOfBytes B).map Char.toNat) ∧
        (hexOfBytes B).length = 2 * declaredLength algo ∧
        ∀ c ∈ hexOfBytes B, c ∈ sha2_hex_digits := by
  have hout := junk_length junk
  have hmap : (digest P host fs junk Txt algo length skip 0 seed).value
      = ((digest P host fs junk Txt algo length skip r seed).value).map hexOfRaw := by
    rw [digest, digestWith_value, digest, digestWith_value]
    cases openInput fs Txt algo with
    | error e => rfl
    | ok i => exact emit_switch_hex P host BUF_SIZE algo _ _ _ length skip seed r _ hout halgo
  refine ⟨hmap, ?_⟩
  intro s hs
  rw [hs] at hmap
  have hraw : ∀ res, (digest P host fs junk Txt algo length skip r seed).value = .ok res →
      ∃ B, res = render B r ∧ B.length = declaredLength algo ∧ ∀ b ∈ B, b < 256 := by
    rw [digest, digestWith_value]
    cases openInput fs Txt algo with
    | error e => intro res hres; cases hres
    | ok i => exact emit_switch_length P host BUF_SIZE algo _ _ _ length skip seed r _ hout halgo
  cases hv : (digest P host fs junk Txt algo length skip r seed).value with
  | error e => rw [hv] at hmap; cases hmap
  | ok res =>
    obtain ⟨B, hres, hlen, _⟩ := hraw res hv
    have hrender : render B r = .raw B := by simp [render, hr]
    rw [hrender] at hres
    subst hres
    rw [hv] at hmap
    refine ⟨B, rfl, hlen, ?_, ?_, hexOfBytes_mem B⟩
    · have : Except.ok s = (Except.ok (hexOfRaw (.raw B)) : Except DigestError SEXP) := hmap
      cases this
      rfl
    · rw [hexOfBytes_length, hlen]

/-- C10: for every supported code the raw vector `digest` returns in raw mode
has exactly the declared number of bytes, whatever the input, the window and
the seed, and `digest` does return one when the call has an input and, in the
file cases 106, 107, 112 and 113, xxHash reports no error.  The declared lengths are 16 (MD5), 20 (SHA-1), 4 (CRC32),
32 (SHA-256), 64 (SHA-512), 4 (xxHash32), 8 (xxHash64), 4 (Murmur32),
32 (BLAKE3), 4 (CRC32C), 8 (XXH3-64), 16 (XXH3-128), the same for the code `c`
and the code `c + 100`. -/
theorem raw_output_has_declared_length (P : Prims) (host : Host) (fs : FileSystem)
    (junk : Nat → Nat) (Txt : SEXP) (algo length skip r seed : Int)
    (halgo : algo ∈ supportedCodes) (hr : r ≠ 0) :
    (∀ res, (digest P host fs junk Txt algo length skip r seed).value = .ok res →
      ∃ B, res = .raw B ∧ B.length = declaredLength algo) ∧
    ((algo ∈ xxhStreamCodes → P.ResetOk seed ∧ P.UpdateOk) →
        (inputBytes fs Txt algo).isSome →
      ∃ B, (digest P host fs junk Txt algo length skip r seed).value = .ok (.raw B) ∧
        B.length = declaredLength algo) ∧
    (supportedCodes.map declaredLength
      = [16, 20, 4, 32, 64, 4, 8, 4, 32, 4, 8, 16, 16, 20, 4, 32, 64, 4, 8, 4, 32, 4, 8, 16]) ∧
    (algo < 100 → declaredLength (algo + 100) = declaredLength algo) := by
  have hout := junk_length junk
  have hrender : ∀ B, render B r = .raw B := by intro B; simp [render, hr]
  have hraw : ∀ res, (digest P host fs junk Txt algo length skip r seed).value = .ok res →
      ∃ B, res = .raw B ∧ B.length = declaredLength algo := by
    rw [digest, digestWith_value]
    cases openInput fs Txt algo with
    | error e => intro res hres; cases hres
    | ok i =>
      intro res hres
      obtain ⟨B, hB, hlen, _⟩ :=
        emit_switch_length P host BUF_SIZE algo _ _ _ length skip seed r _ hout halgo res hres
      exact ⟨B, by rw [hB, hrender], hlen⟩
  refine ⟨hraw, ?_, by decide, ?_⟩
  · intro hxxh hin
    have hreset : algo ∈ xxhStreamCodes → P.ResetOk seed := fun h => (hxxh h).1
    have hupdate : algo ∈ xxhStreamCodes → P.UpdateOk := fun h => (hxxh h).2
    obtain ⟨bytes, hbytes⟩ := Option.isSome_iff_exists.mp hin
    have hok : IsOk (digest P host fs junk Txt algo length skip r seed).value := by
      rw [digest, digestWith_value]
      rcases openInput_of_inputBytes fs Txt algo bytes hbytes with
        ⟨hmem, txt, hopen⟩ | ⟨hfile, path, n, hopen⟩
      · rw [hopen]
        exact emit_switch_isOk P host BUF_SIZE algo _ _ none length skip seed r _ hout halgo
          (fun hge => absurd hge (by omega)) hreset (Or.inl ⟨by decide, hupdate⟩)
      · rw [hopen]
        exact emit_switch_isOk P host BUF_SIZE algo _ _ (some ⟨bytes, 0⟩) length skip seed r _
          hout halgo (fun _ => rfl) hreset (Or.inl ⟨by decide, hupdate⟩)
    obtain ⟨res, hres⟩ := hok
    obtain ⟨B, hB, hlen⟩ := hraw res hres
    exact ⟨B, by rw [hres, hB], hlen⟩
  · intro hmem
    simp only [supportedCodes, List.mem_cons, List.mem_singleton, List.not_mem_nil,
      or_false] at halgo
    rcases halgo with rfl | rfl | rfl | rfl | rfl | rfl | rfl | rfl | rfl | rfl | rfl | rfl |
      rfl | rfl | rfl | rfl | rfl | rfl | rfl | rfl | rfl | rfl | rfl | rfl
    all_goals first
      | rfl
      | (exfalso; revert hmem; decide)

set_option maxRecDepth 100000

/-- C9 on the xxHash64 case: the text `0000000000024dbe` is the rendering of the
eight raw bytes. -/
theorem hex_output_renders_raw_output_witness :
    (digest samplePrims ⟨false⟩ (oneFile []) (fun _ => 0) (.raw [1, 2, 3]) 7 (-1) 0 1 5).value
      = .ok (.raw [0, 0, 0, 0, 0, 2, 77, 190]) ∧
    (digest samplePrims ⟨false⟩ (oneFile []) (fun _ => 0) (.raw [1, 2, 3]) 7 (-1) 0 0 5).value
      = .ok (.str (ascii "0000000000024dbe")) :=
  ⟨by decide,
   (hex_output_renders_raw_output samplePrims ⟨false⟩ (oneFile []) (fun _ => 0)
      (.raw [1, 2, 3]) 7 (-1) 0 1 5 (by decide) (by decide)).1.trans (by decide)⟩

/-- C10 on the CRC32 file case with a window: the raw vector has 4 bytes. -/
theorem raw_output_has_declared_length_witness :
    (digest samplePrims ⟨true⟩ (oneFile [1, 2, 3]) (fun _ => 0) (.str [102]) 103 2 1 1 5).value
      = .ok (.raw [0, 0, 0, 97]) ∧
    ∃ B, (digest samplePrims ⟨true⟩ (oneFile [1, 2, 3]) (fun _ => 0) (.str [102]) 103 2 1 1
        5).value = .ok (.raw B) ∧ B.length = declaredLength 103 :=
  ⟨by decide,
   (raw_output_has_declared_length samplePrims ⟨true⟩ (oneFile [1, 2, 3]) (fun _ => 0)
      (.str [102]) 103 2 1 1 5 (by decide) (by decide)).2.1
      (fun h => absurd h (by decide)) (by decide)⟩

/-! ## Where the code departs from the claims C1, C3, C5 -/

theorem long_count_wraps : (((List.replicate 4294967296 0 : List Nat).length : Nat) : Int)
    % 2 ^ 32 = 0 := by
  rw [List.length_replicate]
  norm_num

theorem mix_append (s : Nat) (a b : List Nat) : mix (mix s a) b = mix s (a ++ b) := by
  simp [mix, List.foldl_append]

/-- Code 3: the count handed to `digest_crc32` is `nChar` reduced modulo
`2 ^ 32`; on a window whose count is a multiple of `2 ^ 32` the primitive is
handed no byte. -/
theorem crc32_count_wraps (P : Prims) (host : Host) (fs : FileSystem) (junk : Nat → Nat)
    (bytes : List Nat) (r seed : Int) (hlen : (bytes.length : Int) % 2 ^ 32 = 0) :
    (digest P host fs junk (.raw bytes) 3 (-1) 0 r seed).value
      = .ok (render (bigEndianBytes 4
          (P.digest_crc32 (P.digest_crc32 0 none) (some []) % 2 ^ 32)) r) := by
  have hout := junk_length junk
  have hw : window bytes bytes.length 3 (-1) 0 = (bytes, (bytes.length : Int)) :=
    window_identity _ _ _
  rw [digest, digestWith_value]
  simp only [openInput, hw]
  simp only [switchAlgo, Int.reduceEq, ↓reduceIte, hlen, region_zero]
  exact emit_u32 host _ _ r hout

/-- C1 fails on the code.  With primitives that meet the assumptions of the
claim (the update of XXH3 is independent of the chunking, the one-shot
function at seed 0 is reset / update / digest), the bytes `1 2 3` and the seed
1: the in-memory codes 12 and 13 hand the seed to the one-shot function, the
file codes 112 and 113 reset the state without it, and the outputs differ. -/
theorem xxh3_file_mode_drops_seed :
    (digest samplePrims ⟨false⟩ (oneFile [1, 2, 3]) (fun _ => 0) (.raw [1, 2, 3]) 12 (-1) 0 0
        1).value = .ok (.str (ascii "0000000000007c42")) ∧
    (digest samplePrims ⟨false⟩ (oneFile [1, 2, 3]) (fun _ => 0) (.str [102]) 112 (-1) 0 0
        1).value = .ok (.str (ascii "00000000000007e3")) ∧
    (digest samplePrims ⟨false⟩ (oneFile [1, 2, 3]) (fun _ => 0) (.raw [1, 2, 3]) 13 (-1) 0 0
        1).value = .ok (.str (ascii "0000000000007c42000000000000f0a1")) ∧
    (digest samplePrims ⟨false⟩ (oneFile [1, 2, 3]) (fun _ => 0) (.str [102]) 113 (-1) 0 0
        1).value = .ok (.str (ascii "00000000000007e30000000000007c42")) ∧
    (∀ s a b, (samplePrims.xxh3_64.update s a).bind (fun s1 => samplePrims.xxh3_64.update s1 b)
      = samplePrims.xxh3_64.update s (a ++ b)) ∧
    (∀ data, (samplePrims.xxh3_64.reset.bind fun s => samplePrims.xxh3_64.update s data).map
        samplePrims.xxh3_64.digest = some (samplePrims.XXH3_64bits_withSeed data 0)) ∧
    (∀ s a b, (samplePrims.xxh3_128.update s a).bind
        (fun s1 => samplePrims.xxh3_128.update s1 b) = samplePrims.xxh3_128.update s (a ++ b)) ∧
    (∀ data, (samplePrims.xxh3_128.reset.bind fun s => samplePrims.xxh3_128.update s data).map
        samplePrims.xxh3_128.digest = some (samplePrims.XXH3_128bits_withSeed data 0)) := by
  refine ⟨by decide, by decide, by decide, by decide, ?_, ?_, ?_, ?_⟩
  · intro s a b
    simp [samplePrims, mix_append]
  · intro data
    simp [samplePrims]
  · intro s a b
    simp [samplePrims, mix_append]
  · intro data
    simp [samplePrims]

/-- C3 fails on the code for the in-memory CRC32 case.  On a raw vector of
`2 ^ 32` bytes with `skip = 0` and `length = -1` the window of lines 197-205 is
the whole buffer, as the claim says, but case 3 converts the count to
`unsigned`: `digest_crc32` is handed the empty region and `digest` returns the
CRC32 of no byte. -/
theorem crc32_long_region_handed_empty (P : Prims) (host : Host) (fs : FileSystem)
    (junk : Nat → Nat) (r seed : Int) :
    window (List.replicate 4294967296 0) 4294967296 3 (-1) 0
      = (List.replicate 4294967296 0, 4294967296) ∧
    (digest P host fs junk (.raw (List.replicate 4294967296 0)) 3 (-1) 0 r seed).value
      = .ok (render (bigEndianBytes 4
          (P.digest_crc32 (P.digest_crc32 0 none) (some []) % 2 ^ 32)) r) := by
  exact ⟨window_identity _ _ _, crc32_count_wraps P host fs junk _ r seed long_count_wraps⟩

/-- C5 fails on the code for the in-memory CRC32 case.  With `skip = 0` and
`length = -1` a raw vector of `2 ^ 32` bytes is given the digest of the empty
raw vector, not the digest of the whole input. -/
theorem crc32_long_buffer_digest_of_empty (P : Prims) (host : Host) (fs : FileSystem)
    (junk : Nat → Nat) (r seed : Int) :
    (digest P host fs junk (.raw (List.replicate 4294967296 0)) 3 (-1) 0 r seed).value
      = (digest P host fs junk (.raw []) 3 (-1) 0 r seed).value := by
  rw [crc32_count_wraps P host fs junk _ r seed long_count_wraps,
    crc32_count_wraps P host fs junk [] r seed (by decide)]

/-! ## More on the read loops, the window and the value of `digest` -/

/-- A code without a case in the `switch` reaches `default`. -/
theorem switch_unsupported (P : Prims) (host : Host) (bs : Nat) (algo : Int) (txt : List Nat)
    (nChar : Int) (fp : Option FILE) (length skip seed r : Int) (output : List Nat)
    (h : algo ∉ supportedCodes) :
    switchAlgo P host bs algo txt nChar fp length skip seed r output
      = .error .unsupportedAlgorithmCode := by
  simp only [supportedCodes, List.mem_cons, List.mem_singleton, List.not_mem_nil, or_false,
    not_or] at h
  simp only [switchAlgo, h, if_false]

theorem take_pos_ne_nil (l : List Nat) (k : Nat) (hl : 0 < l.length) (hk : 0 < k) :
    l.take k ≠ [] := by
  intro h
  have := congrArg List.length h
  simp only [List.length_take, List.length_nil] at this
  omega

theorem readLimited_record_nonempty (bs : Nat) :
    ∀ (fuel : Nat) (fp : FILE) (length : Int) (tr tr1 : List (List Nat)),
      readLimited record bs fuel fp length tr = .ok tr1 → (∀ c ∈ tr, c ≠ []) →
      ∀ c ∈ tr1, c ≠ [] := by
  intro fuel
  induction fuel with
  | zero => intro fp length tr tr1 h; simp [readLimited] at h
  | succ fuel ih =>
    intro fp length tr tr1 h htr
    simp only [readLimited] at h
    by_cases hgo : ((((fread bs fp).1.length : Nat) : Int) > 0 ∧ length > 0)
    · rw [if_pos hgo] at h
      simp only [record] at h
      refine ih _ _ _ _ h ?_
      intro c hc
      rcases List.mem_append.mp hc with hc | hc
      · exact htr c hc
      · rw [List.mem_singleton] at hc
        rw [hc]
        apply take_pos_ne_nil
        · omega
        · split <;> omega
    · rw [if_neg hgo] at h
      cases h
      exact htr

theorem readAll_record_nonempty (bs : Nat) :
    ∀ (fuel : Nat) (fp : FILE) (tr tr1 : List (List Nat)),
      readAll record bs fuel fp tr = .ok tr1 → (∀ c ∈ tr, c ≠ []) →
      ∀ c ∈ tr1, c ≠ [] := by
  intro fuel
  induction fuel with
  | zero => intro fp tr tr1 h; simp [readAll] at h
  | succ fuel ih =>
    intro fp tr tr1 h htr
    simp only [readAll] at h
    by_cases hgo : (((fread bs fp).1.length : Nat) : Int) > 0
    · rw [if_pos hgo] at h
      simp only [record] at h
      refine ih _ _ _ h ?_
      intro c hc
      rcases List.mem_append.mp hc with hc | hc
      · exact htr c hc
      · rw [List.mem_singleton] at hc
        rw [hc]
        apply take_pos_ne_nil
        · omega
        · omega
    · rw [if_neg hgo] at h
      cases h
      exact htr

/-- The chunks the loops of a file case pass on: their concatenation, their
number, none of them empty, and the run of the loops as a fold over them. -/
theorem chunksRead_spec (bs : Nat) (hbs : 0 < bs) (fp : FILE) (length : Int) :
    (chunksRead bs fp length).flatten
      = (if length ≥ 0 then (fp.content.drop fp.pos).take length.toNat
        else fp.content.drop fp.pos) ∧
    (chunksRead bs fp length).length ≤ fp.content.length - fp.pos ∧
    (∀ c ∈ chunksRead bs fp length, c ≠ []) ∧
    ∀ (σ : Type) (upd : σ → List Nat → Except DigestError σ) (st : σ),
      readStream upd bs fp length st = (chunksRead bs fp length).foldlM upd st := by
  obtain ⟨chunks, hflat, hcount, hrun⟩ := readStream_chunks bs hbs fp length
  have hrec : readStream record bs fp length [] = .ok chunks := by
    rw [hrun, foldlM_record]; rfl
  have hch : chunksRead bs fp length = chunks := by
    simp only [chunksRead, hrec]
  rw [hch]
  refine ⟨hflat, hcount, ?_, hrun⟩
  unfold readStream at hrec
  split at hrec
  · exact readLimited_record_nonempty bs _ _ _ _ _ hrec (by simp)
  · exact readAll_record_nonempty bs _ _ _ _ hrec (by simp)

theorem chunksRead_window (bs : Nat) (hbs : 0 < bs) (file : List Nat) (skip length : Int) :
    (chunksRead bs (seekSkip ⟨file, 0⟩ skip) length).flatten = windowed file skip length := by
  rw [(chunksRead_spec bs hbs _ length).1, seekSkip_rest]
  simp only [windowed]

theorem cstring_take (chars : List Nat) : chars.take (cstring chars).length = cstring chars := by
  have h : cstring chars <+: chars := List.takeWhile_prefix _
  exact (List.prefix_iff_eq_take.mp h).symm

theorem cstring_length_le (chars : List Nat) : (cstring chars).length ≤ chars.length := by
  have h : cstring chars <+: chars := List.takeWhile_prefix _
  exact h.length_le

/-- The window of lines 197-205 on the region `(txt, n)`: the bytes and the
count it yields are those of the window of the specification on the `n` bytes
at `txt`. -/
theorem window_region_take (txt : List Nat) (n : Nat) (algo length skip : Int)
    (halgo : algo < 100) (hn : n ≤ txt.length) :
    region (window txt n algo length skip).1 (window txt n algo length skip).2
      = windowed (txt.take n) skip length ∧
    (window txt n algo length skip).2 = ((windowed (txt.take n) skip length).length : Int) := by
  unfold window windowed region
  by_cases hs : skip > 0
  · have hmax : max skip 0 = skip := max_eq_left (by omega)
    by_cases hge : skip ≥ (n : Int)
    · have hdrop : (txt.take n).drop skip.toNat = [] :=
        List.drop_eq_nil_of_le (by rw [List.length_take]; omega)
      have hno : ¬ (length ≥ 0 ∧ length < 0) := by omega
      simp only [hs, halgo, and_self, hge, if_true, hno, if_false, hmax, hdrop]
      simp
    · have hdt : (txt.take n).drop skip.toNat = (txt.drop skip.toNat).take (n - skip.toNat) :=
        List.drop_take _ _ _
      simp only [hs, halgo, and_self, hge, if_true, if_false, hmax, hdt]
      by_cases hc : length ≥ 0 ∧ length < (n : Int) - skip
      · simp only [hc, and_self, if_true, List.take_take, List.length_take, List.length_drop]
        constructor
        · congr 1; omega
        · omega
      · simp only [hc, if_false]
        have h1 : ((n : Int) - skip).toNat = n - skip.toNat := by omega
        by_cases hl : length ≥ 0
        · simp only [hl, if_true, List.take_take, List.length_take, List.length_drop, h1]
          constructor
          · congr 1; omega
          · omega
        · simp only [hl, if_false, List.length_take, List.length_drop, h1]
          constructor
          · trivial
          · omega
  · have hmax : max skip 0 = 0 := max_eq_right (by omega)
    have hno : ¬ (skip > 0 ∧ algo < 100) := fun h => hs h.1
    simp only [hno, if_false, hmax, Int.toNat_zero, List.drop_zero]
    by_cases hc : length ≥ 0 ∧ length < (n : Int)
    · simp only [hc, and_self, if_true, List.take_take, List.length_take]
      constructor
      · congr 1; omega
      · omega
    · simp only [hc, if_false, Int.toNat_ofNat]
      by_cases hl : length ≥ 0
      · simp only [hl, if_true, List.take_take, List.length_take]
        constructor
        · congr 1; omega
        · omega
      · simp only [hl, if_false, List.length_take]
        constructor
        · trivial
        · omega

/-- In in-memory mode the value of `digest` is the `switch` on a region whose
bytes are the window of the input. -/
theorem digest_memory_value (P : Prims) (host : Host) (fs : FileSystem) (junk : Nat → Nat)
    (Txt : SEXP) (algo length skip r seed : Int) (bytes : List Nat) (hmem : algo < 100)
    (hin : inputBytes fs Txt algo = some bytes) :
    ∃ (txt : List Nat) (n : Int), region txt n = windowed bytes skip length ∧
      n = ((windowed bytes skip length).length : Int) ∧
      (digest P host fs junk Txt algo length skip r seed).value
        = emit (switchAlgo P host BUF_SIZE algo txt n none length skip seed r
            ((List.range (128 + 1)).map junk)) r := by
  have hnot : ¬ algo ≥ 100 := by omega
  have key : ∃ txt : List Nat, openInput fs Txt algo = .ok (txt, bytes.length, none) ∧
      bytes.length ≤ txt.length ∧ txt.take bytes.length = bytes := by
    cases Txt with
    | raw b =>
      simp only [inputBytes, hmem, if_true, Option.some.injEq] at hin
      subst hin
      exact ⟨b, rfl, Nat.le_refl _, List.take_length _⟩
    | str s =>
      simp only [inputBytes, hmem, if_true, Option.some.injEq] at hin
      subst hin
      refine ⟨s, ?_, cstring_length_le s, cstring_take s⟩
      simp [openInput, hnot, strlen]
  obtain ⟨txt, hopen, hle, htake⟩ := key
  obtain ⟨hreg, hcount⟩ := window_region_take txt bytes.length algo length skip hmem hle
  rw [htake] at hreg hcount
  refine ⟨_, _, hreg, hcount, ?_⟩
  rw [digest, digestWith_value, hopen]

/-- In file mode the value of `digest` is the `switch` on the stream of the
file, positioned at its start. -/
theorem digest_file_value (P : Prims) (host : Host) (fs : FileSystem) (junk : Nat → Nat)
    (Txt : SEXP) (algo length skip r seed : Int) (bytes : List Nat) (hfile : algo ≥ 100)
    (hin : inputBytes fs Txt algo = some bytes) :
    ∃ (txt : List Nat) (n : Int),
      (digest P host fs junk Txt algo length skip r seed).value
        = emit (switchAlgo P host BUF_SIZE algo txt n (some ⟨bytes, 0⟩) length skip seed r
            ((List.range (128 + 1)).map junk)) r := by
  rcases openInput_of_inputBytes fs Txt algo bytes hin with
    ⟨hmem, txt, hopen⟩ | ⟨_, path, n, hopen⟩
  · omega
  · exact ⟨_, _, by rw [digest, digestWith_value, hopen]⟩

/-! ## The XXH3-128 output: claim C11 -/

/-- The output of the cases 13 and 113 for the value `(hi, lo)`, in both
modes. -/
theorem emit_xxh128_modes (hi lo : Nat) (hhi : hi < 2 ^ 64) (hlo : lo < 2 ^ 64)
    (output : List Nat) (hout : output.length = 129) (r : Int) (hr : r ≠ 0) :
    emit (stored (storeXXH128 (hi, lo) output 0) 16) 0
      = .ok (.str ((fmtHex 16 hi ++ fmtHex 16 lo).map Char.toNat)) ∧
    emit (stored (storeXXH128 (hi, lo) output r) 16) r
      = .ok (.raw (bigEndianBytes 8 hi ++ bigEndianBytes 8 lo)) := by
  constructor
  · rw [emit_xxh128 (hi, lo) output 0 hhi hlo (by omega)]
    simp [render, XXH128_canonicalFromHash, hexOfBytes_append,
      hexOfBytes_bigEndian_eight _ hhi, hexOfBytes_bigEndian_eight _ hlo]
  · rw [emit_xxh128 (hi, lo) output r hhi hlo (by omega)]
    simp [render, hr, XXH128_canonicalFromHash]

/-- C11: for every XXH3-128 value `(high64, low64)`, the output code of the
cases 13 and 113 yields in hex mode the string of the 16 zero-padded lowercase
base-16 digits of `high64` followed by the 16 of `low64` (32 characters of
`0-9a-f`, each half reading back as its number), and in raw mode the 16 bytes
of the canonical form, the 8 big-endian bytes of `high64` followed by the 8 of
`low64`.  This is what `digest` returns for code 13 when the one-shot
primitive yields the value on the window of the input, and for code 113 when
the streaming primitive yields it after the chunks of the window. -/
theorem xxh3_128_hex_and_canonical (hi lo : Nat) (hhi : hi < 2 ^ 64) (hlo : lo < 2 ^ 64)
    (junk : Nat → Nat) (r : Int) (hr : r ≠ 0) :
    emit (stored (storeXXH128 (hi, lo) ((List.range (128 + 1)).map junk) 0) 16) 0
      = .ok (.str ((fmtHex 16 hi ++ fmtHex 16 lo).map Char.toNat)) ∧
    emit (stored (storeXXH128 (hi, lo) ((List.range (128 + 1)).map junk) r) 16) r
      = .ok (.raw (bigEndianBytes 8 hi ++ bigEndianBytes 8 lo)) ∧
    ((fmtHex 16 hi).length = 16 ∧ (fmtHex 16 lo).length = 16 ∧
      hexValue (fmtHex 16 hi) = some hi ∧ hexValue (fmtHex 16 lo) = some lo ∧
      (∀ c ∈ fmtHex 16 hi ++ fmtHex 16 lo, c ∈ sha2_hex_digits) ∧
      (bigEndianBytes 8 hi ++ bigEndianBytes 8 lo).length = 16) ∧
    (∀ (P : Prims) (host : Host) (fs : FileSystem) (Txt : SEXP) (length skip seed : Int)
        (bytes : List Nat), inputBytes fs Txt 13 = some bytes →
        P.XXH3_128bits_withSeed (windowed bytes skip length) seed = (hi, lo) →
      (digest P host fs junk Txt 13 length skip 0 seed).value
        = .ok (.str ((fmtHex 16 hi ++ fmtHex 16 lo).map Char.toNat)) ∧
      (digest P host fs junk Txt 13 length skip r seed).value
        = .ok (.raw (bigEndianBytes 8 hi ++ bigEndianBytes 8 lo))) ∧
    (∀ (P : Prims) (host : Host) (fs : FileSystem) (Txt : SEXP) (length skip seed : Int)
        (bytes : List Nat) (state : P.xxh3_128.state), inputBytes fs Txt 113 = some bytes →
        (checkedReset P.xxh3_128.reset).bind (fun s =>
          (chunksRead BUF_SIZE (seekSkip ⟨bytes, 0⟩ skip) length).foldlM
            (checked P.xxh3_128.update) s) = .ok state →
        P.xxh3_128.digest state = (hi, lo) →
      (digest P host fs junk Txt 113 length skip 0 seed).value
        = .ok (.str ((fmtHex 16 hi ++ fmtHex 16 lo).map Char.toNat)) ∧
      (digest P host fs junk Txt 113 length skip r seed).value
        = .ok (.raw (bigEndianBytes 8 hi ++ bigEndianBytes 8 lo))) := by
  have hout := junk_length junk
  have hn1 : hi < 16 ^ (15 + 1) := by norm_num at hhi ⊢; omega
  have hn2 : lo < 16 ^ (15 + 1) := by norm_num at hlo ⊢; omega
  have hmod1 : hi % 2 ^ 64 = hi := Nat.mod_eq_of_lt hhi
  have hmod2 : lo % 2 ^ 64 = lo := Nat.mod_eq_of_lt hlo
  obtain ⟨hhex, hraw⟩ := emit_xxh128_modes hi lo hhi hlo _ hout r hr
  refine ⟨hhex, hraw, ⟨fmtHex_length 15 hi hn1, fmtHex_length 15 lo hn2,
    hexValue_fmtHex 15 hi hn1, hexValue_fmtHex 15 lo hn2, ?_, ?_⟩, ?_, ?_⟩
  · intro c hc
    rcases List.mem_append.mp hc with h | h
    · exact fmtHex_mem 15 _ hn1 c h
    · exact fmtHex_mem 15 _ hn2 c h
  · rw [List.length_append, bigEndianBytes_length, bigEndianBytes_length]
  · intro P host fs Txt length skip seed bytes hin hval
    obtain ⟨txt, n, hreg, _, hv⟩ :=
      digest_memory_value P host fs junk Txt 13 length skip 0 seed bytes (by decide) hin
    obtain ⟨txt1, n1, hreg1, _, hv1⟩ :=
      digest_memory_value P host fs junk Txt 13 length skip r seed bytes (by decide) hin
    rw [hv, hv1]
    simp only [switchAlgo, Int.reduceEq, ↓reduceIte, hreg, hreg1, hval, hmod1, hmod2]
    exact ⟨hhex, hraw⟩
  · intro P host fs Txt length skip seed bytes state hin hstate hval
    obtain ⟨txt, n, hv⟩ :=
      digest_file_value P host fs junk Txt 113 length skip 0 seed bytes (by decide) hin
    obtain ⟨txt1, n1, hv1⟩ :=
      digest_file_value P host fs junk Txt 113 length skip r seed bytes (by decide) hin
    rw [hv, hv1]
    have hrun := (chunksRead_spec BUF_SIZE (by decide) (seekSkip ⟨bytes, 0⟩ skip) length).2.2.2
    cases hreset : checkedReset P.xxh3_128.reset with
    | error e => rw [hreset] at hstate; cases hstate
    | ok s =>
      rw [hreset] at hstate
      have hfold : (chunksRead BUF_SIZE (seekSkip ⟨bytes, 0⟩ skip) length).foldlM
          (checked P.xxh3_128.update) s = .ok state := hstate
      simp only [switchAlgo, Int.reduceEq, ↓reduceIte, withFile, hreset, hrun, hfold,
        Except.bind, hval, hmod1, hmod2]
      exact ⟨hhex, hraw⟩

/-- C11 on the value `(0x0123456789abcdef, 0xfedcba9876543210)`. -/
theorem xxh3_128_hex_and_canonical_witness :
    emit (stored (storeXXH128 (0x0123456789abcdef, 0xfedcba9876543210)
        ((List.range (128 + 1)).map fun _ => 0) 0) 16) 0
      = .ok (.str (ascii "0123456789abcdeffedcba9876543210")) ∧
    emit (stored (storeXXH128 (0x0123456789abcdef, 0xfedcba9876543210)
        ((List.range (128 + 1)).map fun _ => 0) 1) 16) 1
      = .ok (.raw [0x01, 0x23, 0x45, 0x67, 0x89, 0xab, 0xcd, 0xef,
          0xfe, 0xdc, 0xba, 0x98, 0x76, 0x54, 0x32, 0x10]) :=
  ⟨(xxh3_128_hex_and_canonical 0x0123456789abcdef 0xfedcba9876543210 (by decide) (by decide)
      (fun _ => 0) 1 (by decide)).1.trans (by decide),
   (xxh3_128_hex_and_canonical 0x0123456789abcdef 0xfedcba9876543210 (by decide) (by decide)
      (fun _ => 0) 1 (by decide)).2.1.trans (by decide)⟩

/-! ## Unsupported codes and the file handle: claims C12, C13 -/

/-- C12 fails as stated when the code is at least 100 and the input is a
string: the file is opened before the `switch`, so with the code 999, which
has no case, and the name of a file that cannot be opened, `digest` fails with
the error of the file, not with the one of the algorithm. -/
theorem unknown_code_missing_file_cannot_open :
    (999 : Int) ∉ supportedCodes ∧
    (digest samplePrims ⟨false⟩ (fun _ => none) (fun _ => 0) (.str [102]) 999 (-1) 0 0 0).value
      = .error .cannotOpenInputFile ∧
    (digest samplePrims ⟨false⟩ (fun _ => none) (fun _ => 0) (.str [102]) 999 (-1) 0 0 0).value
      ≠ .error .unsupportedAlgorithmCode := by
  decide

/-- C12, amended: for every code without a case in the `switch` and every
input, `digest` fails and returns no value: it picks no default algorithm, and
it never reaches `fclose`.  The error is the one of the unsupported algorithm,
unless the code is at least 100 and the input is a string naming a file that
cannot be opened, where it is the error of the file. -/
theorem unsupported_code_is_rejected (P : Prims) (host : Host) (fs : FileSystem)
    (junk : Nat → Nat) (Txt : SEXP) (algo length skip r seed : Int)
    (halgo : algo ∉ supportedCodes) :
    (digest P host fs junk Txt algo length skip r seed).value
      = (match Txt with
        | .raw _ => .error .unsupportedAlgorithmCode
        | .str chars =>
          if algo ≥ 100 ∧ fs (cstring chars) = none then .error .cannotOpenInputFile
          else .error .unsupportedAlgorithmCode) ∧
    (∀ res, (digest P host fs junk Txt algo length skip r seed).value ≠ .ok res) ∧
    (digest P host fs junk Txt algo length skip r seed).closed = 0 := by
  have hv : (digest P host fs junk Txt algo length skip r seed).value
      = (match Txt with
        | .raw _ => .error .unsupportedAlgorithmCode
        | .str chars =>
          if algo ≥ 100 ∧ fs (cstring chars) = none then .error .cannotOpenInputFile
          else .error .unsupportedAlgorithmCode) := by
    rw [digest, digestWith_value]
    cases Txt with
    | raw b => simp only [openInput, switch_unsupported _ _ _ _ _ _ _ _ _ _ _ _ halgo, emit]
    | str chars =>
      by_cases hge : algo ≥ 100
      · cases hf : fs (cstring chars) with
        | none => simp [openInput, hge, open_with_widechar_on_windows, hf]
        | some c =>
          simp [openInput, hge, open_with_widechar_on_windows, hf,
            switch_unsupported _ _ _ _ _ _ _ _ _ _ _ _ halgo, emit]
      · simp [openInput, hge, switch_unsupported _ _ _ _ _ _ _ _ _ _ _ _ halgo, emit]
  refine ⟨hv, ?_, ?_⟩
  · intro res hres
    rw [hv] at hres
    cases Txt with
    | raw b => cases hres
    | str chars =>
      simp only at hres
      split at hres <;> cases hres
  · unfold digest digestWith
    cases openInput fs Txt algo with
    | error e => rfl
    | ok i =>
      obtain ⟨txt, nChar, fp⟩ := i
      simp only [switch_unsupported _ _ _ _ _ _ _ _ _ _ _ _ halgo]

/-- C12 on the code 9 with a raw vector. -/
theorem unsupported_code_is_rejected_witness :
    (digest samplePrims ⟨false⟩ (oneFile [1]) (fun _ => 0) (.raw [1, 2, 3]) 9 (-1) 0 0 0).value
      = .error .unsupportedAlgorithmCode :=
  (unsupported_code_is_rejected samplePrims ⟨false⟩ (oneFile [1]) (fun _ => 0) (.raw [1, 2, 3])
    9 (-1) 0 0 0 (by decide)).1

/-- C13 fails on the code.  `error` does not return, and `fclose` is called on
the normal path only (lines 665-667).  With a file that can be opened: the
code 109, which has no case, ends in `error("Unsupported algorithm code")`; a
reset call of xxHash32 that reports `XXH_ERROR` ends in `error` (line 460); so
does an update call that reports it (line 467).  Each time one file was opened
and none was closed.  On the path without an error the file is closed
once. -/
theorem error_paths_leave_file_open (P : Prims) (host : Host) (junk : Nat → Nat)
    (content : List Nat) (length skip r seed : Int) :
    ((digest P host (oneFile content) junk (.str [102]) 109 length skip r seed).value
        = .error .unsupportedAlgorithmCode ∧
      (digest P host (oneFile content) junk (.str [102]) 109 length skip r seed).opened = 1 ∧
      (digest P host (oneFile content) junk (.str [102]) 109 length skip r seed).closed = 0) ∧
    ((digest resetFails host (oneFile content) junk (.str [102]) 106 length skip r seed).value
        = .error .xxhReset ∧
      (digest resetFails host (oneFile content) junk (.str [102]) 106 length skip r seed).opened
        = 1 ∧
      (digest resetFails host (oneFile content) junk (.str [102]) 106 length skip r seed).closed
        = 0) ∧
    ((digest updateFails ⟨false⟩ (oneFile [1, 2, 3]) (fun _ => 0) (.str [102]) 106 (-1) 0 0
        0).value = .error .xxhUpdate ∧
      (digest updateFails ⟨false⟩ (oneFile [1, 2, 3]) (fun _ => 0) (.str [102]) 106 (-1) 0 0
        0).opened = 1 ∧
      (digest updateFails ⟨false⟩ (oneFile [1, 2, 3]) (fun _ => 0) (.str [102]) 106 (-1) 0 0
        0).closed = 0) ∧
    ((digest samplePrims ⟨false⟩ (oneFile [1, 2, 3]) (fun _ => 0) (.str [102]) 106 (-1) 0 0
        0).value = .ok (.str (ascii "000007e3")) ∧
      (digest samplePrims ⟨false⟩ (oneFile [1, 2, 3]) (fun _ => 0) (.str [102]) 106 (-1) 0 0
        0).opened = 1 ∧
      (digest samplePrims ⟨false⟩ (oneFile [1, 2, 3]) (fun _ => 0) (.str [102]) 106 (-1) 0 0
        0).closed = 1) := by
  refine ⟨?_, ?_, by decide, by decide⟩
  · simp [digest, digestWith, openInput, open_with_widechar_on_windows, oneFile, cstring,
      switchAlgo]
  · simp [digest, digestWith, openInput, open_with_widechar_on_windows, oneFile, cstring,
      switchAlgo, withFile, resetFails, checkedReset, Except.bind]

/-! ## The seed: claims C14, C15 -/

/-- The cases of the algorithms without a seed, and the file cases of XXH3, do
not read the variable `seed`. -/
theorem switch_ignores_seed (P : Prims) (host : Host) (bs : Nat) (algo : Int) (txt : List Nat)
    (nChar : Int) (fp : Option FILE) (length skip seed1 seed2 r : Int) (output : List Nat)
    (h : algo ∈ seedFreeCodes ∨ algo = 112 ∨ algo = 113) :
    switchAlgo P host bs algo txt nChar fp length skip seed1 r output
      = switchAlgo P host bs algo txt nChar fp length skip seed2 r output := by
  simp only [seedFreeCodes, List.mem_cons, List.mem_singleton, List.not_mem_nil, or_false,
    or_assoc] at h
  rcases h with rfl | rfl | rfl | rfl | rfl | rfl | rfl | rfl | rfl | rfl | rfl | rfl |
    rfl | rfl | rfl | rfl
  all_goals simp only [switchAlgo, Int.reduceEq, ↓reduceIte]

theorem digest_ignores_seed (P : Prims) (host : Host) (fs : FileSystem) (junk : Nat → Nat)
    (Txt : SEXP) (algo length skip r seed1 seed2 : Int)
    (h : algo ∈ seedFreeCodes ∨ algo = 112 ∨ algo = 113) :
    digest P host fs junk Txt algo length skip r seed1
      = digest P host fs junk Txt algo length skip r seed2 := by
  unfold digest digestWith
  cases openInput fs Txt algo with
  | error e => rfl
  | ok i =>
    obtain ⟨txt, nChar, fp⟩ := i
    simp only
    rw [switch_ignores_seed P host _ algo _ _ _ _ _ seed1 seed2 _ _ h]

theorem inputBytes_memory (fs : FileSystem) (Txt : SEXP) (a b : Int) (ha : a < 100)
    (hb : b < 100) : inputBytes fs Txt a = inputBytes fs Txt b := by
  cases Txt <;> simp [inputBytes, ha, hb]

/-- The state of the file case of MurmurHash3 after the chunks: the hash state
folded over them, and the sum of their sizes added to `total_length`. -/
theorem murmur_fold (P : Prims) (chunks : List (List Nat)) :
    ∀ (h : Nat × Nat) (t : Nat),
      chunks.foldlM
        (total fun (st : (Nat × Nat) × Nat) buf =>
          (P.PMurHash32_Process st.1 buf, (st.2 + buf.length) % 2 ^ 64)) (h, t)
      = .ok (chunks.foldl P.PMurHash32_Process h,
          if chunks = [] then t else (t + (chunks.map List.length).sum) % 2 ^ 64) := by
  induction chunks with
  | nil => intro h t; simp [pure, Except.pure]
  | cons c chunks ih =>
    intro h t
    rw [List.foldlM_cons]
    simp only [total, bind, Except.bind]
    rw [ih]
    simp only [List.foldl_cons, List.map_cons, List.sum_cons, reduceCtorEq, if_false]
    congr 2
    split
    · rename_i hnil
      simp [hnil]
    · omega

/-- The count `total_length` of the file case of MurmurHash3 after the chunks
is the number of their bytes, as a `size_t`. -/
theorem murmur_total (chunks : List (List Nat)) :
    (if chunks = [] then 0 else (0 + (chunks.map List.length).sum) % 2 ^ 64)
      = chunks.flatten.length % 2 ^ 64 := by
  rw [List.length_flatten]
  split
  · rename_i h
    simp [h]
  · simp

/-- C14: the algorithms without a seed (codes 1-5, 10, 11 and 101-105, 110,
111) give the same result of `digest`, value and effects, for any two seeds,
whatever the input, the window and the output mode.  For the seed-aware codes
the argument `seed` is what the primitive receives: the value of `digest` is
the rendering of `XXH32`, `XXH64`, `PMurHash32`, `XXH3_64bits_withSeed` called
on the window of the input with `seed` (codes 6, 7, 8, 12), of the xxHash
state reset with `seed` and updated with the chunks of the window (codes 106,
107), and of the MurmurHash3 state started from `h1 = seed` (code 108). -/
theorem seed_reaches_seeded_algorithms_only (P : Prims) (host : Host) (fs : FileSystem)
    (junk : Nat → Nat) (Txt : SEXP) (algo length skip r seed : Int) :
    (algo ∈ seedFreeCodes → ∀ seed2,
      digest P host fs junk Txt algo length skip r seed
        = digest P host fs junk Txt algo length skip r seed2) ∧
    ∀ bytes, inputBytes fs Txt algo = some bytes →
      (algo = 6 → (digest P host fs junk Txt algo length skip r seed).value
        = .ok (render (bigEndianBytes 4
            (P.XXH32 (windowed bytes skip length) seed % 2 ^ 32)) r)) ∧
      (algo = 7 → (digest P host fs junk Txt algo length skip r seed).value
        = .ok (render (bigEndianBytes 8
            (P.XXH64 (windowed bytes skip length) seed % 2 ^ 64)) r)) ∧
      (algo = 8 → (digest P host fs junk Txt algo length skip r seed).value
        = .ok (render (bigEndianBytes 4
            (P.PMurHash32 seed (windowed bytes skip length) % 2 ^ 32)) r)) ∧
      (algo = 12 → (digest P host fs junk Txt algo length skip r seed).value
        = .ok (render (bigEndianBytes 8
            (P.XXH3_64bits_withSeed (windowed bytes skip length) seed % 2 ^ 64)) r)) ∧
      (algo = 106 → (digest P host fs junk Txt algo length skip r seed).value
        = ((checkedReset (P.xxh32.reset seed)).bind fun s =>
            (chunksRead BUF_SIZE (seekSkip ⟨bytes, 0⟩ skip) length).foldlM
              (checked P.xxh32.update) s).bind
          fun s => .ok (render (bigEndianBytes 4 (P.xxh32.digest s % 2 ^ 32)) r)) ∧
      (algo = 107 → (digest P host fs junk Txt algo length skip r seed).value
        = ((checkedReset (P.xxh64.reset seed)).bind fun s =>
            (chunksRead BUF_SIZE (seekSkip ⟨bytes, 0⟩ skip) length).foldlM
              (checked P.xxh64.update) s).bind
          fun s => .ok (render (bigEndianBytes 8 (P.xxh64.digest s % 2 ^ 64)) r)) ∧
      (algo = 108 → (digest P host fs junk Txt algo length skip r seed).value
        = .ok (render (bigEndianBytes 4
            (P.PMurHash32_Result
              ((chunksRead BUF_SIZE (seekSkip ⟨bytes, 0⟩ skip) length).foldl
                P.PMurHash32_Process ((seed % 2 ^ 32).toNat, 0)).1
              ((chunksRead BUF_SIZE (seekSkip ⟨bytes, 0⟩ skip) length).foldl
                P.PMurHash32_Process ((seed % 2 ^ 32).toNat, 0)).2
              ((windowed bytes skip length).length % 2 ^ 64) % 2 ^ 32)) r)) := by
  have hout := junk_length junk
  refine ⟨fun h seed2 => digest_ignores_seed P host fs junk Txt algo length skip r seed seed2
    (Or.inl h), ?_⟩
  intro bytes hin
  have hrun := (chunksRead_spec BUF_SIZE (by decide) (seekSkip ⟨bytes, 0⟩ skip) length).2.2.2
  refine ⟨?_, ?_, ?_, ?_, ?_, ?_, ?_⟩
  · rintro rfl
    obtain ⟨txt, n, hreg, _, hv⟩ :=
      digest_memory_value P host fs junk Txt 6 length skip r seed bytes (by decide) hin
    rw [hv]
    simp only [switchAlgo, Int.reduceEq, ↓reduceIte, hreg]
    exact emit_u32 host _ _ r hout
  · rintro rfl
    obtain ⟨txt, n, hreg, _, hv⟩ :=
      digest_memory_value P host fs junk Txt 7 length skip r seed bytes (by decide) hin
    rw [hv]
    simp only [switchAlgo, Int.reduceEq, ↓reduceIte, hreg]
    exact emit_u64 host _ _ r hout
  · rintro rfl
    obtain ⟨txt, n, hreg, _, hv⟩ :=
      digest_memory_value P host fs junk Txt 8 length skip r seed bytes (by decide) hin
    rw [hv]
    simp only [switchAlgo, Int.reduceEq, ↓reduceIte, hreg]
    exact emit_u32 host _ _ r hout
  · rintro rfl
    obtain ⟨txt, n, hreg, _, hv⟩ :=
      digest_memory_value P host fs junk Txt 12 length skip r seed bytes (by decide) hin
    rw [hv]
    simp only [switchAlgo, Int.reduceEq, ↓reduceIte, hreg]
    exact emit_u64 host _ _ r hout
  · rintro rfl
    obtain ⟨txt, n, hv⟩ :=
      digest_file_value P host fs junk Txt 106 length skip r seed bytes (by decide) hin
    rw [hv]
    simp only [switchAlgo, Int.reduceEq, ↓reduceIte, withFile, emit_bind, hrun,
      emit_u32 host _ _ r hout]
    cases checkedReset (P.xxh32.reset seed) with
    | error e => rfl
    | ok s => rfl
  · rintro rfl
    obtain ⟨txt, n, hv⟩ :=
      digest_file_value P host fs junk Txt 107 length skip r seed bytes (by decide) hin
    rw [hv]
    simp only [switchAlgo, Int.reduceEq, ↓reduceIte, withFile, emit_bind, hrun,
      emit_u64 host _ _ r hout]
    cases checkedReset (P.xxh64.reset seed) with
    | error e => rfl
    | ok s => rfl
  · rintro rfl
    obtain ⟨txt, n, hv⟩ :=
      digest_file_value P host fs junk Txt 108 length skip r seed bytes (by decide) hin
    rw [hv]
    simp only [switchAlgo, Int.reduceEq, ↓reduceIte, withFile, emit_bind, hrun, murmur_fold,
      Except.bind, emit_u32 host _ _ r hout, murmur_total,
      chunksRead_window BUF_SIZE (by decide) bytes skip length]

/-- C14 on the bytes `1 2 3`: CRC32 is the same for the seeds 0 and 5; xxHash32
with seed 1 is the rendering of `XXH32` called with seed 1. -/
theorem seed_reaches_seeded_algorithms_only_witness :
    (digest samplePrims ⟨false⟩ (oneFile []) (fun _ => 0) (.raw [1, 2, 3]) 3 (-1) 0 0 0).value
      = (digest samplePrims ⟨false⟩ (oneFile []) (fun _ => 0) (.raw [1, 2, 3]) 3 (-1) 0 0
          5).value ∧
    (digest samplePrims ⟨false⟩ (oneFile []) (fun _ => 0) (.raw [1, 2, 3]) 6 (-1) 0 0 1).value
      = .ok (.str (ascii "00007c42")) :=
  ⟨congrArg Outcome.value
      ((seed_reaches_seeded_algorithms_only samplePrims ⟨false⟩ (oneFile []) (fun _ => 0)
        (.raw [1, 2, 3]) 3 (-1) 0 0 0).1 (by decide) 5),
   (((seed_reaches_seeded_algorithms_only samplePrims ⟨false⟩ (oneFile []) (fun _ => 0)
        (.raw [1, 2, 3]) 6 (-1) 0 0 1).2 [1, 2, 3] (by decide)).1 rfl).trans (by decide)⟩

/-- C15: for XXH3-64 and XXH3-128 the seed reaches the primitive in the
in-memory path only.  Codes 12 and 13 return the rendering of
`XXH3_64bits_withSeed` / `XXH3_128bits_withSeed` called on the window of the
input with the argument `seed`; for the codes 112 and 113, whose state is
reset without a seed, the result of `digest` is the same for any two
seeds. -/
theorem xxh3_seed_in_memory_only (P : Prims) (host : Host) (fs : FileSystem)
    (junk : Nat → Nat) (Txt : SEXP) (length skip r seed : Int) :
    (∀ bytes, inputBytes fs Txt 12 = some bytes →
      (digest P host fs junk Txt 12 length skip r seed).value
        = .ok (render (bigEndianBytes 8
            (P.XXH3_64bits_withSeed (windowed bytes skip length) seed % 2 ^ 64)) r)) ∧
    (∀ bytes, inputBytes fs Txt 13 = some bytes →
      (digest P host fs junk Txt 13 length skip r seed).value
        = .ok (render (XXH128_canonicalFromHash
            ((P.XXH3_128bits_withSeed (windowed bytes skip length) seed).1 % 2 ^ 64,
             (P.XXH3_128bits_withSeed (windowed bytes skip length) seed).2 % 2 ^ 64)) r)) ∧
    (∀ seed2, digest P host fs junk Txt 112 length skip r seed
      = digest P host fs junk Txt 112 length skip r seed2) ∧
    (∀ seed2, digest P host fs junk Txt 113 length skip r seed
      = digest P host fs junk Txt 113 length skip r seed2) := by
  have hout := junk_length junk
  refine ⟨?_, ?_, ?_, ?_⟩
  · intro bytes hin
    obtain ⟨txt, n, hreg, _, hv⟩ :=
      digest_memory_value P host fs junk Txt 12 length skip r seed bytes (by decide) hin
    rw [hv]
    simp only [switchAlgo, Int.reduceEq, ↓reduceIte, hreg]
    exact emit_u64 host _ _ r hout
  · intro bytes hin
    obtain ⟨txt, n, hreg, _, hv⟩ :=
      digest_memory_value P host fs junk Txt 13 length skip r seed bytes (by decide) hin
    rw [hv]
    simp only [switchAlgo, Int.reduceEq, ↓reduceIte, hreg]
    exact emit_u128 _ _ _ r hout
  · exact fun seed2 => digest_ignores_seed P host fs junk Txt 112 length skip r seed seed2
      (Or.inr (Or.inl rfl))
  · exact fun seed2 => digest_ignores_seed P host fs junk Txt 113 length skip r seed seed2
      (Or.inr (Or.inr rfl))

/-- C15 on the bytes `1 2 3`: code 12 depends on the seed, code 112 on the file
holding the same bytes does not. -/
theorem xxh3_seed_in_memory_only_witness :
    (digest samplePrims ⟨false⟩ (oneFile [1, 2, 3]) (fun _ => 0) (.raw [1, 2, 3]) 12 (-1) 0 0
        1).value = .ok (.str (ascii "0000000000007c42")) ∧
    (digest samplePrims ⟨false⟩ (oneFile [1, 2, 3]) (fun _ => 0) (.raw [1, 2, 3]) 12 (-1) 0 0
        0).value = .ok (.str (ascii "00000000000007e3")) ∧
    (digest samplePrims ⟨false⟩ (oneFile [1, 2, 3]) (fun _ => 0) (.str [102]) 112 (-1) 0 0
        1).value
      = (digest samplePrims ⟨false⟩ (oneFile [1, 2, 3]) (fun _ => 0) (.str [102]) 112 (-1) 0 0
        0).value :=
  ⟨((xxh3_seed_in_memory_only samplePrims ⟨false⟩ (oneFile [1, 2, 3]) (fun _ => 0)
        (.raw [1, 2, 3]) (-1) 0 0 1).1 [1, 2, 3] (by decide)).trans (by decide),
   by decide,
   congrArg Outcome.value
     ((xxh3_seed_in_memory_only samplePrims ⟨false⟩ (oneFile [1, 2, 3]) (fun _ => 0)
        (.str [102]) (-1) 0 0 1).2.2.1 0)⟩

/-! ## `vdigest`: claims C16, C17 -/

theorem except_map_map {α β γ : Type} (x : Except DigestError α) (f : α → β) (g : β → γ) :
    (x.map f).map g = x.map (g ∘ f) := by
  cases x <;> rfl

/-- The loops of `vdigest` fill `ans` from the index `i` on with the strings of
the digests of the elements, and stop at the first call that fails. -/
theorem vdigestLoop_eq (call : SEXP → Except DigestError SEXP) (elts : List SEXP) :
    ∀ done : List (List Nat),
      vdigestLoop call elts done.length (done ++ List.replicate elts.length [])
        = (collect (fun x => (call x).bind STRING_ELT) elts).map fun strs => done ++ strs := by
  induction elts with
  | nil => intro done; simp [vdigestLoop, collect, Except.map]
  | cons x rest ih =>
    intro done
    simp only [vdigestLoop, collect, List.length_cons, List.replicate_succ]
    generalize collect (fun x => (call x).bind STRING_ELT) rest = C at ih ⊢
    cases hc : call x with
    | error e => rfl
    | ok d =>
      simp only [Except.bind]
      cases hs : STRING_ELT d with
      | error e => rfl
      | ok s =>
        have hset : SET_STRING_ELT (done ++ [] :: List.replicate rest.length []) done.length s
            = .ok ((done ++ [s]) ++ List.replicate rest.length []) := by
          simp [SET_STRING_ELT]
        have hlen : done.length + 1 = (done ++ [s]).length := by simp
        simp only [hset]
        rw [hlen, ih (done ++ [s])]
        cases C with
        | error e => rfl
        | ok strs => simp [Except.map]

/-- On a collection with an element `vdigest` returns the character vector of
the strings of the digests of its elements, in order, or raises the error of
the first call that fails. -/
theorem vdigest_collection (P : Prims) (host : Host) (fs : FileSystem) (junk : Nat → Nat)
    (Txt : VSEXP) (algo length skip r seed : Int) (hne : Txt.elements ≠ []) :
    vdigest P host fs junk Txt algo length skip r seed
      = (collect (fun x =>
          ((digest P host fs junk x algo length skip r seed).value).bind STRING_ELT)
          Txt.elements).map VSEXP.character := by
  cases Txt with
  | raw b => exact absurd rfl hne
  | list elts =>
    have hn : elts.length ≠ 0 := fun h => hne (List.length_eq_zero.mp h)
    simp only [vdigest, Rf_length, hn, if_false, VSEXP.elements]
    have := vdigestLoop_eq
      (fun x => (digest P host fs junk x algo length skip r seed).value) elts []
    simp only [List.length_nil, List.nil_append] at this
    rw [this, except_map_map]
    rfl
  | character strings =>
    have hn : strings.length ≠ 0 := by
      intro h
      apply hne
      simp [VSEXP.elements, List.length_eq_zero.mp h]
    simp only [vdigest, Rf_length, hn, if_false, VSEXP.elements]
    have := vdigestLoop_eq
      (fun x => (digest P host fs junk x algo length skip r seed).value)
      (strings.map SEXP.str) []
    simp only [List.length_nil, List.nil_append, List.length_map] at this
    rw [this, except_map_map]
    rfl

theorem collect_ok_iff (step : SEXP → Except DigestError (List Nat)) (elts : List SEXP) :
    ∀ strs : List (List Nat),
      collect step elts = .ok strs ↔ elts.map step = strs.map Except.ok := by
  induction elts with
  | nil =>
    intro strs
    cases strs <;> simp [collect]
  | cons x rest ih =>
    intro strs
    simp only [collect]
    cases hx : step x with
    | error e =>
      cases strs <;> simp [hx]
    | ok s =>
      cases hrest : collect step rest with
      | error e =>
        cases strs with
        | nil => simp
        | cons t strs =>
          have := (ih strs).not.mp (by rw [hrest]; simp)
          simp [hx, this]
      | ok ss =>
        have h1 := (ih ss).mp hrest
        cases strs with
        | nil => simp
        | cons t strs =>
          simp only [Except.ok.injEq, List.cons.injEq, List.map_cons, hx]
          constructor
          · rintro ⟨rfl, rfl⟩
            exact ⟨rfl, h1⟩
          · rintro ⟨rfl, h2⟩
            refine ⟨rfl, ?_⟩
            have := (ih strs).mpr h2
            rw [hrest] at this
            cases this
            rfl

theorem collect_first_error (step : SEXP → Except DigestError (List Nat))
    (pre : List SEXP) (x : SEXP) (post : List SEXP) (e : DigestError)
    (hpre : ∀ y ∈ pre, IsOk (step y)) (hx : step x = .error e) :
    collect step (pre ++ x :: post) = .error e := by
  induction pre with
  | nil => simp [collect, hx]
  | cons y pre ih =>
    obtain ⟨s, hs⟩ := hpre y (List.mem_cons_self _ _)
    have := ih (fun z hz => hpre z (List.mem_cons_of_mem _ hz))
    simp only [List.cons_append, collect, hs]
    rw [show pre.append (x :: post) = pre ++ x :: post from rfl, this]

theorem collect_isOk_iff (step : SEXP → Except DigestError (List Nat)) (elts : List SEXP) :
    IsOk (collect step elts) ↔ ∀ x ∈ elts, IsOk (step x) := by
  induction elts with
  | nil => simp [IsOk, collect]
  | cons x rest ih =>
    simp only [collect, List.mem_cons, forall_eq_or_imp]
    cases hx : step x with
    | error e =>
      constructor
      · rintro ⟨v, hv⟩; cases hv
      · rintro ⟨⟨v, hv⟩, _⟩; cases hv
    | ok s =>
      cases hrest : collect step rest with
      | error e =>
        have h1 : ¬ ∀ y ∈ rest, IsOk (step y) := by
          rw [← ih, hrest]
          rintro ⟨v, hv⟩
          cases hv
        constructor
        · rintro ⟨v, hv⟩; cases hv
        · rintro ⟨_, h2⟩; exact absurd h2 h1
      | ok ss =>
        have h1 : ∀ y ∈ rest, IsOk (step y) := by
          rw [← ih, hrest]
          exact ⟨ss, rfl⟩
        exact ⟨fun _ => ⟨⟨s, rfl⟩, h1⟩, fun _ => ⟨_, rfl⟩⟩

/-- In hex mode `digest` returns a string. -/
theorem digest_hex_str (P : Prims) (host : Host) (fs : FileSystem) (junk : Nat → Nat)
    (x : SEXP) (algo length skip seed : Int) (res : SEXP)
    (h : (digest P host fs junk x algo length skip 0 seed).value = .ok res) :
    ∃ s, res = .str s := by
  rw [digest, digestWith_value] at h
  cases hopen : openInput fs x algo with
  | error e => rw [hopen] at h; cases h
  | ok i =>
    rw [hopen] at h
    simp only at h
    generalize switchAlgo P host BUF_SIZE algo _ _ _ length skip seed 0 _ = sw at h
    cases sw with
    | error e => cases h
    | ok v =>
      obtain ⟨output, L⟩ := v
      simp only [emit, makeResult, ne_eq, not_true_eq_false, if_false] at h
      cases hm : mkChar output with
      | none => rw [hm] at h; cases h
      | some chars =>
        rw [hm] at h
        cases h
        exact ⟨chars, rfl⟩

/-- In hex mode the call `STRING_ELT(d, 0)` of `vdigest` yields the string
`digest` returned, and fails with the error of `digest` only. -/
theorem hex_step (P : Prims) (host : Host) (fs : FileSystem) (junk : Nat → Nat)
    (x : SEXP) (algo length skip seed : Int) :
    (∀ s, ((digest P host fs junk x algo length skip 0 seed).value).bind STRING_ELT = .ok s ↔
      (digest P host fs junk x algo length skip 0 seed).value = .ok (.str s)) ∧
    (∀ e, ((digest P host fs junk x algo length skip 0 seed).value).bind STRING_ELT = .error e ↔
      (digest P host fs junk x algo length skip 0 seed).value = .error e) ∧
    (IsOk (((digest P host fs junk x algo length skip 0 seed).value).bind STRING_ELT) ↔
      IsOk (digest P host fs junk x algo length skip 0 seed).value) := by
  cases hv : (digest P host fs junk x algo length skip 0 seed).value with
  | error e =>
    refine ⟨fun s => ?_, fun e1 => ?_, ?_⟩
    · simp [Except.bind]
    · simp [Except.bind]
    · simp [Except.bind, IsOk]
  | ok res =>
    obtain ⟨s, rfl⟩ := digest_hex_str P host fs junk x algo length skip seed res hv
    refine ⟨fun s1 => ?_, fun e1 => ?_, ?_⟩
    · simp [Except.bind, STRING_ELT]
    · simp [Except.bind, STRING_ELT]
    · simp [Except.bind, STRING_ELT, IsOk]

/-- For a supported in-memory code `digest` does not fail. -/
theorem digest_memory_isOk (P : Prims) (host : Host) (fs : FileSystem) (junk : Nat → Nat)
    (x : SEXP) (algo length skip r seed : Int) (halgo : algo ∈ supportedCodes)
    (hmem : algo < 100) :
    IsOk (digest P host fs junk x algo length skip r seed).value := by
  have hin : ∃ bytes, inputBytes fs x algo = some bytes := by
    cases x <;> simp [inputBytes, hmem]
  obtain ⟨bytes, hin⟩ := hin
  obtain ⟨txt, n, _, _, hv⟩ :=
    digest_memory_value P host fs junk x algo length skip r seed bytes hmem hin
  rw [hv]
  refine emit_switch_isOk P host BUF_SIZE algo _ _ none length skip seed r _ (junk_length junk)
    halgo (fun hge => absurd hge (by omega)) (fun hx => ?_) (Or.inr (fun f hf => by cases hf))
  simp only [xxhStreamCodes, List.mem_cons, List.mem_singleton, List.not_mem_nil,
    or_false] at hx
  omega

theorem collect_error (step : SEXP → Except DigestError (List Nat)) (elts : List SEXP)
    (e : DigestError) (h : collect step elts = .error e) : ∃ x ∈ elts, step x = .error e := by
  induction elts with
  | nil => simp [collect] at h
  | cons x rest ih =>
    simp only [collect] at h
    cases hx : step x with
    | error e1 =>
      rw [hx] at h
      cases h
      exact ⟨x, List.mem_cons_self _ _, hx⟩
    | ok s =>
      rw [hx] at h
      cases hrest : collect step rest with
      | error e1 =>
        rw [hrest] at h
        cases h
        obtain ⟨y, hy, hye⟩ := ih hrest
        exact ⟨y, List.mem_cons_of_mem _ hy, hye⟩
      | ok strs => rw [hrest] at h; cases h

theorem map_eq_map_iff {α β γ δ : Type} (f : α → γ) (g : α → δ) (u : β → γ) (v : β → δ)
    (h : ∀ a b, f a = u b ↔ g a = v b) :
    ∀ (l : List α) (m : List β), l.map f = m.map u ↔ l.map g = m.map v := by
  intro l
  induction l with
  | nil => intro m; cases m <;> simp
  | cons a l ih =>
    intro m
    cases m with
    | nil => simp
    | cons b m => simp only [List.map_cons, List.cons.injEq, h a b, ih m]

/-- C16: on a non-empty collection, a list or a character vector of `n`
inputs, `vdigest` in hex mode returns a character vector of exactly `n`
strings, the string at each position being the string `digest` returns in hex
mode for the input at this position, with the same algorithm, length, skip and
seed: whenever `vdigest` returns, its value is this vector, and it returns it
whenever `digest` returns a string for every element, which it does for every
supported in-memory code. -/
theorem vdigest_elementwise (P : Prims) (host : Host) (fs : FileSystem) (junk : Nat → Nat)
    (Txt : VSEXP) (algo length skip seed : Int) (hne : Txt.elements ≠ []) :
    (∀ v, vdigest P host fs junk Txt algo length skip 0 seed = .ok v →
      ∃ strs, v = .character strs ∧ strs.length = Txt.elements.length ∧
        Txt.elements.map (fun x => (digest P host fs junk x algo length skip 0 seed).value)
          = strs.map fun s => .ok (.str s)) ∧
    (∀ strs,
      Txt.elements.map (fun x => (digest P host fs junk x algo length skip 0 seed).value)
          = strs.map (fun s => .ok (.str s)) →
      vdigest P host fs junk Txt algo length skip 0 seed = .ok (.character strs)) ∧
    (algo ∈ supportedCodes → algo < 100 →
      ∃ strs, vdigest P host fs junk Txt algo length skip 0 seed = .ok (.character strs) ∧
        strs.length = Txt.elements.length) := by
  have hv := vdigest_collection P host fs junk Txt algo length skip 0 seed hne
  have hiff := fun strs => (collect_ok_iff (fun x =>
      ((digest P host fs junk x algo length skip 0 seed).value).bind STRING_ELT)
      Txt.elements strs).trans
    (map_eq_map_iff _ (fun x => (digest P host fs junk x algo length skip 0 seed).value)
      Except.ok (fun s => .ok (.str s))
      (fun a b => (hex_step P host fs junk a algo length skip seed).1 b) Txt.elements strs)
  have hback : ∀ strs,
      Txt.elements.map (fun x => (digest P host fs junk x algo length skip 0 seed).value)
          = strs.map (fun s => .ok (.str s)) →
      vdigest P host fs junk Txt algo length skip 0 seed = .ok (.character strs) := by
    intro strs h
    rw [hv, (hiff strs).mpr h]
    rfl
  have hforth : ∀ v, vdigest P host fs junk Txt algo length skip 0 seed = .ok v →
      ∃ strs, v = .character strs ∧ strs.length = Txt.elements.length ∧
        Txt.elements.map (fun x => (digest P host fs junk x algo length skip 0 seed).value)
          = strs.map fun s => .ok (.str s) := by
    intro v h
    rw [hv] at h
    cases hc : collect (fun x =>
        ((digest P host fs junk x algo length skip 0 seed).value).bind STRING_ELT)
        Txt.elements with
    | error e => rw [hc] at h; cases h
    | ok strs =>
      rw [hc] at h
      cases h
      have hmap := (hiff strs).mp hc
      have hlen := congrArg List.length hmap
      simp only [List.length_map] at hlen
      exact ⟨strs, rfl, hlen.symm, hmap⟩
  refine ⟨hforth, hback, ?_⟩
  intro halgo hmem
  have hok : IsOk (collect (fun x =>
      ((digest P host fs junk x algo length skip 0 seed).value).bind STRING_ELT)
      Txt.elements) := by
    rw [collect_isOk_iff]
    intro x _
    rw [(hex_step P host fs junk x algo length skip seed).2.2]
    exact digest_memory_isOk P host fs junk x algo length skip 0 seed halgo hmem
  obtain ⟨strs, hstrs⟩ := hok
  have hval : vdigest P host fs junk Txt algo length skip 0 seed = .ok (.character strs) := by
    rw [hv, hstrs]
    rfl
  obtain ⟨strs1, h1, hlen, _⟩ := hforth _ hval
  cases h1
  exact ⟨strs, hval, hlen⟩

/-- C16 on the character vector `a`, `b`, `c` with code 1 and the sample
hash in the place of MD5: three strings, the digests of `a`, `b`, `c` in this
order. -/
theorem vdigest_elementwise_witness :
    vdigest samplePrims ⟨false⟩ (oneFile []) (fun _ => 0)
        (.character [ascii "a", ascii "b", ascii "c"]) 1 (-1) 0 0 0
      = .ok (.character [ascii "3b0202030405060708090a0b0c0d0e0f",
          ascii "3c0202030405060708090a0b0c0d0e0f", ascii "3d0202030405060708090a0b0c0d0e0f"]) ∧
    (digest samplePrims ⟨false⟩ (oneFile []) (fun _ => 0) (.str (ascii "b")) 1 (-1) 0 0
        0).value = .ok (.str (ascii "3c0202030405060708090a0b0c0d0e0f")) :=
  ⟨(vdigest_elementwise samplePrims ⟨false⟩ (oneFile []) (fun _ => 0)
      (.character [ascii "a", ascii "b", ascii "c"]) 1 (-1) 0 0 (by decide)).2.1 _ (by decide),
   by decide⟩

/-- C17 fails as stated on two inputs.  In raw mode `digest` succeeds on the
only element of the list, a raw vector, and `vdigest` fails: the raw vector
returned is not a character vector, so `STRING_ELT` raises an error.  On the
empty character vector there is no element for `digest` to fail on, and
`vdigest` fails in file mode: it hands the empty vector itself to `digest`,
which finds no file to open. -/
theorem vdigest_fails_though_no_element_fails :
    (digest samplePrims ⟨false⟩ (oneFile []) (fun _ => 0) (.raw [1, 2, 3]) 1 (-1) 0 1 0).value
      = .ok (.raw [124, 55, 5, 3, 4, 5, 6, 7, 8, 9, 10, 11, 12, 13, 14, 15]) ∧
    vdigest samplePrims ⟨false⟩ (oneFile []) (fun _ => 0) (.list [.raw [1, 2, 3]]) 1 (-1) 0 1 0
      = .error .notCharacterVector ∧
    (VSEXP.character []).elements = [] ∧
    vdigest samplePrims ⟨false⟩ (fun _ => none) (fun _ => 0) (.character []) 101 (-1) 0 0 0
      = .error .cannotOpenInputFile := by
  decide

/-- C17, amended: on a non-empty collection in hex mode, `vdigest` returns a
value if and only if `digest` returns one for every element; when `digest`
fails on an element and succeeds on those before it, `vdigest` fails with this
error and returns no collection; every error of `vdigest` is the error of
`digest` on one of the elements. -/
theorem vdigest_all_or_nothing (P : Prims) (host : Host) (fs : FileSystem) (junk : Nat → Nat)
    (Txt : VSEXP) (algo length skip seed : Int) (hne : Txt.elements ≠ []) :
    ((∃ v, vdigest P host fs junk Txt algo length skip 0 seed = .ok v) ↔
      ∀ x ∈ Txt.elements,
        ∃ res, (digest P host fs junk x algo length skip 0 seed).value = .ok res) ∧
    (∀ pre x post e, Txt.elements = pre ++ x :: post →
      (∀ y ∈ pre, ∃ res, (digest P host fs junk y algo length skip 0 seed).value = .ok res) →
      (digest P host fs junk x algo length skip 0 seed).value = .error e →
      vdigest P host fs junk Txt algo length skip 0 seed = .error e) ∧
    (∀ e, vdigest P host fs junk Txt algo length skip 0 seed = .error e →
      ∃ x ∈ Txt.elements, (digest P host fs junk x algo length skip 0 seed).value = .error e) := by
  have hv := vdigest_collection P host fs junk Txt algo length skip 0 seed hne
  refine ⟨?_, ?_, ?_⟩
  · have hiff := collect_isOk_iff (fun x =>
      ((digest P host fs junk x algo length skip 0 seed).value).bind STRING_ELT) Txt.elements
    constructor
    · rintro ⟨v, hval⟩ x hx
      rw [hv] at hval
      have hok : IsOk (collect (fun x =>
          ((digest P host fs junk x algo length skip 0 seed).value).bind STRING_ELT)
          Txt.elements) := by
        cases hc : collect (fun x =>
            ((digest P host fs junk x algo length skip 0 seed).value).bind STRING_ELT)
            Txt.elements with
        | error e => rw [hc] at hval; cases hval
        | ok strs => exact ⟨strs, rfl⟩
      exact (hex_step P host fs junk x algo length skip seed).2.2.mp (hiff.mp hok x hx)
    · intro hall
      obtain ⟨strs, hstrs⟩ := hiff.mpr
        (fun x hx => (hex_step P host fs junk x algo length skip seed).2.2.mpr (hall x hx))
      exact ⟨.character strs, by rw [hv, hstrs]; rfl⟩
  · intro pre x post e hsplit hpre hx
    rw [hv, hsplit, collect_first_error _ pre x post e
      (fun y hy => (hex_step P host fs junk y algo length skip seed).2.2.mpr (hpre y hy))
      (((hex_step P host fs junk x algo length skip seed).2.1 e).mpr hx)]
    rfl
  · intro e herr
    rw [hv] at herr
    cases hc : collect (fun x =>
        ((digest P host fs junk x algo length skip 0 seed).value).bind STRING_ELT)
        Txt.elements with
    | ok strs => rw [hc] at herr; cases herr
    | error e1 =>
      rw [hc] at herr
      cases herr
      obtain ⟨x, hx, hxe⟩ := collect_error _ _ _ hc
      exact ⟨x, hx, ((hex_step P host fs junk x algo length skip seed).2.1 _).mp hxe⟩

/-- C17 on the files `f` (there) and `g` (missing), MD5 file case: `digest`
fails on `g` and `vdigest` fails with the same error. -/
theorem vdigest_all_or_nothing_witness :
    (digest samplePrims ⟨false⟩ (oneFile [1, 2]) (fun _ => 0) (.str [103]) 101 (-1) 0 0
        0).value = .error .cannotOpenInputFile ∧
    vdigest samplePrims ⟨false⟩ (oneFile [1, 2]) (fun _ => 0) (.character [[102], [103]]) 101
        (-1) 0 0 0 = .error .cannotOpenInputFile :=
  ⟨by decide,
   (vdigest_all_or_nothing samplePrims ⟨false⟩ (oneFile [1, 2]) (fun _ => 0)
      (.character [[102], [103]]) 101 (-1) 0 0 (by decide)).2.1 [.str [102]] (.str [103]) []
      .cannotOpenInputFile rfl
      (fun y hy => ⟨.str (ascii "881b02030405060708090a0b0c0d0e0f"), by
        rw [List.mem_singleton.mp hy]
        decide⟩)
      (by decide)⟩

/-! ## Chunk boundaries and termination: claims C18, C19 -/

theorem bind_ok_self {σ : Type} (x : Except DigestError σ) : x.bind Except.ok = x := by
  cases x <;> rfl

/-- With an update call that splits, feeding non-empty chunks one after the
other is feeding their concatenation once, and feeding nothing when there is
no chunk. -/
theorem foldlM_splits {σ : Type} (upd : σ → List Nat → Except DigestError σ)
    (hupd : Splits upd) (chunks : List (List Nat)) (hne : ∀ c ∈ chunks, c ≠ []) :
    ∀ st, chunks.foldlM upd st
      = if chunks.flatten = [] then .ok st else upd st chunks.flatten := by
  induction chunks with
  | nil => intro st; simp [pure, Except.pure]
  | cons c rest ih =>
    intro st
    have hc : c ≠ [] := hne c (List.mem_cons_self _ _)
    have ih1 := ih (fun x hx => hne x (List.mem_cons_of_mem _ hx))
    rw [List.foldlM_cons]
    have hflat : (c :: rest).flatten ≠ [] := by simp [hc]
    rw [if_neg hflat, List.flatten_cons]
    simp only [bind]
    by_cases hr : rest.flatten = []
    · have : (fun s => List.foldlM upd s rest) = Except.ok := by
        funext s
        rw [ih1 s, if_pos hr]
      rw [this, bind_ok_self, hr, List.append_nil]
    · have : (fun s => List.foldlM upd s rest) = fun s => upd s rest.flatten := by
        funext s
        rw [ih1 s, if_neg hr]
      rw [this]
      exact hupd st c rest.flatten

/-- The result of the loops of a file case with an update call that splits: it
depends on the bytes of the window only. -/
theorem readStream_splits {σ : Type} (upd : σ → List Nat → Except DigestError σ)
    (hupd : Splits upd) (bs : Nat) (fp : FILE) (length : Int)
    (hbs : 0 < bs ∨ fp.content.length ≤ fp.pos) (st : σ) :
    readStream upd bs fp length st
      = if (if length ≥ 0 then (fp.content.drop fp.pos).take length.toNat
            else fp.content.drop fp.pos) = [] then .ok st
        else upd st (if length ≥ 0 then (fp.content.drop fp.pos).take length.toNat
          else fp.content.drop fp.pos) := by
  rcases hbs with hbs | hend
  · obtain ⟨hflat, _, hne, hrun⟩ := chunksRead_spec bs hbs fp length
    rw [hrun, foldlM_splits upd hupd _ hne, hflat]
  · rw [readStream_nothing upd bs fp length st (Or.inl hend)]
    have hdrop : fp.content.drop fp.pos = [] := List.drop_eq_nil_of_le hend
    simp [hdrop]

theorem readStream_bufSize {σ : Type} (upd : σ → List Nat → Except DigestError σ)
    (hupd : Splits upd) (bs1 bs2 : Nat) (fp : FILE) (length : Int)
    (h1 : 0 < bs1 ∨ fp.content.length ≤ fp.pos) (h2 : 0 < bs2 ∨ fp.content.length ≤ fp.pos)
    (st : σ) :
    readStream upd bs1 fp length st = readStream upd bs2 fp length st := by
  rw [readStream_splits upd hupd bs1 fp length h1, readStream_splits upd hupd bs2 fp length h2]

theorem splits_total {σ : Type} (u : σ → List Nat → σ)
    (h : ∀ s a b, u (u s a) b = u s (a ++ b)) : Splits (total u) := by
  intro s a b
  simp only [total, Except.bind, h]

theorem splits_checked {σ : Type} (u : σ → List Nat → Option σ)
    (h : ∀ s a b, (u s a).bind (fun s1 => u s1 b) = u s (a ++ b)) : Splits (checked u) := by
  intro s a b
  have := h s a b
  simp only [checked]
  cases hu : u s a with
  | none =>
    rw [hu] at this
    simp only [Option.bind] at this
    simp only [Except.bind, ← this]
  | some s1 =>
    rw [hu] at this
    simp only [Option.bind] at this
    simp only [Except.bind, ← this]

theorem splits_murmur (P : Prims) (h : P.ChunkIndependent) :
    Splits (total fun (st : (Nat × Nat) × Nat) buf =>
      (P.PMurHash32_Process st.1 buf, (st.2 + buf.length) % 2 ^ 64)) := by
  apply splits_total
  intro s a b
  simp only [h.murmur, List.length_append, Prod.mk.injEq, true_and]
  omega

theorem splits_crc32 (P : Prims) (h : P.ChunkIndependent) :
    Splits (total fun val buf => P.digest_crc32 val (some buf)) :=
  splits_total (fun val buf => P.digest_crc32 val (some buf)) h.crc32

theorem splits_crc32c (P : Prims) (h : P.ChunkIndependent) :
    Splits (total fun crc buf => P.crc32c_extend crc buf % 2 ^ 32) :=
  splits_total (fun crc buf => P.crc32c_extend crc buf % 2 ^ 32) h.crc32c

theorem seekSkip_content (f : FILE) (skip : Int) : (seekSkip f skip).content = f.content := by
  unfold seekSkip
  split <;> rfl

/-- The `switch` does not depend on the size of the read buffer when the update
calls split. -/
theorem switch_bufSize (P : Prims) (hP : P.ChunkIndependent) (host : Host) (bs1 bs2 : Nat)
    (algo : Int) (txt : List Nat) (nChar : Int) (fp : Option FILE)
    (length skip seed r : Int) (output : List Nat)
    (hbs : ∀ f, fp = some f → (0 < bs1 ∨ f.content = []) ∧ (0 < bs2 ∨ f.content = [])) :
    switchAlgo P host bs1 algo txt nChar fp length skip seed r output
      = switchAlgo P host bs2 algo txt nChar fp length skip seed r output := by
  by_cases h : algo ∈ supportedCodes
  swap
  · rw [switch_unsupported _ _ _ _ _ _ _ _ _ _ _ _ h, switch_unsupported _ _ _ _ _ _ _ _ _ _ _ _ h]
  cases fp with
  | none =>
    simp only [supportedCodes, List.mem_cons, List.mem_singleton, List.not_mem_nil,
      or_false] at h
    rcases h with rfl | rfl | rfl | rfl | rfl | rfl | rfl | rfl | rfl | rfl | rfl | rfl |
      rfl | rfl | rfl | rfl | rfl | rfl | rfl | rfl | rfl | rfl | rfl | rfl
    all_goals simp only [switchAlgo, Int.reduceEq, ↓reduceIte, withFile]
  | some f =>
    have hb := hbs f rfl
    have hend : ∀ bs, (0 < bs ∨ f.content = []) →
        (0 < bs ∨ (seekSkip f skip).content.length ≤ (seekSkip f skip).pos) := by
      intro bs hb1
      rcases hb1 with hb1 | hb1
      · exact Or.inl hb1
      · right
        rw [seekSkip_content, hb1]
        exact Nat.zero_le _
    have h1 := hend bs1 hb.1
    have h2 := hend bs2 hb.2
    have key : ∀ (σ : Type) (upd : σ → List Nat → Except DigestError σ), Splits upd → ∀ st,
        readStream upd bs1 (seekSkip f skip) length st
          = readStream upd bs2 (seekSkip f skip) length st :=
      fun σ upd hu st => readStream_bufSize upd hu bs1 bs2 _ length h1 h2 st
    simp only [supportedCodes, List.mem_cons, List.mem_singleton, List.not_mem_nil,
      or_false] at h
    rcases h with rfl | rfl | rfl | rfl | rfl | rfl | rfl | rfl | rfl | rfl | rfl | rfl |
      rfl | rfl | rfl | rfl | rfl | rfl | rfl | rfl | rfl | rfl | rfl | rfl
    all_goals simp only [switchAlgo, Int.reduceEq, ↓reduceIte, withFile,
      key _ _ (splits_total _ hP.md5), key _ _ (splits_total _ hP.sha1),
      key _ _ (splits_total _ hP.sha256), key _ _ (splits_total _ hP.sha512),
      key _ _ (splits_total _ hP.blake3), key _ _ (splits_crc32 P hP),
      key _ _ (splits_crc32c P hP), key _ _ (splits_checked _ hP.xxh32),
      key _ _ (splits_checked _ hP.xxh64), key _ _ (splits_murmur P hP),
      key _ _ (splits_checked _ hP.xxh3_64), key _ _ (splits_checked _ hP.xxh3_128)]

theorem mix_mod (b : List Nat) : ∀ x y : Nat, x % 2 ^ 32 = y % 2 ^ 32 →
    mix x b % 2 ^ 32 = mix y b % 2 ^ 32 := by
  induction b with
  | nil => intro x y h; simpa [mix] using h
  | cons c b ih =>
    intro x y h
    simp only [mix, List.foldl_cons] at ih ⊢
    apply ih
    omega

/-- The sample primitives are independent of the chunking. -/
theorem samplePrims_chunkIndependent : samplePrims.ChunkIndependent where
  md5 := fun s a b => mix_append s a b
  sha1 := fun s a b => mix_append s a b
  sha256 := fun s a b => mix_append s a b
  sha512 := fun s a b => mix_append s a b
  blake3 := fun s a b => mix_append s a b
  crc32 := fun v a b => mix_append v a b
  crc32c := by
    intro c a b
    show mix (mix c a % 2 ^ 32) b % 2 ^ 32 = mix c (a ++ b) % 2 ^ 32
    rw [← mix_append]
    exact mix_mod b _ _ (Nat.mod_mod _ _)
  xxh32 := by
    intro s a b
    show (some (mix s a)).bind (fun s1 => some (mix s1 b)) = some (mix s (a ++ b))
    simp [mix_append]
  xxh64 := by
    intro s a b
    show (some (mix s a)).bind (fun s1 => some (mix s1 b)) = some (mix s (a ++ b))
    simp [mix_append]
  murmur := by
    intro s a b
    show (mix (mix s.1 a) b, s.2) = (mix s.1 (a ++ b), s.2)
    rw [mix_append]
  xxh3_64 := by
    intro s a b
    show (some (mix s a)).bind (fun s1 => some (mix s1 b)) = some (mix s (a ++ b))
    simp [mix_append]
  xxh3_128 := by
    intro s a b
    show (some (mix s.1 a, mix s.2 a)).bind (fun s1 => some (mix s1.1 b, mix s1.2 b))
      = some (mix s.1 (a ++ b), mix s.2 (a ++ b))
    simp [mix_append]

/-- The value and the effects of `digest` do not depend on the size of the read
buffer when the update calls split. -/
theorem digestWith_bufSize (P : Prims) (hP : P.ChunkIndependent) (host : Host)
    (fs : FileSystem) (junk : Nat → Nat) (Txt : SEXP) (algo length skip r seed : Int)
    (bs1 bs2 : Nat)
    (hbs : ∀ txt n f, openInput fs Txt algo = .ok (txt, n, some f) →
      (0 < bs1 ∨ f.content = []) ∧ (0 < bs2 ∨ f.content = [])) :
    digestWith bs1 P host fs junk Txt algo length skip r seed
      = digestWith bs2 P host fs junk Txt algo length skip r seed := by
  unfold digestWith
  cases hopen : openInput fs Txt algo with
  | error e => rfl
  | ok i =>
    obtain ⟨txt, nChar, fp⟩ := i
    simp only
    rw [switch_bufSize P hP host bs1 bs2 algo _ _ fp length skip seed r _
      (fun f hf => hbs txt nChar f (by rw [hopen, hf]))]

/-- C18: the result of `digest` does not depend on the size of the read buffer
when the update calls of the primitives satisfy
`update(update(s, a), b) = update(s, a ++ b)`: run with a buffer of 1, 7, 1024
bytes or of the length of the whole input (and with any buffer that is not
empty), `digest` returns the same value with the same effects.  For the
read/update loop itself, with any update call that splits: the four buffer
sizes give the same final state, and this state is the one reached by feeding
the window in any other way, cut into any non-empty chunks. -/
theorem chunk_boundary_independence (P : Prims) (hP : P.ChunkIndependent) (host : Host)
    (fs : FileSystem) (junk : Nat → Nat) (Txt : SEXP) (algo length skip r seed : Int) :
    (∀ file, inputBytes fs Txt algo = some file → ∀ bs ∈ [1, 7, 1024, file.length],
      digestWith bs P host fs junk Txt algo length skip r seed
        = digest P host fs junk Txt algo length skip r seed) ∧
    (∀ bs, 0 < bs →
      digestWith bs P host fs junk Txt algo length skip r seed
        = digest P host fs junk Txt algo length skip r seed) ∧
    (∀ (σ : Type) (upd : σ → List Nat → Except DigestError σ), Splits upd →
      ∀ (file : List Nat) (st : σ),
        (∀ bs ∈ [1, 7, 1024, file.length],
          readStream upd bs (seekSkip ⟨file, 0⟩ skip) length st
            = readStream upd BUF_SIZE (seekSkip ⟨file, 0⟩ skip) length st) ∧
        (∀ chunks : List (List Nat), (∀ c ∈ chunks, c ≠ []) →
          chunks.flatten = windowed file skip length →
          chunks.foldlM upd st
            = readStream upd BUF_SIZE (seekSkip ⟨file, 0⟩ skip) length st)) := by
  have hsize : ∀ (file : List Nat) (bs : Nat), bs ∈ [1, 7, 1024, file.length] →
      0 < bs ∨ file = [] := by
    intro file bs hbs
    simp only [List.mem_cons, List.mem_singleton, List.not_mem_nil, or_false] at hbs
    rcases hbs with rfl | rfl | rfl | rfl
    · exact Or.inl (by decide)
    · exact Or.inl (by decide)
    · exact Or.inl (by decide)
    · rcases Nat.eq_zero_or_pos file.length with h | h
      · exact Or.inr (List.length_eq_zero.mp h)
      · exact Or.inl h
  refine ⟨?_, ?_, ?_⟩
  · intro file hin bs hbs
    refine digestWith_bufSize P hP host fs junk Txt algo length skip r seed bs BUF_SIZE ?_
    intro txt n f hopen
    refine ⟨?_, Or.inl (by decide)⟩
    rcases openInput_of_inputBytes fs Txt algo file hin with
      ⟨_, txt1, hopen1⟩ | ⟨_, path, n1, hopen1⟩
    · rw [hopen1] at hopen
      cases hopen
    · rw [hopen1] at hopen
      cases hopen
      exact hsize file bs hbs
  · intro bs hbs
    exact digestWith_bufSize P hP host fs junk Txt algo length skip r seed bs BUF_SIZE
      (fun _ _ _ _ => ⟨Or.inl hbs, Or.inl (by decide)⟩)
  · intro σ upd hupd file st
    have hend : ∀ bs, (0 < bs ∨ file = []) →
        (0 < bs ∨ (seekSkip ⟨file, 0⟩ skip).content.length ≤ (seekSkip ⟨file, 0⟩ skip).pos) := by
      intro bs hb
      rcases hb with hb | hb
      · exact Or.inl hb
      · right
        rw [seekSkip_content, hb]
        exact Nat.zero_le _
    refine ⟨?_, ?_⟩
    · intro bs hbs
      exact readStream_bufSize upd hupd bs BUF_SIZE _ length (hend bs (hsize file bs hbs))
        (Or.inl (by decide)) st
    · intro chunks hne hflat
      rw [foldlM_splits upd hupd chunks hne st,
        readStream_splits upd hupd BUF_SIZE _ length (Or.inl (by decide)) st, hflat,
        seekSkip_rest]
      rfl

/-- C18 on the file `f` holding `1 2 3`, SHA-256 file case: a buffer of one byte
makes three update calls, and the result is the one of `digest`. -/
theorem chunk_boundary_independence_witness :
    chunksRead 1 (seekSkip ⟨[1, 2, 3], 0⟩ 0) (-1) = [[1], [2], [3]] ∧
    chunksRead BUF_SIZE (seekSkip ⟨[1, 2, 3], 0⟩ 0) (-1) = [[1, 2, 3]] ∧
    digestWith 1 samplePrims ⟨false⟩ (oneFile [1, 2, 3]) (fun _ => 0) (.str [102]) 104 (-1) 0 0 0
      = digest samplePrims ⟨false⟩ (oneFile [1, 2, 3]) (fun _ => 0) (.str [102]) 104 (-1) 0 0 0 :=
  ⟨by decide, by decide,
   (chunk_boundary_independence samplePrims samplePrims_chunkIndependent ⟨false⟩
      (oneFile [1, 2, 3]) (fun _ => 0) (.str [102]) 104 (-1) 0 0 0).1 [1, 2, 3] (by decide) 1
      (by decide)⟩

/-! ### Termination of the read loops -/

theorem readLimited_fuel {σ : Type} (upd : σ → List Nat → Except DigestError σ) (bs : Nat) :
    ∀ (fuel1 fuel2 : Nat) (fp : FILE) (length : Int) (st : σ),
      fp.content.length - fp.pos < fuel1 → fp.content.length - fp.pos < fuel2 →
      readLimited upd bs fuel1 fp length st = readLimited upd bs fuel2 fp length st := by
  intro fuel1
  induction fuel1 with
  | zero => intro fuel2 fp length st h; omega
  | succ fuel1 ih =>
    intro fuel2 fp length st h1 h2
    cases fuel2 with
    | zero => omega
    | succ fuel2 =>
      simp only [readLimited]
      by_cases hgo : ((((fread bs fp).1.length : Nat) : Int) > 0 ∧ length > 0)
      · rw [if_pos hgo, if_pos hgo]
        have hbuf : 0 < (fread bs fp).1.length := by omega
        cases upd st (List.take
            (if (((fread bs fp).1.length : Nat) : Int) > length then length
              else (((fread bs fp).1.length : Nat) : Int)).toNat (fread bs fp).1) with
        | error e => rfl
        | ok s =>
          exact ih fuel2 _ _ s (fread_fuel bs fuel1 fp h1 hbuf) (fread_fuel bs fuel2 fp h2 hbuf)
      · rw [if_neg hgo, if_neg hgo]

theorem readAll_fuel {σ : Type} (upd : σ → List Nat → Except DigestError σ) (bs : Nat) :
    ∀ (fuel1 fuel2 : Nat) (fp : FILE) (st : σ),
      fp.content.length - fp.pos < fuel1 → fp.content.length - fp.pos < fuel2 →
      readAll upd bs fuel1 fp st = readAll upd bs fuel2 fp st := by
  intro fuel1
  induction fuel1 with
  | zero => intro fuel2 fp st h; omega
  | succ fuel1 ih =>
    intro fuel2 fp st h1 h2
    cases fuel2 with
    | zero => omega
    | succ fuel2 =>
      simp only [readAll]
      by_cases hgo : (((fread bs fp).1.length : Nat) : Int) > 0
      · rw [if_pos hgo, if_pos hgo]
        have hbuf : 0 < (fread bs fp).1.length := by omega
        cases upd st (List.take ((((fread bs fp).1.length : Nat) : Int)).toNat
            (fread bs fp).1) with
        | error e => rfl
        | ok s =>
          exact ih fuel2 _ s (fread_fuel bs fuel1 fp h1 hbuf) (fread_fuel bs fuel2 fp h2 hbuf)
      · rw [if_neg hgo, if_neg hgo]

theorem seekSkip_pos (file : List Nat) (skip : Int) :
    (seekSkip ⟨file, 0⟩ skip).pos = (max skip 0).toNat := by
  by_cases hs : skip > 0
  · simp only [seekSkip, hs, if_true, fseek]
    rw [max_eq_left (by omega)]
  · simp only [seekSkip, hs, if_false]
    rw [max_eq_right (by omega)]
    rfl

theorem foldlM_no_fuel_error {σ : Type} (upd : σ → List Nat → Except DigestError σ)
    (hupd : ∀ s c, upd s c ≠ .error .outOfFuel) (chunks : List (List Nat)) :
    ∀ st, chunks.foldlM upd st ≠ .error .outOfFuel := by
  induction chunks with
  | nil => intro st h; cases h
  | cons c chunks ih =>
    intro st
    rw [List.foldlM_cons]
    cases hu : upd st c with
    | error e =>
      intro h
      exact hupd st c (hu.trans h)
    | ok s => exact ih s

/-- C19: the read loop of a file case ends, for every file content, `skip` and
`length`.  Every iteration that calls the update function has read at least
one byte (no chunk is empty), so there are at most as many of them as bytes
left in the file after the seek; a bound of one more on the number of
iterations is never hit: with any bound above the number of bytes left the
loop yields the state reached by the update calls on the chunks, and it does
not report the bound unless the update call does.  `digest` then finalizes:
for every supported file code it returns a value when the file can be opened
and xxHash reports no error. -/
theorem read_loop_terminates (file : List Nat) (skip length : Int) :
    (chunksRead BUF_SIZE (seekSkip ⟨file, 0⟩ skip) length).length
      ≤ file.length - (max skip 0).toNat ∧
    (∀ c ∈ chunksRead BUF_SIZE (seekSkip ⟨file, 0⟩ skip) length, c ≠ []) ∧
    (∀ (σ : Type) (upd : σ → List Nat → Except DigestError σ) (st : σ) (fuel : Nat),
      file.length - (max skip 0).toNat < fuel →
      (if length ≥ 0 then readLimited upd BUF_SIZE fuel (seekSkip ⟨file, 0⟩ skip) length st
        else readAll upd BUF_SIZE fuel (seekSkip ⟨file, 0⟩ skip) st)
        = (chunksRead BUF_SIZE (seekSkip ⟨file, 0⟩ skip) length).foldlM upd st) ∧
    (∀ (σ : Type) (upd : σ → List Nat → Except DigestError σ) (st : σ),
      (∀ s c, upd s c ≠ .error .outOfFuel) →
      readStream upd BUF_SIZE (seekSkip ⟨file, 0⟩ skip) length st ≠ .error .outOfFuel) ∧
    (∀ (P : Prims) (host : Host) (fs : FileSystem) (junk : Nat → Nat) (Txt : SEXP)
        (algo r seed : Int), algo ∈ supportedCodes → algo ≥ 100 →
      inputBytes fs Txt algo = some file →
      (algo ∈ xxhStreamCodes → P.ResetOk seed ∧ P.UpdateOk) →
      ∃ res, (digest P host fs junk Txt algo length skip r seed).value = .ok res) := by
  obtain ⟨_, hcount, hne, hrun⟩ :=
    chunksRead_spec BUF_SIZE (by decide) (seekSkip ⟨file, 0⟩ skip) length
  have hrem : (seekSkip ⟨file, 0⟩ skip).content.length - (seekSkip ⟨file, 0⟩ skip).pos
      = file.length - (max skip 0).toNat := by
    rw [seekSkip_content, seekSkip_pos]
  rw [hrem] at hcount
  refine ⟨hcount, hne, ?_, ?_, ?_⟩
  · intro σ upd st fuel hfuel
    rw [← hrun]
    unfold readStream
    have hlt : (seekSkip ⟨file, 0⟩ skip).content.length - (seekSkip ⟨file, 0⟩ skip).pos
        < (seekSkip ⟨file, 0⟩ skip).content.length + 1 := by omega
    split
    · exact readLimited_fuel upd BUF_SIZE _ _ _ length st (by rw [hrem]; exact hfuel) hlt
    · exact readAll_fuel upd BUF_SIZE _ _ _ st (by rw [hrem]; exact hfuel) hlt
  · intro σ upd st hupd
    rw [hrun]
    exact foldlM_no_fuel_error upd hupd _ st
  · intro P host fs junk Txt algo r seed halgo hfile hin hxxh
    obtain ⟨txt, n, hv⟩ :=
      digest_file_value P host fs junk Txt algo length skip r seed file hfile hin
    rw [hv]
    exact emit_switch_isOk P host BUF_SIZE algo _ _ (some ⟨file, 0⟩) length skip seed r _
      (junk_length junk) halgo (fun _ => rfl) (fun h => (hxxh h).1)
      (Or.inl ⟨by decide, fun h => (hxxh h).2⟩)

/-- C19 on a file of five bytes read from the byte 1 on: one chunk of four
bytes, and a loop that ends within the bound of five iterations. -/
theorem read_loop_terminates_witness :
    chunksRead BUF_SIZE (seekSkip ⟨[1, 2, 3, 4, 5], 0⟩ 1) (-1) = [[2, 3, 4, 5]] ∧
    (if (-1 : Int) ≥ 0 then
        readLimited record BUF_SIZE 5 (seekSkip ⟨[1, 2, 3, 4, 5], 0⟩ 1) (-1) []
      else readAll record BUF_SIZE 5 (seekSkip ⟨[1, 2, 3, 4, 5], 0⟩ 1) [])
      = (chunksRead BUF_SIZE (seekSkip ⟨[1, 2, 3, 4, 5], 0⟩ 1) (-1)).foldlM record [] ∧
    readAll record BUF_SIZE 5 (seekSkip ⟨[1, 2, 3, 4, 5], 0⟩ 1) [] = .ok [[2, 3, 4, 5]] :=
  ⟨by decide,
   (read_loop_terminates [1, 2, 3, 4, 5] 1 (-1)).2.2.1 _ record [] 5 (by decide),
   by decide⟩

/-! ## The length handed to `PMurHash32_Result`: claim C20 -/

/-- C20: in the file case of MurmurHash3 (code 108) the count `total_length`
handed to `PMurHash32_Result` is the sum of the sizes of the chunks handed to
`PMurHash32_Process`, which is the number of bytes of the window of the file;
the in-memory case (code 8) on the same bytes and window hands `PMurHash32`
this number as `nChar` (and the bytes of the window).  A file has fewer than
`2 ^ 64` bytes, the range of `size_t`. -/
theorem murmur_total_length_is_window_size (P : Prims) (host : Host) (fs : FileSystem)
    (junk : Nat → Nat) (path file : List Nat) (length skip r seed : Int)
    (hfile : fs (cstring path) = some file) (hsize : file.length < 2 ^ 64) :
    (digest P host fs junk (.str path) 108 length skip r seed).value
      = .ok (render (bigEndianBytes 4
          (P.PMurHash32_Result
            ((chunksRead BUF_SIZE (seekSkip ⟨file, 0⟩ skip) length).foldl
              P.PMurHash32_Process ((seed % 2 ^ 32).toNat, 0)).1
            ((chunksRead BUF_SIZE (seekSkip ⟨file, 0⟩ skip) length).foldl
              P.PMurHash32_Process ((seed % 2 ^ 32).toNat, 0)).2
            ((chunksRead BUF_SIZE (seekSkip ⟨file, 0⟩ skip) length).map List.length).sum
            % 2 ^ 32)) r) ∧
    ((chunksRead BUF_SIZE (seekSkip ⟨file, 0⟩ skip) length).map List.length).sum
      = (windowed file skip length).length ∧
    (window file file.length 8 length skip).2 = ((windowed file skip length).length : Int) ∧
    (digest P host fs junk (.raw file) 8 length skip r seed).value
      = .ok (render (bigEndianBytes 4
          (P.PMurHash32 seed (windowed file skip length) % 2 ^ 32)) r) := by
  have hout := junk_length junk
  have hrun := (chunksRead_spec BUF_SIZE (by decide) (seekSkip ⟨file, 0⟩ skip) length).2.2.2
  have hflat := chunksRead_window BUF_SIZE (by decide) file skip length
  have hsum : ((chunksRead BUF_SIZE (seekSkip ⟨file, 0⟩ skip) length).map List.length).sum
      = (windowed file skip length).length := by
    rw [← List.length_flatten, hflat]
  have hle : (windowed file skip length).length ≤ file.length := by
    unfold windowed
    split
    · rw [List.length_take, List.length_drop]; omega
    · rw [List.length_drop]; omega
  have hmod : (windowed file skip length).length % 2 ^ 64 = (windowed file skip length).length :=
    Nat.mod_eq_of_lt (by omega)
  refine ⟨?_, hsum, ?_, ?_⟩
  · obtain ⟨txt, n, hv⟩ := digest_file_value P host fs junk (.str path) 108 length skip r seed
      file (by decide) (by simp [inputBytes, hfile])
    rw [hv]
    simp only [switchAlgo, Int.reduceEq, ↓reduceIte, withFile, emit_bind, hrun, murmur_fold,
      Except.bind, emit_u32 host _ _ r hout, murmur_total]
    rw [hflat, hmod, hsum]
  · have := (window_region_take file file.length 8 length skip (by decide) (Nat.le_refl _)).2
    rw [List.take_length] at this
    exact this
  · obtain ⟨txt, n, hreg, _, hv⟩ := digest_memory_value P host fs junk (.raw file) 8 length skip
      r seed file (by decide) (by simp [inputBytes])
    rw [hv]
    simp only [switchAlgo, Int.reduceEq, ↓reduceIte, hreg]
    exact emit_u32 host _ _ r hout

/-- C20 on the file `f` holding `1 2 3 4 5` with `skip = 1` and `length = 3`:
the count is 3, the size of the window `2 3 4`. -/
theorem murmur_total_length_is_window_size_witness :
    ((chunksRead BUF_SIZE (seekSkip ⟨[1, 2, 3, 4, 5], 0⟩ 1) 3).map List.length).sum = 3 ∧
    windowed [1, 2, 3, 4, 5] 1 3 = [2, 3, 4] ∧
    (window [1, 2, 3, 4, 5] 5 8 3 1).2 = 3 :=
  ⟨(murmur_total_length_is_window_size samplePrims ⟨false⟩ (oneFile [1, 2, 3, 4, 5])
      (fun _ => 0) [102] [1, 2, 3, 4, 5] 3 1 0 0 (by decide) (by decide)).2.1.trans (by decide),
   by decide,
   (murmur_total_length_is_window_size samplePrims ⟨false⟩ (oneFile [1, 2, 3, 4, 5])
      (fun _ => 0) [102] [1, 2, 3, 4, 5] 3 1 0 0 (by decide) (by decide)).2.2.1.trans
      (by decide)⟩

/-! ## The writes into the array `output`: claim C21 -/

/-- The array `output` of `digest` after `_store_from_char_ptr` stored a byte
digest. -/
theorem stored_hash {n : Nat} (h : ByteHash n) (c : h.ctx) (output : List Nat) (L r : Int)
    (hout : output.length = 129) (hn : 0 < n ∧ n ≤ 64) :
    stored (_store_from_char_ptr (h.finish c) output n r) L
      = .ok (filled output (h.finish c) r, L) := by
  have hlen := h.finish_length c
  have htake : (h.finish c).take n = h.finish c := List.take_of_length_le (by omega)
  by_cases hr : r = 0
  · subst hr
    have hloop := store_hex_loop (h.finish c) output (h.finish_byte c) (n - 1)
      (by omega) (by omega)
    rw [Nat.sub_add_cancel hn.1, htake] at hloop
    simp only [_store_from_char_ptr, ne_eq, not_true_eq_false, if_false, filled]
    rw [hloop, hlen]
    rfl
  · simp only [_store_from_char_ptr, hr, ne_eq, not_false_eq_true, if_true, filled]
    rw [memcpy_eq _ _ _ (by omega) (by omega), htake, hlen]
    rfl

theorem stored_u32 (host : Host) (v : Nat) (output : List Nat) (r : Int)
    (hout : output.length = 129) :
    stored (_store_from_int32 host (v % 2 ^ 32) output r) 4
      = .ok (filled output (bigEndianBytes 4 (v % 2 ^ 32)) r, 4) := by
  have hv : v % 2 ^ 32 < 2 ^ 32 := Nat.mod_lt _ (by norm_num)
  by_cases hr : r = 0
  · subst hr
    have hn : v % 2 ^ 32 < 16 ^ (7 + 1) := by norm_num at hv ⊢; omega
    have hl : (fmtHex 8 (v % 2 ^ 32)).length = 8 := fmtHex_length 7 _ hn
    simp only [_store_from_int32, ne_eq, not_true_eq_false, if_false, filled]
    rw [snprintf_zero _ _ _ (by omega) (by omega), hexOfBytes_bigEndian_four _ hv, hl,
      bigEndianBytes_length]
    rfl
  · simp only [_store_from_int32, hr, ne_eq, not_false_eq_true, if_true, filled]
    rw [store_native_raw host 4 _ output (by omega), bigEndianBytes_length]
    rfl

theorem stored_u64 (host : Host) (v : Nat) (output : List Nat) (r : Int)
    (hout : output.length = 129) :
    stored (_store_from_int64 host (v % 2 ^ 64) output r) 8
      = .ok (filled output (bigEndianBytes 8 (v % 2 ^ 64)) r, 8) := by
  have hv : v % 2 ^ 64 < 2 ^ 64 := Nat.mod_lt _ (by norm_num)
  by_cases hr : r = 0
  · subst hr
    have hn : v % 2 ^ 64 < 16 ^ (15 + 1) := by norm_num at hv ⊢; omega
    have hl : (fmtHex 16 (v % 2 ^ 64)).length = 16 := fmtHex_length 15 _ hn
    simp only [_store_from_int64, ne_eq, not_true_eq_false, if_false, filled]
    rw [snprintf_zero _ _ _ (by omega) (by omega), hexOfBytes_bigEndian_eight _ hv, hl,
      bigEndianBytes_length]
    rfl
  · simp only [_store_from_int64, hr, ne_eq, not_false_eq_true, if_true, filled]
    rw [store_native_raw host 8 _ output (by omega), bigEndianBytes_length]
    rfl

theorem stored_u128 (a b : Nat) (output : List Nat) (r : Int) (hout : output.length = 129) :
    stored (storeXXH128 (a % 2 ^ 64, b % 2 ^ 64) output r) 16
      = .ok (filled output (XXH128_canonicalFromHash (a % 2 ^ 64, b % 2 ^ 64)) r, 16) := by
  have ha : a % 2 ^ 64 < 2 ^ 64 := Nat.mod_lt _ (by norm_num)
  have hb : b % 2 ^ 64 < 2 ^ 64 := Nat.mod_lt _ (by norm_num)
  have hn1 : a % 2 ^ 64 < 16 ^ (15 + 1) := by norm_num at ha ⊢; omega
  have hn2 : b % 2 ^ 64 < 16 ^ (15 + 1) := by norm_num at hb ⊢; omega
  have hc := canonical_length (a % 2 ^ 64, b % 2 ^ 64)
  by_cases hr : r = 0
  · subst hr
    have hl : (fmtHex 16 (a % 2 ^ 64) ++ fmtHex 16 (b % 2 ^ 64)).length = 32 := by
      rw [List.length_append, fmtHex_length 15 _ hn1, fmtHex_length 15 _ hn2]
    simp only [storeXXH128, ne_eq, not_true_eq_false, if_false, filled]
    rw [snprintf_zero _ _ _ (by omega) (by omega), hl, hc]
    simp only [XXH128_canonicalFromHash, hexOfBytes_append, hexOfBytes_bigEndian_eight _ ha,
      hexOfBytes_bigEndian_eight _ hb]
    rfl
  · have htake : (XXH128_canonicalFromHash (a % 2 ^ 64, b % 2 ^ 64)).take 16
        = XXH128_canonicalFromHash (a % 2 ^ 64, b % 2 ^ 64) :=
      List.take_of_length_le (by omega)
    simp only [storeXXH128, hr, ne_eq, not_false_eq_true, if_true, filled]
    rw [memcpy_eq _ _ _ (by omega) (by omega), htake, hc]
    rfl

theorem inBounds_ok {α : Type} (a : α) :
    (Except.ok a : Except DigestError α) ≠ .error .outOfBounds := by
  intro h; cases h

theorem inBounds_bind {V α : Type} (x : Except DigestError V) (k : V → Except DigestError α)
    (hx : x ≠ .error .outOfBounds) (hk : ∀ v, k v ≠ .error .outOfBounds) :
    x.bind k ≠ .error .outOfBounds := by
  cases x with
  | error e =>
    intro h
    simp only [Except.bind] at h
    cases h
    exact hx rfl
  | ok v => exact hk v

theorem inBounds_withFile {α : Type} (fp : Option FILE) (k : FILE → Except DigestError α)
    (hk : ∀ f, k f ≠ .error .outOfBounds) : withFile fp k ≠ .error .outOfBounds := by
  cases fp with
  | none => intro h; cases h
  | some f => exact hk f

theorem inBounds_checkedReset {σ : Type} (o : Option σ) :
    checkedReset o ≠ .error .outOfBounds := by
  cases o <;> (intro h; cases h)

theorem inBounds_total {σ : Type} (u : σ → List Nat → σ) :
    ∀ s c, total u s c ≠ .error .outOfBounds := by
  intro s c h; cases h

theorem inBounds_checked {σ : Type} (u : σ → List Nat → Option σ) :
    ∀ s c, checked u s c ≠ .error .outOfBounds := by
  intro s c h
  unfold checked at h
  cases hu : u s c <;> rw [hu] at h <;> cases h

theorem foldlM_inBounds {σ : Type} (upd : σ → List Nat → Except DigestError σ)
    (hupd : ∀ s c, upd s c ≠ .error .outOfBounds) (chunks : List (List Nat)) :
    ∀ st, chunks.foldlM upd st ≠ .error .outOfBounds := by
  induction chunks with
  | nil => intro st h; cases h
  | cons c chunks ih =>
    intro st
    rw [List.foldlM_cons]
    cases hu : upd st c with
    | error e =>
      intro h
      exact hupd st c (hu.trans h)
    | ok s => exact ih s

theorem inBounds_readStream {σ : Type} (upd : σ → List Nat → Except DigestError σ)
    (hupd : ∀ s c, upd s c ≠ .error .outOfBounds) (fp : FILE) (length : Int) (st : σ) :
    readStream upd BUF_SIZE fp length st ≠ .error .outOfBounds := by
  rw [(chunksRead_spec BUF_SIZE (by decide) fp length).2.2.2]
  exact foldlM_inBounds upd hupd _ st

/-- The array and the count the `switch` leaves for a supported code: the
array `output` filled with a digest of the declared length. -/
theorem switch_filled (P : Prims) (host : Host) (bs : Nat) (algo : Int) (txt : List Nat)
    (nChar : Int) (fp : Option FILE) (length skip seed r : Int) (output : List Nat)
    (hout : output.length = 129) (h : algo ∈ supportedCodes) :
    ∀ res, switchAlgo P host bs algo txt nChar fp length skip seed r output = .ok res →
      ∃ B, res = (filled output B r, (declaredLength algo : Int)) ∧
        B.length = declaredLength algo ∧ ∀ b ∈ B, b < 256 := by
  simp only [supportedCodes, List.mem_cons, List.mem_singleton, List.not_mem_nil, or_false] at h
  rcases h with rfl | rfl | rfl | rfl | rfl | rfl | rfl | rfl | rfl | rfl | rfl | rfl |
    rfl | rfl | rfl | rfl | rfl | rfl | rfl | rfl | rfl | rfl | rfl | rfl
  all_goals simp only [switchAlgo, Int.reduceEq, ↓reduceIte]
  all_goals simp (disch := first | exact hout | decide | rfl) only
    [stored_hash, stored_u32, stored_u64, stored_u128]
  all_goals
    repeat first
      | refine ok_of_withFile _ _ (fun f => ?_)
      | refine ok_of_bind _ _ (fun v => ?_)
      | refine ok_of_ok _ ?_
  all_goals
    first
      | exact ⟨_, rfl, ByteHash.finish_length _ _, ByteHash.finish_byte _ _⟩
      | exact ⟨_, rfl, bigEndianBytes_length _ _, bigEndianBytes_byte _ _⟩
      | exact ⟨_, rfl, canonical_length _, canonical_byte _⟩

/-- No store of the `switch` leaves the array `output`. -/
theorem switch_inBounds (P : Prims) (host : Host) (algo : Int) (txt : List Nat)
    (nChar : Int) (fp : Option FILE) (length skip seed r : Int) (output : List Nat)
    (hout : output.length = 129) (h : algo ∈ supportedCodes) :
    switchAlgo P host BUF_SIZE algo txt nChar fp length skip seed r output
      ≠ .error .outOfBounds := by
  simp only [supportedCodes, List.mem_cons, List.mem_singleton, List.not_mem_nil, or_false] at h
  rcases h with rfl | rfl | rfl | rfl | rfl | rfl | rfl | rfl | rfl | rfl | rfl | rfl |
    rfl | rfl | rfl | rfl | rfl | rfl | rfl | rfl | rfl | rfl | rfl | rfl
  all_goals simp only [switchAlgo, Int.reduceEq, ↓reduceIte]
  all_goals simp (disch := first | exact hout | decide | rfl) only
    [stored_hash, stored_u32, stored_u64, stored_u128]
  all_goals
    repeat first
      | exact inBounds_ok _
      | (apply inBounds_withFile; intro f)
      | (apply inBounds_bind _ _ (inBounds_checkedReset _); intro s)
      | (apply inBounds_bind _ _ (inBounds_readStream _ (inBounds_total _) _ _ _); intro v)
      | (apply inBounds_bind _ _ (inBounds_readStream _ (inBounds_checked _) _ _ _); intro v)

/-- The value of `digest` is never the error of an access outside an array. -/
theorem emit_switch_inBounds (P : Prims) (host : Host) (algo : Int) (txt : List Nat)
    (nChar : Int) (fp : Option FILE) (length skip seed r : Int) (output : List Nat)
    (hout : output.length = 129) (h : algo ∈ supportedCodes) :
    emit (switchAlgo P host BUF_SIZE algo txt nChar fp length skip seed r output) r
      ≠ .error .outOfBounds := by
  simp only [supportedCodes, List.mem_cons, List.mem_singleton, List.not_mem_nil, or_false] at h
  rcases h with rfl | rfl | rfl | rfl | rfl | rfl | rfl | rfl | rfl | rfl | rfl | rfl |
    rfl | rfl | rfl | rfl | rfl | rfl | rfl | rfl | rfl | rfl | rfl | rfl
  all_goals simp only [switchAlgo, Int.reduceEq, ↓reduceIte, emit_withFile, emit_bind]
  all_goals simp (disch := first | exact hout | decide | rfl) only
    [emit_hash, emit_u32, emit_u64, emit_u128]
  all_goals
    repeat first
      | exact inBounds_ok _
      | (apply inBounds_withFile; intro f)
      | (apply inBounds_bind _ _ (inBounds_checkedReset _); intro s)
      | (apply inBounds_bind _ _ (inBounds_readStream _ (inBounds_total _) _ _ _); intro v)
      | (apply inBounds_bind _ _ (inBounds_readStream _ (inBounds_checked _) _ _ _); intro v)

theorem declaredLength_le (algo : Int) (h : algo ∈ supportedCodes) :
    0 < declaredLength algo ∧ declaredLength algo ≤ 64 := by
  simp only [supportedCodes, List.mem_cons, List.mem_singleton, List.not_mem_nil, or_false] at h
  rcases h with rfl | rfl | rfl | rfl | rfl | rfl | rfl | rfl | rfl | rfl | rfl | rfl |
    rfl | rfl | rfl | rfl | rfl | rfl | rfl | rfl | rfl | rfl | rfl | rfl
  all_goals decide

/-- The only error raised while the input is opened is the one of the file. -/
theorem openInput_error (fs : FileSystem) (Txt : SEXP) (algo : Int) (e : DigestError)
    (h : openInput fs Txt algo = .error e) : e = .cannotOpenInputFile := by
  cases Txt with
  | raw b => cases h
  | str s =>
    simp only [openInput] at h
    split at h
    · split at h
      · cases h; rfl
      · cases h
    · cases h

theorem filled_length (output B : List Nat) (r : Int) (hout : output.length = 129)
    (hB : B.length ≤ 64) : (filled output B r).length = 129 := by
  unfold filled
  split
  · rw [List.length_append, List.length_drop]; omega
  · simp only [List.length_append, List.length_map, hexOfBytes_length, List.length_drop,
      List.length_singleton]
    omega

/-- C21: for every supported code and both output modes, the stores of the
`switch` into the local array `output` of 129 cells stay inside it: no store
leaves the array, and `digest` as a whole makes no access outside an array.
When the `switch` ends, `output_length` is the declared digest length, at most
64.  In raw mode exactly the first `output_length` cells were written and the
rest of the array is untouched; in hex mode exactly the first
`2 * output_length + 1` cells were, `2 * output_length` characters of `0-9a-f`
and the NUL, and this number is at most 129.  SHA-512 in hex mode attains the
bound: 129 cells.  Each `snprintf(output + j * 2, 3, "%02x", hash[j])` of
`_store_from_char_ptr`, for `j` below a length of at most 64, stores at the
indices `2j`, `2j + 1`, `2j + 2`, the last of which is at most 128. -/
theorem output_stays_in_bounds (P : Prims) (host : Host) (junk : Nat → Nat) (algo : Int)
    (txt : List Nat) (nChar : Int) (fp : Option FILE) (length skip seed r : Int)
    (halgo : algo ∈ supportedCodes) :
    switchAlgo P host BUF_SIZE algo txt nChar fp length skip seed r
        ((List.range (128 + 1)).map junk) ≠ .error .outOfBounds ∧
    (∀ out L, switchAlgo P host BUF_SIZE algo txt nChar fp length skip seed r
        ((List.range (128 + 1)).map junk) = .ok (out, L) →
      L = declaredLength algo ∧ declaredLength algo ≤ 64 ∧ out.length = 129 ∧
      (r ≠ 0 → ∃ B : List Nat, B.length = declaredLength algo ∧
        out = B ++ ((List.range (128 + 1)).map junk).drop (declaredLength algo)) ∧
      (r = 0 → ∃ text : List Char, text.length = 2 * declaredLength algo ∧
        (∀ c ∈ text, c ∈ sha2_hex_digits) ∧ 2 * declaredLength algo + 1 ≤ 129 ∧
        out = text.map Char.toNat ++ [0]
          ++ ((List.range (128 + 1)).map junk).drop (2 * declaredLength algo + 1))) ∧
    (∀ (fs : FileSystem) (Txt : SEXP),
      (digest P host fs junk Txt algo length skip r seed).value ≠ .error .outOfBounds) ∧
    (declaredLength 5 = 64 ∧
      2 * declaredLength 5 + 1 = ((List.range (128 + 1)).map junk).length) ∧
    (∀ (out : List Nat) (n j b : Nat), out.length = 129 → n ≤ 64 → j < n → b < 256 →
      2 * j + 2 ≤ 128 ∧
      snprintf out (j * 2) 3 (fmtHex 2 b)
        = some (out.take (2 * j) ++ ((hexOfBytes [b]).map Char.toNat ++ [0])
            ++ out.drop (2 * j + 3))) := by
  have hout := junk_length junk
  obtain ⟨_, hle⟩ := declaredLength_le algo halgo
  refine ⟨switch_inBounds P host algo txt nChar fp length skip seed r _ hout halgo, ?_, ?_,
    ⟨by decide, by rw [hout]; decide⟩, ?_⟩
  · intro out L hsw
    obtain ⟨B, hres, hlen, _⟩ :=
      switch_filled P host BUF_SIZE algo txt nChar fp length skip seed r _ hout halgo _ hsw
    have hout1 : out = filled ((List.range (128 + 1)).map junk) B r := congrArg Prod.fst hres
    have hL : L = (declaredLength algo : Int) := congrArg Prod.snd hres
    refine ⟨hL, hle, ?_, ?_, ?_⟩
    · rw [hout1]
      exact filled_length _ B r hout (by omega)
    · intro hr
      refine ⟨B, hlen, ?_⟩
      rw [hout1, filled, if_pos hr, hlen]
    · intro hr
      refine ⟨hexOfBytes B, by rw [hexOfBytes_length, hlen], hexOfBytes_mem B, by omega, ?_⟩
      rw [hout1, filled, if_neg (by simp [hr]), hlen]
  · intro fs Txt
    rw [digest, digestWith_value]
    cases hopen : openInput fs Txt algo with
    | error e =>
      rw [openInput_error fs Txt algo e hopen]
      intro h
      cases h
    | ok i => exact emit_switch_inBounds P host algo _ _ _ length skip seed r _ hout halgo
  · intro out n j b hlen hn hj hb
    refine ⟨by omega, ?_⟩
    have hs := snprintf_byte (out.take (2 * j)) (out.drop (2 * j)) b hb
      (by rw [List.length_drop]; omega)
    rw [List.take_append_drop, List.length_take, Nat.min_eq_left (by omega),
      List.drop_drop] at hs
    rw [Nat.mul_comm j 2, hs]

/-- C21 on SHA-512 in hex mode, with the sample hash in its place: the store
ends without leaving the array, and the NUL is in the last cell, at index
128. -/
theorem output_stays_in_bounds_witness :
    switchAlgo samplePrims ⟨false⟩ BUF_SIZE 5 [1, 2, 3] 3 none (-1) 0 0 0
        ((List.range (128 + 1)).map fun _ => 7) ≠ .error .outOfBounds ∧
    (switchAlgo samplePrims ⟨false⟩ BUF_SIZE 5 [1, 2, 3] 3 none (-1) 0 0 0
        ((List.range (128 + 1)).map fun _ => 7)).map (fun res => (res.1[128]?, res.1.length, res.2))
      = .ok (some 0, 129, 64) :=
  ⟨(output_stays_in_bounds samplePrims ⟨false⟩ (fun _ => 7) 5 [1, 2, 3] 3 none (-1) 0 0 0
      (by decide)).1,
   by decide⟩

/-! ## The count handed to `digest_crc32`: claim C22 -/

theorem foldlM_total {σ : Type} (u : σ → List Nat → σ) (chunks : List (List Nat)) :
    ∀ st, chunks.foldlM (total u) st = .ok (chunks.foldl u st) := by
  induction chunks with
  | nil => intro st; rfl
  | cons c chunks ih =>
    intro st
    rw [List.foldlM_cons]
    simp only [total, bind, Except.bind]
    exact ih (u st c)

/-- Case 3 reads the count `nChar` through `unsigned l = nChar` only: two
counts that agree modulo `2 ^ 32` give the same run. -/
theorem switch_crc32_count (P : Prims) (host : Host) (bs : Nat) (txt : List Nat)
    (n m : Int) (fp : Option FILE) (length skip seed r : Int) (output : List Nat)
    (h : n % 2 ^ 32 = m % 2 ^ 32) :
    switchAlgo P host bs 3 txt n fp length skip seed r output
      = switchAlgo P host bs 3 txt m fp length skip seed r output := by
  simp only [switchAlgo, Int.reduceEq, ↓reduceIte, h]

/-- C22 fails on the code.  On a raw vector of `2 ^ 32` bytes with `skip = 0`
and `length = -1` the windowed count `nChar` is `2 ^ 32`, a length an
`R_xlen_t` holds, but the count `nChar mod 2 ^ 32` that `unsigned l = nChar`
hands to `digest_crc32` is 0: the primitive receives no byte, case 3 runs as
it does on the count 0, and `digest` returns the checksum of no byte.  The
file case 103 hands `digest_crc32` chunks that make up the whole file,
whatever its length. -/
theorem crc32_count_is_truncated (P : Prims) (host : Host) (fs : FileSystem)
    (junk : Nat → Nat) (file : List Nat) (r seed : Int) :
    (window (List.replicate 4294967296 0) 4294967296 3 (-1) 0).2 = 4294967296 ∧
    (window (List.replicate 4294967296 0) 4294967296 3 (-1) 0).2 % 2 ^ 32 = 0 ∧
    (window (List.replicate 4294967296 0) 4294967296 3 (-1) 0).2 % 2 ^ 32
      ≠ (window (List.replicate 4294967296 0) 4294967296 3 (-1) 0).2 ∧
    (∀ txt : List Nat,
      switchAlgo P host BUF_SIZE 3 txt 4294967296 none (-1) 0 seed r
          ((List.range (128 + 1)).map junk)
        = switchAlgo P host BUF_SIZE 3 txt 0 none (-1) 0 seed r
          ((List.range (128 + 1)).map junk)) ∧
    (digest P host fs junk (.raw (List.replicate 4294967296 0)) 3 (-1) 0 r seed).value
      = .ok (render (bigEndianBytes 4
          (P.digest_crc32 (P.digest_crc32 0 none) (some []) % 2 ^ 32)) r) ∧
    (chunksRead BUF_SIZE (seekSkip ⟨file, 0⟩ 0) (-1)).flatten = file ∧
    (digest P host (oneFile file) junk (.str [102]) 103 (-1) 0 r seed).value
      = .ok (render (bigEndianBytes 4
          ((chunksRead BUF_SIZE (seekSkip ⟨file, 0⟩ 0) (-1)).foldl
            (fun val buf => P.digest_crc32 val (some buf)) (P.digest_crc32 0 none)
            % 2 ^ 32)) r) := by
  have hout := junk_length junk
  have hw : window (List.replicate 4294967296 0) 4294967296 3 (-1) 0
      = (List.replicate 4294967296 0, 4294967296) := window_identity _ _ _
  have hmod : (4294967296 : Int) % 2 ^ 32 = 0 := by norm_num
  have hrun := (chunksRead_spec BUF_SIZE (by decide) (seekSkip ⟨file, 0⟩ 0) (-1)).2.2.2
  refine ⟨by rw [hw], by rw [hw]; exact hmod, by rw [hw]; norm_num, ?_, ?_, ?_, ?_⟩
  · intro txt
    exact switch_crc32_count P host BUF_SIZE txt _ _ none (-1) 0 seed r _ (by norm_num)
  · exact crc32_count_wraps P host fs junk _ r seed long_count_wraps
  · rw [chunksRead_window BUF_SIZE (by decide) file 0 (-1)]
    simp [windowed]
  · obtain ⟨txt, n, hv⟩ := digest_file_value P host (oneFile file) junk (.str [102]) 103 (-1) 0
      r seed file (by decide) (by simp [inputBytes, oneFile, cstring])
    rw [hv]
    simp only [switchAlgo, Int.reduceEq, ↓reduceIte, withFile, emit_bind, hrun, foldlM_total,
      Except.bind, emit_u32 host _ _ r hout]

/-! ## Where the claim C4 is too strong -/

end Digest
